import Mathlib

/-!
# stmflasher: the serial bootloader protocol engine

A shallow embedding of `stm32.c` (the bootloader session primitives) and of the
workspace resolver and transfer loops of `main.c`.

Machine integers are natural numbers (or integers for `int`) reduced explicitly
where the C type truncates.  The serial line is a value of type `Port`; every
primitive is a function from a port to a result that carries the port after the
call.
-/

namespace Stmflasher

/-! ## The serial line -/

/-- The serial line as the session sees it: the bytes accepted by the port so far
(oldest first), the bytes the device still delivers to the next reads, and the
number of bytes the port accepts before `write(2)` reports an error. -/
structure Port where
  sent : List Nat
  inp : List Nat
  cap : Nat
deriving DecidableEq, Repr

/-- The values of `serial_err_t` (serial.h) that the read and write paths return. -/
inductive serial_err_t where
  | SERIAL_ERR_OK
  | SERIAL_ERR_NOT_CONFIGURED
  | SERIAL_ERR_SYSTEM
  | SERIAL_ERR_NODATA
deriving DecidableEq, Repr

open serial_err_t

/-- What a call leaves behind: it returned a value, or the process was ended
inside it (`exit(1)` in the byte primitives, a failed `assert`). -/
inductive Res (α : Type) where
  | ret : α → Port → Res α
  | halt : Port → Res α
deriving DecidableEq, Repr

/-- A computation on the serial line. -/
def M (α : Type) : Type := Port → Res α

/-- Return a value without touching the line. -/
def M.pure {α : Type} (a : α) : M α := fun p => Res.ret a p

/-- Sequencing: the second computation runs on the port left by the first one. -/
def M.bind {α β : Type} (m : M α) (f : α → M β) : M β := fun p =>
  match m p with
  | Res.ret a q => f a q
  | Res.halt q => Res.halt q

instance : Monad M where
  pure := M.pure
  bind := M.bind

/-- Port write of `serial_write` (serial_posix.c): bytes are accepted until the port
reports an error; the bytes accepted before the error stay on the line. -/
def serial_write (buffer : List Nat) : Port → serial_err_t × Port := fun p =>
  if buffer.length ≤ p.cap then
    (SERIAL_ERR_OK, { p with sent := p.sent ++ buffer, cap := p.cap - buffer.length })
  else
    (SERIAL_ERR_SYSTEM, { p with sent := p.sent ++ buffer.take p.cap, cap := 0 })

/-- Port read of `serial_read` (serial_posix.c): exactly `len` bytes, or
`SERIAL_ERR_NODATA` when the device falls silent before that (read timeout). -/
def serial_read (len : Nat) : Port → serial_err_t × List Nat × Port := fun p =>
  if len ≤ p.inp.length then
    (SERIAL_ERR_OK, p.inp.take len, { p with inp := p.inp.drop len })
  else
    (SERIAL_ERR_NODATA, p.inp, { p with inp := [] })

/-! ## Constants and records of stm32.c -/

def STM32_ACK : Nat := 0x79
def STM32_NACK : Nat := 0x1F
def STM32_CMD_INIT : Nat := 0x7F
def STM32_CMD_GET : Nat := 0x00
def STM32_CMD_EE : Nat := 0x44

/-- The opcode table `struct stm32_cmd`. -/
structure stm32_cmd where
  get : Nat
  gvr : Nat
  gid : Nat
  rm : Nat
  go : Nat
  wm : Nat
  er : Nat
  wp : Nat
  uw : Nat
  rp : Nat
  ur : Nat
deriving DecidableEq, Repr

/-- One row of the device table, fields in the order of the initialisers of
`devices[]`: the addresses are 32-bit, `id`, `fl_pps` and `fl_ps` 16-bit. -/
structure stm32_dev_t where
  id : Nat
  name : String
  ram_start : Nat
  ram_bl_res : Nat
  ram_end : Nat
  fl_start : Nat
  fl_end : Nat
  fl_pps : Nat
  fl_ps : Nat
  mem_start : Nat
  mem_end : Nat
  opt_start : Nat
  opt_end : Nat
  eep_start : Nat
  eep_end : Nat
deriving DecidableEq, Repr

/-- The session record `stm32_t`; `dev` is the table row the handshake selected. -/
structure stm32_t where
  bl_version : Nat
  version : Nat
  option1 : Nat
  option2 : Nat
  pid : Nat
  cmd : stm32_cmd
  dev : stm32_dev_t
deriving DecidableEq, Repr

/-- The device table `devices[]` of stm32.c, the terminating `{0x0}` row included. -/
def devices : List stm32_dev_t :=
  [ ⟨0x412, "STM32F Low-density", 0x20000000, 0x20000200, 0x20002800, 0x08000000, 0x08008000, 4, 1024, 0x1FFFF000, 0x1FFFF800, 0x1FFFF800, 0x1FFFF80F, 0x00000000, 0x00000000⟩,
    ⟨0x410, "STM32F Medium-density", 0x20000000, 0x20000200, 0x20005000, 0x08000000, 0x08020000, 4, 1024, 0x1FFFF000, 0x1FFFF800, 0x1FFFF800, 0x1FFFF80F, 0x00000000, 0x00000000⟩,
    ⟨0x414, "STM32F High-density", 0x20000000, 0x20000200, 0x20010000, 0x08000000, 0x08080000, 2, 2048, 0x1FFFF000, 0x1FFFF800, 0x1FFFF800, 0x1FFFF80F, 0x00000000, 0x00000000⟩,
    ⟨0x418, "STM32F Connectivity line", 0x20000000, 0x20001000, 0x20010000, 0x08000000, 0x08040000, 2, 2048, 0x1FFFB000, 0x1FFFF800, 0x1FFFF800, 0x1FFFF80F, 0x00000000, 0x00000000⟩,
    ⟨0x420, "STM32F Low/Medium-density VL", 0x20000000, 0x20000200, 0x20002000, 0x08000000, 0x08020000, 4, 1024, 0x1FFFF000, 0x1FFFF800, 0x1FFFF800, 0x1FFFF80F, 0x00000000, 0x00000000⟩,
    ⟨0x428, "STM32F High-density VL", 0x20000000, 0x20000200, 0x20008000, 0x08000000, 0x08080000, 2, 2048, 0x1FFFF000, 0x1FFFF800, 0x1FFFF800, 0x1FFFF80F, 0x00000000, 0x00000000⟩,
    ⟨0x430, "STM32F XL-density", 0x20000000, 0x20000800, 0x20018000, 0x08000000, 0x08100000, 2, 2048, 0x1FFFE000, 0x1FFFF800, 0x1FFFF800, 0x1FFFF80F, 0x00000000, 0x00000000⟩,
    ⟨0x416, "STM32L Medium-density", 0x20000000, 0x20000800, 0x20004000, 0x08000000, 0x08020000, 16, 256, 0x1FF00000, 0x1FF01000, 0x1FF80000, 0x1FF8000F, 0x08080000, 0x08081000⟩,
    ⟨0x436, "STM32L High-density", 0x20000000, 0x20001000, 0x2000C000, 0x08000000, 0x08060000, 16, 256, 0x1FF00000, 0x1FF02000, 0x1FF80000, 0x1FF8001F, 0x08080000, 0x08083000⟩,
    ⟨0x440, "STM32F051x", 0x20000000, 0x20000800, 0x20002000, 0x08000000, 0x08010000, 4, 1024, 0x1FFFEC00, 0x1FFFF800, 0x1FFFF800, 0x1FFFF80B, 0x00000000, 0x00000000⟩,
    ⟨0x411, "STM32F2xx", 0x20000000, 0x20002000, 0x20020000, 0x08000000, 0x08100000, 4, 16384, 0x1FFF0000, 0x1FFF7800, 0x1FFFC000, 0x1FFFC00F, 0x00000000, 0x00000000⟩,
    ⟨0x413, "STM32F4xx", 0x20000000, 0x20002000, 0x20020000, 0x08000000, 0x08100000, 4, 16384, 0x1FFF0000, 0x1FFF7800, 0x1FFFC000, 0x1FFFC00F, 0x00000000, 0x00000000⟩,
    ⟨0x427, "STM32L Medium-density Plus", 0x20000000, 0x20000800, 0x2000C000, 0x08000000, 0x08040000, 16, 256, 0x1FF00000, 0x1FF02000, 0x1FF80000, 0x1FF8001F, 0x08080000, 0x08082000⟩,
    ⟨0x422, "STM32F30x & F31x", 0x20000000, 0x20002000, 0x20003000, 0x08000000, 0x08040000, 2, 2048, 0x1FFFE000, 0x1FFFF800, 0x1FFFF800, 0x1FFFF80F, 0x00000000, 0x00000000⟩,
    ⟨0x432, "STM32F37x & F38x", 0x20000000, 0x20002000, 0x20003000, 0x08000000, 0x08040000, 2, 2048, 0x1FFFE000, 0x1FFFF800, 0x1FFFF800, 0x1FFFF80F, 0x00000000, 0x00000000⟩,
    ⟨0x444, "STM32F050x", 0x20000000, 0x20000800, 0x20001000, 0x08000000, 0x08008000, 4, 1024, 0x1FFFEC00, 0x1FFFF800, 0x1FFFF800, 0x1FFFF80B, 0x00000000, 0x00000000⟩,
    ⟨0x0, "", 0, 0, 0, 0, 0, 0, 0, 0, 0, 0, 0, 0, 0⟩ ]

/-! ## Byte order helpers -/

/-- Byte `i` (0 = least significant) of a machine word. -/
def byteOf (v i : Nat) : Nat := v / 256 ^ i % 256

/-- Modelled from the spec: `be_u32` of utils.c, which is not among the sources.  The
spec has the address sent big-endian, so the helper turns a host word into the word
whose storage is big-endian: the four bytes reversed on a little-endian host
(`host_le = true`), the word itself on a big-endian host. -/
def be_u32 (host_le : Bool) (v : Nat) : Nat :=
  if host_le then
    byteOf v 0 * 256 ^ 3 + byteOf v 1 * 256 ^ 2 + byteOf v 2 * 256 + byteOf v 3
  else v % 2 ^ 32

/-- Modelled from the spec: `le_u32` of utils.c, which is not among the sources: the
word whose storage is little-endian (the reset trampoline stores its two words
little-endian). -/
def le_u32 (host_le : Bool) (v : Nat) : Nat :=
  if host_le then v % 2 ^ 32
  else byteOf v 0 * 256 ^ 3 + byteOf v 1 * 256 ^ 2 + byteOf v 2 * 256 + byteOf v 3

/-- The four bytes of a 32-bit object in storage order, which is what
`serial_write(serial, &word, 4)` and `memcpy(mem, &word, 4)` move. -/
def u32_storage (host_le : Bool) (v : Nat) : List Nat :=
  if host_le then [byteOf v 0, byteOf v 1, byteOf v 2, byteOf v 3]
  else [byteOf v 3, byteOf v 2, byteOf v 1, byteOf v 0]

/-! ## stm32.c: byte primitives and the command exchange -/

/-- The function `stm32_gen_cs`: XOR of the four bytes of a 32-bit word; the result is
a `uint8_t`. -/
def stm32_gen_cs (v : Nat) : Nat :=
  ((((v &&& 0xFF000000) >>> 24) ^^^
    ((v &&& 0x00FF0000) >>> 16) ^^^
    ((v &&& 0x0000FF00) >>> 8) ^^^
    ((v &&& 0x000000FF) >>> 0))) % 256

/-- The function `stm32_send_byte`: one byte to the line; a write error ends the
process.  The parameter is a `uint8_t`. -/
def stm32_send_byte (byte : Nat) : M Unit := fun p =>
  match serial_write [byte % 256] p with
  | (SERIAL_ERR_OK, q) => Res.ret () q
  | (_, q) => Res.halt q

/-- The function `stm32_read_byte`: one byte from the line; a timeout or a read error
ends the process. -/
def stm32_read_byte : M Nat := fun p =>
  match serial_read 1 p with
  | (SERIAL_ERR_OK, bs, q) => Res.ret (bs.headD 0) q
  | (_, _, q) => Res.halt q

/-- The function `stm32_send_command`: opcode, its complement, one reply byte; 1 iff
the reply is ACK. -/
def stm32_send_command (cmd : Nat) : M Bool :=
  stm32_send_byte cmd >>= fun _ =>
  stm32_send_byte (cmd ^^^ 0xFF) >>= fun _ =>
  stm32_read_byte >>= fun ret =>
  if ret = STM32_ACK then pure true
  else pure false

/-- A `serial_write` whose status the caller tests. -/
def writeBuf (buffer : List Nat) : M serial_err_t := fun p =>
  match serial_write buffer p with
  | (e, q) => Res.ret e q

/-- A `serial_read` whose status the caller tests; the bytes read come with it. -/
def readBuf (len : Nat) : M (serial_err_t × List Nat) := fun p =>
  match serial_read len p with
  | (e, bs, q) => Res.ret (e, bs) q

/-- A failed `assert`: the process is aborted. -/
def assertFail {α : Type} : M α := fun p => Res.halt p

/-! ## stm32.c: memory primitives -/

/-- The function `stm32_read_memory`.  The value returned is the C return value
together with the bytes stored into `data`. -/
def stm32_read_memory (host_le : Bool) (stm : stm32_t) (address len : Nat) :
    M (Bool × List Nat) :=
  if ¬ (len > 0 ∧ len < 257) then assertFail
  else if ¬ (address % 4 = 0) then assertFail
  else
    let address := be_u32 host_le address
    let cs := stm32_gen_cs address
    stm32_send_command stm.cmd.rm >>= fun ok =>
    if ok = false then pure (false, [])
    else
      writeBuf (u32_storage host_le address) >>= fun e =>
      if e ≠ SERIAL_ERR_OK then pure (false, [])
      else
        stm32_send_byte cs >>= fun _ =>
        stm32_read_byte >>= fun r1 =>
        if r1 ≠ STM32_ACK then pure (false, [])
        else
          let i := len - 1
          stm32_send_byte i >>= fun _ =>
          stm32_send_byte (i ^^^ 0xFF) >>= fun _ =>
          stm32_read_byte >>= fun r2 =>
          if r2 ≠ STM32_ACK then pure (false, [])
          else
            readBuf len >>= fun rd =>
            if rd.1 ≠ SERIAL_ERR_OK then pure (false, rd.2)
            else pure (true, rd.2)

/-- The padding loop of `stm32_write_memory`: `extra - c` filler bytes 0xFF, each
folded into the checksum. -/
def write_padding : Nat → Nat → M Nat
  | 0, cs => pure cs
  | n + 1, cs =>
    stm32_send_byte 0xFF >>= fun _ =>
    write_padding n ((cs ^^^ 0xFF) % 256)

/-- The function `stm32_write_memory`; `data` is the caller's buffer, of which the
first `len` bytes are sent. -/
def stm32_write_memory (host_le : Bool) (stm : stm32_t) (address : Nat) (data : List Nat)
    (len : Nat) : M Bool :=
  if ¬ (len > 0 ∧ len < 257) then assertFail
  else if ¬ (address % 4 = 0) then assertFail
  else
    let address := be_u32 host_le address
    let cs := stm32_gen_cs address
    stm32_send_command stm.cmd.wm >>= fun ok =>
    if ok = false then pure false
    else
      writeBuf (u32_storage host_le address) >>= fun e =>
      if e ≠ SERIAL_ERR_OK then pure false
      else
        stm32_send_byte cs >>= fun _ =>
        stm32_read_byte >>= fun r1 =>
        if r1 ≠ STM32_ACK then pure false
        else
          let extra := len % 4
          let extra := if extra ≠ 0 then 4 - extra else extra
          let cs := (len - 1 + extra) % 256
          stm32_send_byte cs >>= fun _ =>
          let cs := (data.take len).foldl (fun c b => (c ^^^ b) % 256) cs
          writeBuf (data.take len) >>= fun e2 =>
          if e2 ≠ SERIAL_ERR_OK then pure false
          else
            write_padding extra cs >>= fun cs =>
            stm32_send_byte cs >>= fun _ =>
            stm32_read_byte >>= fun r2 =>
            pure (decide (r2 = STM32_ACK))

/-- The function `stm32_go`; the status of its two `serial_write` calls is not
tested. -/
def stm32_go (host_le : Bool) (stm : stm32_t) (address : Nat) : M Bool :=
  let address := be_u32 host_le address
  let cs := stm32_gen_cs address
  stm32_send_command stm.cmd.go >>= fun ok =>
  if ok = false then pure false
  else
    writeBuf (u32_storage host_le address) >>= fun _ =>
    writeBuf [cs] >>= fun _ =>
    stm32_read_byte >>= fun r =>
    pure (decide (r = STM32_ACK))

/-! ## stm32.c: erase -/

/-- The page loop of the extended erase: `pg_num` is a `uint16_t`, the bound
`pages + spage` an `int`.  The result is the checksum after the loop; `none` when
the fuel is used up before the loop condition turns false. -/
def erase_loop16 (bound : Nat) : Nat → Nat → Nat → Port → Option (Res Nat)
  | 0, _, _, _ => none
  | fuel + 1, pg_num, cs, p =>
    if pg_num < bound then
      let pg_byte := (pg_num >>> 8) % 256
      let cs := (cs ^^^ pg_byte) % 256
      match stm32_send_byte pg_byte p with
      | Res.halt q => some (Res.halt q)
      | Res.ret _ q =>
        let pg_byte := (pg_num &&& 0xFF) % 256
        let cs := (cs ^^^ pg_byte) % 256
        match stm32_send_byte pg_byte q with
        | Res.halt r => some (Res.halt r)
        | Res.ret _ r => erase_loop16 bound fuel ((pg_num + 1) % 65536) cs r
    else some (Res.ret cs p)

/-- The page loop of the regular erase: `pg_num` is a `uint8_t`, the bound
`pages + spage` an `int`. -/
def erase_loop8 (bound : Nat) : Nat → Nat → Nat → Port → Option (Res Nat)
  | 0, _, _, _ => none
  | fuel + 1, pg_num, cs, p =>
    if pg_num < bound then
      match stm32_send_byte pg_num p with
      | Res.halt q => some (Res.halt q)
      | Res.ret _ q => erase_loop8 bound fuel ((pg_num + 1) % 256) ((cs ^^^ pg_num) % 256) q
    else some (Res.ret cs p)

/-- The function `stm32_erase_memory`.  The parameters `spage` and `pages` are
`uint16_t`: whatever the caller passes (`main` passes two `int`s) is received modulo
65536.  The two page loops run on `fuel`: the result is `none` when a loop does not end
within it. -/
def stm32_erase_memory (fuel : Nat) (stm : stm32_t) (spage pages : Nat) (p : Port) :
    Option (Res Bool) :=
  let spage := spage % 65536
  let pages := pages % 65536
  if pages = 0 then some (Res.ret true p)
  else
    match stm32_send_command stm.cmd.er p with
    | Res.halt q => some (Res.halt q)
    | Res.ret false q => some (Res.ret false q)
    | Res.ret true q =>
      if stm.cmd.er = STM32_CMD_EE then
        let quirk := decide (stm.pid = 0x416 ∧ pages = 0xFFFF)
        let spage := if quirk then 0 else spage
        let pages :=
          if quirk then
            ((stm.dev.fl_end + 2 ^ 32 - stm.dev.fl_start) % 2 ^ 32 / stm.dev.fl_ps) % 65536
          else pages
        if pages = 0xFFFF then
          (stm32_send_byte 0xFF >>= fun _ =>
           stm32_send_byte 0xFF >>= fun _ =>
           stm32_send_byte 0x00 >>= fun _ =>
           stm32_read_byte >>= fun res =>
           if res ≠ STM32_ACK then pure false else pure true) q
        else
          let pm1 := (pages + (2 ^ 32 - 1)) % 2 ^ 32
          let cs := ((pm1 >>> 8) ^^^ (pm1 &&& 0xFF)) % 256
          match (stm32_send_byte (pm1 >>> 8) >>= fun _ =>
                 stm32_send_byte (pm1 &&& 0xFF)) q with
          | Res.halt r => some (Res.halt r)
          | Res.ret _ r =>
            match erase_loop16 (pages + spage) fuel spage cs r with
            | none => none
            | some (Res.halt s) => some (Res.halt s)
            | some (Res.ret cs s) =>
              some ((stm32_send_byte cs >>= fun _ =>
                     stm32_read_byte >>= fun r2 =>
                     if r2 ≠ STM32_ACK then pure false else pure true) s)
      else if pages = 0xFFFF then
        some (stm32_send_command 0xFF q)
      else
        let cs := 0
        match stm32_send_byte (pages - 1) q with
        | Res.halt r => some (Res.halt r)
        | Res.ret _ r =>
          let cs := (cs ^^^ (pages - 1)) % 256
          match erase_loop8 (pages + spage) fuel (spage % 256) cs r with
          | none => none
          | some (Res.halt s) => some (Res.halt s)
          | some (Res.ret cs s) =>
            some ((stm32_send_byte cs >>= fun _ =>
                   stm32_read_byte >>= fun r2 =>
                   pure (decide (r2 = STM32_ACK))) s)

/-- The table scan that ends `stm32_init`: `stm->dev` starts at the first row and is
advanced while `id != 0x00 && id != pid`; the result is the row it stops at. -/
def scan_devices (pid : Nat) : List stm32_dev_t → Option stm32_dev_t
  | [] => none
  | d :: rest => if d.id ≠ 0x00 ∧ d.id ≠ pid then scan_devices pid rest else some d

/-! ## stm32.c: running code on the device -/

/-- The array `stm_reset_code`: the reset code for Cortex-M, sixteen bytes. -/
def stm_reset_code : List Nat :=
  [0x01, 0x49, 0x02, 0x4A, 0x0A, 0x60, 0xfe, 0xe7,
   0x0c, 0xed, 0x00, 0xe0, 0x04, 0x00, 0xfa, 0x05]

/-- The constant `stm_reset_code_length`, `sizeof(stm_reset_code)`. -/
def stm_reset_code_length : Nat := 16

/-- The loop `while (length > 0)` of `stm32_run_raw_code`: `pos` is the offset of the
pointer `pos` into `mem`, the address and the length are `uint32_t`.  `none` when the
fuel is used up before the loop is left. -/
def run_raw_loop (host_le : Bool) (stm : stm32_t) (mem : List Nat) :
    Nat → Nat → Nat → Nat → Port → Option (Res Bool)
  | 0, _, _, _, _ => none
  | fuel + 1, address, pos, length, p =>
    if length > 0 then
      let w := if length > 256 then 256 else length
      match stm32_write_memory host_le stm address (mem.drop pos) w p with
      | Res.halt q => some (Res.halt q)
      | Res.ret false q => some (Res.ret false q)
      | Res.ret true q =>
        run_raw_loop host_le stm mem fuel ((address + w) % 2 ^ 32) (pos + w) (length - w) q
    else some (Res.ret true p)

/-- The function `stm32_run_raw_code`; `malloc` is taken to succeed.  `mem` holds the
two words in storage order and then `code_size` bytes of `code`. -/
def stm32_run_raw_code (fuel : Nat) (host_le : Bool) (stm : stm32_t) (target_address : Nat)
    (code : List Nat) (code_size : Nat) (p : Port) : Option (Res Bool) :=
  let stack_le := le_u32 host_le 0x20002000
  let code_address_le := le_u32 host_le ((target_address + 8) % 2 ^ 32)
  let length := (code_size + 8) % 2 ^ 32
  if ¬ (target_address % 4 = 0) then some (assertFail p)
  else
    let mem := u32_storage host_le stack_le ++ u32_storage host_le code_address_le ++
      code.take code_size
    match run_raw_loop host_le stm mem fuel target_address 0 length p with
    | none => none
    | some (Res.halt q) => some (Res.halt q)
    | some (Res.ret false q) => some (Res.ret false q)
    | some (Res.ret true q) => some (stm32_go host_le stm target_address q)

/-- The function `stm32_reset_device`: the reset code is run at `ram_bl_res`. -/
def stm32_reset_device (fuel : Nat) (host_le : Bool) (stm : stm32_t) (p : Port) :
    Option (Res Bool) :=
  stm32_run_raw_code fuel host_le stm stm.dev.ram_bl_res stm_reset_code stm_reset_code_length p

/-! ## stm32.c: protection commands -/

/-- The function `stm32_wunprot_memory`: the command exchange on the write-unprotect
opcode, then one more reply byte. -/
def stm32_wunprot_memory (stm : stm32_t) : M Bool :=
  stm32_send_command stm.cmd.uw >>= fun ok =>
  if ok = false then pure false
  else
    stm32_read_byte >>= fun ret =>
    if ret = STM32_ACK then pure true
    else pure false

/-- The function `stm32_runprot_memory`: the command exchange on the read-unprotect
opcode, then one more reply byte. -/
def stm32_runprot_memory (stm : stm32_t) : M Bool :=
  stm32_send_command stm.cmd.ur >>= fun ok =>
  if ok = false then pure false
  else
    stm32_read_byte >>= fun ret =>
    if ret = STM32_ACK then pure true
    else pure false

/-- The function `stm32_rprot_memory`: the command exchange on the read-protect opcode,
then one more reply byte. -/
def stm32_rprot_memory (stm : stm32_t) : M Bool :=
  stm32_send_command stm.cmd.rp >>= fun ok =>
  if ok = false then pure false
  else
    stm32_read_byte >>= fun ret =>
    if ret = STM32_ACK then pure true
    else pure false

/-! ## stm32.c: the handshake -/

/-- The call `exit(1)`: the process ends. -/
def proc_exit {α : Type} : M α := fun p => Res.halt p

/-- The loop `for (index = 5; index > 0; index--)` of `stm32_init`: send the INIT byte
and wait for one reply byte; a timeout goes round again.  The result is the reply byte,
or `none` when `index` reached 0. -/
def init_sync : Nat → M (Option Nat)
  | 0 => pure none
  | index + 1 =>
    stm32_send_byte STM32_CMD_INIT >>= fun _ =>
    readBuf 1 >>= fun rd =>
    if rd.1 = SERIAL_ERR_OK then pure (some (rd.2.headD 0))
    else if rd.1 ≠ SERIAL_ERR_NODATA then proc_exit
    else init_sync index

/-- The loop `while (len-- > 0) stm32_read_byte(stm);` with `len` a `uint8_t`: `len`
bytes are read and dropped. -/
def skip_bytes : Nat → M Unit
  | 0 => pure ()
  | len + 1 => stm32_read_byte >>= fun _ => skip_bytes len

/-- The GET stage of `stm32_init`: the bootloader version and the opcode table, or
`none` where the function returns NULL.  `len` is a `uint8_t`; it is decremented once
after each of the twelve bytes read. -/
def init_get : M (Option (Nat × stm32_cmd)) :=
  stm32_send_command STM32_CMD_GET >>= fun ok =>
  if ok = false then pure none
  else
    stm32_read_byte >>= fun n =>
    let len := (n + 1) % 256
    stm32_read_byte >>= fun bl_version =>
    stm32_read_byte >>= fun get =>
    stm32_read_byte >>= fun gvr =>
    stm32_read_byte >>= fun gid =>
    stm32_read_byte >>= fun rm =>
    stm32_read_byte >>= fun go =>
    stm32_read_byte >>= fun wm =>
    stm32_read_byte >>= fun er =>
    stm32_read_byte >>= fun wp =>
    stm32_read_byte >>= fun uw =>
    stm32_read_byte >>= fun rp =>
    stm32_read_byte >>= fun ur =>
    let len := (len + 12 * 255) % 256
    (if len > 0 then skip_bytes len else pure ()) >>= fun _ =>
    stm32_read_byte >>= fun a =>
    if a ≠ STM32_ACK then pure none
    else pure (some (bl_version, ⟨get, gvr, gid, rm, go, wm, er, wp, uw, rp, ur⟩))

/-- The stage of `stm32_init` that gets the version and the read protection status:
`version`, `option1`, `option2`, or `none` where the function returns NULL. -/
def init_gvr (gvr : Nat) : M (Option (Nat × Nat × Nat)) :=
  stm32_send_command gvr >>= fun ok =>
  if ok = false then pure none
  else
    stm32_read_byte >>= fun version =>
    stm32_read_byte >>= fun option1 =>
    stm32_read_byte >>= fun option2 =>
    stm32_read_byte >>= fun a =>
    if a ≠ STM32_ACK then pure none
    else pure (some (version, option1, option2))

/-- The stage of `stm32_init` that gets the device ID: the 16-bit product ID, or `none`
where the function returns NULL.  `len` is a `uint8_t`; the first byte read is the high
byte of the ID. -/
def init_gid (gid : Nat) : M (Option Nat) :=
  stm32_send_command gid >>= fun ok =>
  if ok = false then pure none
  else
    stm32_read_byte >>= fun n =>
    let len := (n + 1) % 256
    if len < 2 then pure none
    else
      stm32_read_byte >>= fun hi =>
      stm32_read_byte >>= fun lo =>
      let pid := ((hi <<< 8) ||| lo) % 65536
      let len := (len + 2 * 255) % 256
      (if len > 0 then skip_bytes len else pure ()) >>= fun _ =>
      stm32_read_byte >>= fun a =>
      if a ≠ STM32_ACK then pure none
      else pure (some pid)

/-- The end of `stm32_init`: the table scan for the product ID and the test
`if (!stm->dev->id)`; `none` is the NULL of an unknown device. -/
def init_select (pid : Nat) : Option stm32_dev_t :=
  match scan_devices pid devices with
  | none => none
  | some d => if d.id = 0 then none else some d

/-- The function `stm32_init` after the optional INIT exchange: GET, version and
protection status, device ID, table scan. -/
def init_session : M (Option stm32_t) :=
  init_get >>= fun g =>
  match g with
  | none => pure none
  | some (bl_version, cmd) =>
    init_gvr cmd.gvr >>= fun v =>
    match v with
    | none => pure none
    | some (version, option1, option2) =>
      init_gid cmd.gid >>= fun i =>
      match i with
      | none => pure none
      | some pid =>
        match init_select pid with
        | none => pure none
        | some dev => pure (some ⟨bl_version, version, option1, option2, pid, cmd, dev⟩)

/-- The function `stm32_init`; `none` is the NULL it returns when there is no session. -/
def stm32_init (init : Bool) : M (Option stm32_t) :=
  if init then
    init_sync 5 >>= fun r =>
    match r with
    | none => proc_exit
    | some ans =>
      if ans = STM32_NACK then init_session
      else if ans ≠ STM32_ACK then pure none
      else init_session
  else init_session

/-! ## main.c: the workspace resolver -/

def MEM_TYPE_ANY : Nat := 0
def MEM_TYPE_FLASH : Nat := 1
def MEM_TYPE_RAM : Nat := 2
def MEM_TYPE_EEPROM : Nat := 3

def EXEC_FLAG_NONE : Nat := 0
def EXEC_FLAG_REL : Nat := 1
def EXEC_FLAG_ABS : Nat := 2

/-- Conversion to `uint32_t`. -/
def to_u32 (x : Int) : Nat := (x % 4294967296).toNat

/-- Conversion to `int` (32 bits, two's complement; signed overflow wraps). -/
def to_i32 (x : Int) : Int := (x + 2147483648) % 4294967296 - 2147483648

/-- The global settings of main.c that `calc_workspace` reads and writes; `spage` and
`npages` are `int`, the addresses and lengths `uint32_t`, the flags `char`. -/
structure Globals where
  mem_type : Nat
  relative_addr : Bool
  npages : Int
  spage : Int
  readwrite_len : Nat
  start_addr : Nat
  exec_flag : Nat
  execute : Nat
deriving DecidableEq, Repr

/-- Step 1 of `calc_workspace`: the `switch` on `mem_type`; `none` is `return 0`. -/
def calc_allowed (stm : stm32_t) (mem_type : Nat) : Option (Nat × Nat) :=
  if mem_type = MEM_TYPE_FLASH then some (stm.dev.fl_start, stm.dev.fl_end)
  else if mem_type = MEM_TYPE_RAM then some (stm.dev.ram_bl_res, stm.dev.ram_end)
  else if mem_type = MEM_TYPE_EEPROM then
    if to_u32 ((stm.dev.eep_end : Int) - stm.dev.eep_start) = 0 then none
    else some (stm.dev.eep_start, stm.dev.eep_end)
  else if mem_type = MEM_TYPE_ANY then some (0, 0xFFFFFFFF)
  else none

/-- Step 2 of `calc_workspace`: `tmp_start`.  `fl_ps` is a 16-bit field, so the product
with `spage` is formed in `int`. -/
def ws_start (stm : stm32_t) (g : Globals) (allowed_start : Nat) : Nat :=
  if g.spage ≥ 0 then to_u32 (allowed_start + to_i32 (g.spage * stm.dev.fl_ps))
  else if g.relative_addr then to_u32 ((allowed_start : Int) + g.start_addr)
  else g.start_addr

/-- Step 2 of `calc_workspace`: `spage` after the step. -/
def ws_spage (stm : stm32_t) (g : Globals) (tmp_start : Nat) : Int :=
  if g.spage ≥ 0 then g.spage
  else if g.mem_type = MEM_TYPE_FLASH then
    to_i32 ((to_u32 ((tmp_start : Int) - stm.dev.fl_start) / stm.dev.fl_ps : Nat))
  else g.spage

/-- Step 3 of `calc_workspace`: `readwrite_len` after
`if (!readwrite_len && npages) readwrite_len = ..`. -/
def ws_len (stm : stm32_t) (g : Globals) (allowed_start allowed_end : Nat) : Nat :=
  if g.readwrite_len = 0 ∧ g.npages ≠ 0 then
    (if g.npages = 0xFFFF then to_u32 ((allowed_end : Int) - allowed_start)
     else to_u32 (to_i32 (g.npages * stm.dev.fl_ps)))
  else g.readwrite_len

/-- Step 3 of `calc_workspace`: `npages` after the `if (mem_type == MEM_TYPE_FLASH)`
block; `spage` and `readwrite_len` are the values the earlier statements left. -/
def ws_npages (stm : stm32_t) (g : Globals) (tmp_start : Nat) (spage : Int)
    (readwrite_len : Nat) : Int :=
  let fl_ps : Int := stm.dev.fl_ps
  let fl_start : Int := stm.dev.fl_start
  if g.mem_type = MEM_TYPE_FLASH then
    let npages1 : Int :=
      if g.npages = 0 then
        let spage_offset : Int :=
          to_i32 (to_u32 ((tmp_start : Int) - to_u32 (to_i32 (spage * fl_ps) + fl_start)))
        let len_from_spage : Int :=
          to_i32 (to_u32 (spage_offset + readwrite_len - 1))
        to_i32 (1 + Int.tdiv len_from_spage fl_ps)
      else g.npages
    if spage = 0 ∧
        to_u32 (to_i32 (npages1 * fl_ps)) ≥ to_u32 ((stm.dev.fl_end : Int) - fl_start) then
      0xFFFF
    else npages1
  else g.npages

/-- Step 2 of `calc_workspace`: `execute` after `if (exec_flag == EXEC_FLAG_REL)`. -/
def ws_execute (g : Globals) (allowed_start : Nat) : Nat :=
  if g.exec_flag = EXEC_FLAG_REL then to_u32 ((g.execute : Int) + allowed_start)
  else g.execute

/-- Step 2 of `calc_workspace`: `exec_flag` after `if (exec_flag == EXEC_FLAG_REL)`. -/
def ws_exec_flag (g : Globals) : Nat :=
  if g.exec_flag = EXEC_FLAG_REL then EXEC_FLAG_ABS else g.exec_flag

/-- Step 4 of `calc_workspace`: the condition of the execution address error. -/
def ws_exec_outside (stm : stm32_t) (exec_flag execute : Nat) : Prop :=
  exec_flag = EXEC_FLAG_ABS ∧
    (execute < stm.dev.fl_start ∨ execute ≥ stm.dev.fl_end) ∧
    (execute < stm.dev.ram_bl_res ∨ execute ≥ stm.dev.ram_end)

instance (stm : stm32_t) (exec_flag execute : Nat) :
    Decidable (ws_exec_outside stm exec_flag execute) := by
  unfold ws_exec_outside
  infer_instance

/-- The function `calc_workspace` of main.c.  The first component is `none` for
`return 0` and the pair `(*start, *end)` for `return 1`; the second is the globals as
the call leaves them. -/
def calc_workspace (stm : stm32_t) (g : Globals) : Option (Nat × Nat) × Globals :=
  -- Step 0
  if g.mem_type ≠ MEM_TYPE_FLASH ∧ (g.spage ≥ 0 ∨ g.npages > 0) then (none, g)
  else
    -- Step 1
    match calc_allowed stm g.mem_type with
    | none => (none, g)
    | some (allowed_start, allowed_end) =>
      -- Step 2
      let tmp_start : Nat := ws_start stm g allowed_start
      let spage : Int := ws_spage stm g tmp_start
      let execute : Nat := ws_execute g allowed_start
      let exec_flag : Nat := ws_exec_flag g
      -- Step 3
      let readwrite_len : Nat := ws_len stm g allowed_start allowed_end
      let tmp_end : Nat :=
        if readwrite_len ≠ 0 then to_u32 ((tmp_start : Int) + readwrite_len) else allowed_end
      let readwrite_len : Nat :=
        if readwrite_len ≠ 0 then readwrite_len else to_u32 ((tmp_end : Int) - tmp_start)
      let npages : Int := ws_npages stm g tmp_start spage readwrite_len
      let g1 : Globals :=
        { g with spage := spage, npages := npages, readwrite_len := readwrite_len,
                 execute := execute, exec_flag := exec_flag }
      -- Step 4
      if tmp_start < allowed_start ∨ tmp_end > allowed_end then (none, g1)
      else if ws_exec_outside stm exec_flag execute then (none, g1)
      -- Step 5
      else (some (tmp_start, tmp_end), g1)

/-! ## main.c: a run with no transfer -/

/-- The execution part of the `close:` block of `main`:
`if (stm && exec_flag && ret == 0)`.  The result is `reset_flag` after it. -/
def main_close_go (host_le : Bool) (stm : stm32_t) (exec_flag execute ret : Nat)
    (reset_flag : Bool) : M Bool :=
  if exec_flag ≠ 0 ∧ ret = 0 then
    let execute := if execute = 0 then stm.dev.fl_start else execute
    stm32_go host_le stm execute >>= fun ok =>
    if ok then pure false else pure reset_flag
  else pure reset_flag

/-- The path of `main` from `calc_workspace` to the execution part of `close:` when
none of `rd`, `rp`, `ru`, `eraseOnly`, `wu`, `wr` is set (as with `-g` alone): `ret`
is 1 when `calc_workspace` fails and 0 otherwise.  The result is `ret` and
`reset_flag`. -/
def main_no_transfer (host_le : Bool) (stm : stm32_t) (g : Globals) (reset_flag : Bool) :
    M (Nat × Bool) :=
  let r := calc_workspace stm g
  let ret := if r.1.isSome then 0 else 1
  main_close_go host_le stm r.2.exec_flag r.2.execute ret reset_flag >>= fun rf =>
  pure (ret, rf)

/-! ## main.c: the write path before the loop -/

/-- The guard `if (readwrite_len > (end - start))` that opens the write path of `main`
("Input file too big"); the difference is a `uint32_t`. -/
def input_too_big (readwrite_len start end_addr : Nat) : Prop :=
  readwrite_len > to_u32 ((end_addr : Int) - start)

instance (readwrite_len start end_addr : Nat) :
    Decidable (input_too_big readwrite_len start end_addr) := by
  unfold input_too_big
  infer_instance

/-! ## main.c: the write loop -/

/-- The fatal messages of the write path (each is followed by `goto close`). -/
inductive Fatal where
  | input_block : Fatal
  | input_short : Fatal
  | write_memory : Nat → Fatal
  | read_memory : Nat → Fatal
  | verify : Nat → Nat → Nat → Fatal
deriving DecidableEq, Repr

/-- The first index `r < len` at which the buffer and the read-back differ: the `for`
loop of the verification, left by `break` at the first mismatch. -/
def first_mismatch (buffer compare : List Nat) (len : Nat) : Option Nat :=
  (List.range len).find? (fun r => decide (buffer.getD r 0 ≠ compare.getD r 0))

/-- How the `do .. while (r != len)` of one chunk ends: with `r == len` (the value of
`failed` and, for the record, the last read-back), or at `goto close`. -/
inductive ChunkEnd where
  | done : Int → Option (List Nat) → ChunkEnd
  | fatal : Fatal → ChunkEnd
deriving DecidableEq, Repr

/-- The `do .. while (r != len)` loop of the write path: write the chunk, read it back
when `verify` is set, compare, and go round again after a mismatch.  `none` when the
fuel is used up before the loop is left. -/
def write_chunk (host_le : Bool) (stm : stm32_t) (verify : Bool) (retry : Int) (addr : Nat)
    (buffer : List Nat) (len : Nat) : Nat → Int → Port → Option (Res ChunkEnd)
  | 0, _, _ => none
  | fuel + 1, failed, p =>
    match stm32_write_memory host_le stm addr buffer len p with
    | Res.halt q => some (Res.halt q)
    | Res.ret false q => some (Res.ret (ChunkEnd.fatal (Fatal.write_memory addr)) q)
    | Res.ret true q =>
      if verify then
        match stm32_read_memory host_le stm addr len q with
        | Res.halt r => some (Res.halt r)
        | Res.ret (false, _) r => some (Res.ret (ChunkEnd.fatal (Fatal.read_memory addr)) r)
        | Res.ret (true, compare) r =>
          match first_mismatch buffer compare len with
          | some k =>
            if failed = retry then
              some (Res.ret (ChunkEnd.fatal
                (Fatal.verify ((addr + k) % 2 ^ 32) (buffer.getD k 0) (compare.getD k 0))) r)
            else
              -- `++failed; break;` and then, after the `for`, `failed = 0;`
              let _failed := to_i32 (failed + 1)
              write_chunk host_le stm verify retry addr buffer len fuel 0 r
          | none => some (Res.ret (ChunkEnd.done 0 (some compare)) r)
      else some (Res.ret (ChunkEnd.done failed none) q)

/-- The input source behind `parser->read(p_st, buffer, &len)`: from the parser state
and the requested length, the status (true for `PARSER_ERR_OK`), the bytes stored into
the buffer (their number is the new `len`) and the next state. -/
structure parser_t (σ : Type) where
  read : σ → Nat → Bool × List Nat × σ

/-- One chunk of a write transfer, for the record: its address, the bytes written and
the last read-back (none without verification). -/
structure ChunkLog where
  addr : Nat
  data : List Nat
  readback : Option (List Nat)
deriving DecidableEq, Repr

/-- How the write loop ends: `ret = 0` after the loop, or a fatal message. -/
inductive WriteEnd where
  | ok : WriteEnd
  | fatal : Fatal → WriteEnd
deriving DecidableEq, Repr

/-- The chunk length the write loop asks of the input: the least of `sizeof(buffer)`,
`end - addr` and `size - offset`. -/
def chunk_len (end_addr addr size offset : Nat) : Nat :=
  let left := end_addr - addr
  let len := if 256 > left then left else 256
  if len > size - offset then size - offset else len

/-- The loop `while (addr < end && offset < size)` of the write path; `from_stdin` is
`filename[0] == '-'`.  The chunks completed are recorded in `log`. -/
def write_loop {σ : Type} (host_le : Bool) (stm : stm32_t) (parser : parser_t σ)
    (verify : Bool) (retry : Int) (from_stdin : Bool) (end_addr size : Nat) :
    Nat → Nat → Nat → Int → σ → List ChunkLog → Port → Option (Res (WriteEnd × List ChunkLog))
  | 0, _, _, _, _, _, _ => none
  | fuel + 1, addr, offset, failed, st, log, p =>
    if addr < end_addr ∧ offset < size then
      let len := chunk_len end_addr addr size offset
      match parser.read st len with
      | (false, _, _) => some (Res.ret (WriteEnd.fatal Fatal.input_block, log) p)
      | (true, bytes, st1) =>
        let buffer := bytes.take len
        let len := buffer.length
        if len = 0 then
          if from_stdin then some (Res.ret (WriteEnd.ok, log) p)
          else some (Res.ret (WriteEnd.fatal Fatal.input_short, log) p)
        else
          match write_chunk host_le stm verify retry addr buffer len (fuel + 1) failed p with
          | none => none
          | some (Res.halt q) => some (Res.halt q)
          | some (Res.ret (ChunkEnd.fatal f) q) => some (Res.ret (WriteEnd.fatal f, log) q)
          | some (Res.ret (ChunkEnd.done failed1 rb) q) =>
            write_loop host_le stm parser verify retry from_stdin end_addr size fuel
              ((addr + len) % 2 ^ 32) (offset + len) failed1 st1 (log ++ [⟨addr, buffer, rb⟩]) q
    else some (Res.ret (WriteEnd.ok, log) p)

/-- Modelled from the spec: the byte source behind `parser->read` (parsers/binary.c and
parsers/hex.c are not among the sources).  The spec has it "read up to N bytes, returns
fewer than N only at end of data"; the state is the data not yet read. -/
def list_source : parser_t (List Nat) :=
  ⟨fun st len => (true, st.take len, st.drop len)⟩

/-! ## main.c: the read loop -/

/-- How the read path ends: `ret = 0` after the loop, or one of its two fatal messages
(a failed Read Memory at an address, a failed write to the output file). -/
inductive ReadEnd where
  | ok : ReadEnd
  | read_memory : Nat → ReadEnd
  | write_file : ReadEnd
deriving DecidableEq, Repr

/-- One call of a memory primitive made by a transfer loop, for the record: its address
and its length. -/
structure Span where
  addr : Nat
  len : Nat
deriving DecidableEq, Repr

/-- The loop `while (addr < end)` of the read path.  `write` stands for
`parser->write(p_st, buffer, len)`: from the parser state and the bytes, the status
(true for `PARSER_ERR_OK`) and the next state.  The calls of `stm32_read_memory` that
returned are recorded in `log`. -/
def read_loop {σ : Type} (host_le : Bool) (stm : stm32_t) (write : σ → List Nat → Bool × σ)
    (end_addr : Nat) :
    Nat → Nat → σ → List Span → Port → Option (Res (ReadEnd × List Span × σ))
  | 0, _, _, _, _ => none
  | fuel + 1, addr, st, log, p =>
    if addr < end_addr then
      let left := end_addr - addr
      let len := if 256 > left then left else 256
      match stm32_read_memory host_le stm addr len p with
      | Res.halt q => some (Res.halt q)
      | Res.ret (false, _) q => some (Res.ret (ReadEnd.read_memory addr, log, st) q)
      | Res.ret (true, buffer) q =>
        match write st (buffer.take len) with
        | (false, st1) => some (Res.ret (ReadEnd.write_file, log ++ [⟨addr, len⟩], st1) q)
        | (true, st1) =>
          read_loop host_le stm write end_addr fuel ((addr + len) % 2 ^ 32) st1
            (log ++ [⟨addr, len⟩]) q
    else some (Res.ret (ReadEnd.ok, log, st) p)

/-! ## Vocabulary of the statements -/

/-- The port left by a call, whether it returned or ended the process. -/
def Res.port {α : Type} : Res α → Port
  | Res.ret _ p => p
  | Res.halt p => p

/-- XOR of a list of bytes. -/
def xorAll (bs : List Nat) : Nat := bs.foldl (fun c b => c ^^^ b) 0

/-- The four bytes of a 32-bit address, most significant first. -/
def be_bytes (a : Nat) : List Nat := [byteOf a 3, byteOf a 2, byteOf a 1, byteOf a 0]

/-- The two bytes a command exchange puts on the line. -/
def cmd_bytes (cmd : Nat) : List Nat := [cmd % 256, (cmd ^^^ 0xFF) % 256]

/-- Two bytes of a 16-bit number, most significant first. -/
def be16 (n : Nat) : List Nat := [n / 256 % 256, n % 256]

/-- The page numbers `pg, pg + 1, ..`, `n` of them, each as two bytes most significant
first. -/
def page_bytes16 : Nat → Nat → List Nat
  | _, 0 => []
  | pg, n + 1 => be16 pg ++ page_bytes16 (pg + 1) n

/-- Whether a byte list begins with the mass-erase sequence of the extended erase. -/
def starts_mass_erase : List Nat → Bool
  | 0xFF :: 0xFF :: 0x00 :: _ => true
  | _ => false

/-- Whether the mass-erase sequence 0xFF, 0xFF, 0x00 occurs somewhere in a byte list. -/
def has_mass_erase : List Nat → Bool
  | [] => false
  | a :: rest => starts_mass_erase (a :: rest) || has_mass_erase rest

/-- A recorded chunk was read back: a Write Memory of its bytes at its address succeeded,
the Read Memory of the same address and length that followed it returned the recorded
read-back, and the read-back equals the bytes written at every index. -/
def ChunkLog.read_back (host_le : Bool) (stm : stm32_t) (c : ChunkLog) : Prop :=
  ∃ p1 p2 p3 compare,
    stm32_write_memory host_le stm c.addr c.data c.data.length p1 = Res.ret true p2 ∧
    stm32_read_memory host_le stm c.addr c.data.length p2 = Res.ret (true, compare) p3 ∧
    c.readback = some compare ∧ ∀ k, k < c.data.length → c.data.getD k 0 = compare.getD k 0

/-- Everything a successful `stm32_write_memory` sends: command, address, address
checksum, length byte, payload, filler and checksum. -/
def wm_frame (host_le : Bool) (stm : stm32_t) (addr : Nat) (data : List Nat) (len : Nat) :
    List Nat :=
  cmd_bytes stm.cmd.wm ++ be_bytes addr ++ [stm32_gen_cs (be_u32 host_le addr)] ++
    ((len - 1 + (4 - len % 4) % 4) :: (data.take len ++ List.replicate ((4 - len % 4) % 4) 0xFF)) ++
    [xorAll ((len - 1 + (4 - len % 4) % 4) ::
      (data.take len ++ List.replicate ((4 - len % 4) % 4) 0xFF))]

/-- Everything a successful `stm32_read_memory` sends: command, address, address
checksum, length byte and its complement. -/
def rm_frame (host_le : Bool) (stm : stm32_t) (addr len : Nat) : List Nat :=
  cmd_bytes stm.cmd.rm ++ be_bytes addr ++ [stm32_gen_cs (be_u32 host_le addr)] ++
    cmd_bytes (len - 1)

/-- The replies of a device to one Write Memory and the Read Memory after it: three
ACKs each, then the bytes read back. -/
def round_replies (readback : List Nat) : List Nat :=
  [STM32_ACK, STM32_ACK, STM32_ACK, STM32_ACK, STM32_ACK, STM32_ACK] ++ readback

/-- What the session sends in one round of the scenario of ten bytes at 0x08000000:
the Write Memory exchange (command, address, length byte 11, payload, two filler bytes,
checksum) and the Read Memory exchange (command, address, length byte 9 and its
complement). -/
def round_sent : List Nat :=
  [0x31, 0xCE, 0x08, 0, 0, 0, 0x08, 11, 0, 1, 2, 3, 4, 5, 6, 7, 8, 9, 0xFF, 0xFF, 0x0A] ++
  [0x11, 0xEE, 0x08, 0, 0, 0, 0x08, 9, 0xF6]

/-- What the session sends in one round of writing the four bytes DE AD BE EF at
0x08000000 with verification: the Write Memory and the Read Memory exchange. -/
def round_sent4 : List Nat :=
  [0x31, 0xCE, 0x08, 0, 0, 0, 0x08, 3, 0xDE, 0xAD, 0xBE, 0xEF, 0x21] ++
  [0x11, 0xEE, 0x08, 0, 0, 0, 0x08, 3, 0xFC]

/-- The device descriptors of the table: the rows before the terminating row. -/
def catalog : List stm32_dev_t := devices.filter (fun d => d.id != 0)

/-- The page count of `calc_workspace` before the collapse to the sentinel: `npages`
after the block `if (npages == 0) { .. }`. -/
def ws_count (stm : stm32_t) (g : Globals) (tmp_start : Nat) (spage : Int)
    (readwrite_len : Nat) : Int :=
  if g.npages = 0 then
    to_i32 (1 + Int.tdiv
      (to_i32 (to_u32 (to_i32 (to_u32 ((tmp_start : Int) -
        to_u32 (to_i32 (spage * stm.dev.fl_ps) + stm.dev.fl_start))) + readwrite_len - 1)))
      stm.dev.fl_ps)
  else g.npages

/-- Step 3 of `calc_workspace`: `tmp_end`. -/
def ws_end (stm : stm32_t) (g : Globals) (allowed_start allowed_end : Nat) : Nat :=
  if ws_len stm g allowed_start allowed_end ≠ 0 then
    to_u32 ((ws_start stm g allowed_start : Int) + ws_len stm g allowed_start allowed_end)
  else allowed_end

/-- Step 3 of `calc_workspace`: `readwrite_len` after `if (readwrite_len) .. else ..`. -/
def ws_rlen (stm : stm32_t) (g : Globals) (allowed_start allowed_end : Nat) : Nat :=
  if ws_len stm g allowed_start allowed_end ≠ 0 then ws_len stm g allowed_start allowed_end
  else to_u32 ((ws_end stm g allowed_start allowed_end : Int) - ws_start stm g allowed_start)

/-- The globals as steps 2 and 3 of `calc_workspace` leave them. -/
def ws_globals (stm : stm32_t) (g : Globals) (allowed_start allowed_end : Nat) : Globals :=
  { g with
    spage := ws_spage stm g (ws_start stm g allowed_start),
    npages := ws_npages stm g (ws_start stm g allowed_start)
      (ws_spage stm g (ws_start stm g allowed_start)) (ws_rlen stm g allowed_start allowed_end),
    readwrite_len := ws_rlen stm g allowed_start allowed_end,
    execute := ws_execute g allowed_start,
    exec_flag := ws_exec_flag g }

/-- What a bootloader that knows the eleven opcodes of `cmd` answers to GET: ACK, the
count 11, the version, the opcodes, ACK. -/
def get_reply (bl_version : Nat) (cmd : stm32_cmd) : List Nat :=
  [STM32_ACK, 11, bl_version, cmd.get, cmd.gvr, cmd.gid, cmd.rm, cmd.go, cmd.wm, cmd.er,
    cmd.wp, cmd.uw, cmd.rp, cmd.ur, STM32_ACK]

/-- The answer to the version command: ACK, version, two option bytes, ACK. -/
def gvr_reply (version option1 option2 : Nat) : List Nat :=
  [STM32_ACK, version, option1, option2, STM32_ACK]

/-- The answer to the ID command of a device with the 16-bit product ID `p`: ACK, the
count 1, the two bytes of `p` most significant first, ACK. -/
def gid_reply (p : Nat) : List Nat := [STM32_ACK, 1, p / 256, p % 256, STM32_ACK]

/-- Everything a device with product ID `p` answers during a handshake that starts
with INIT. -/
def handshake_reply (bl_version : Nat) (cmd : stm32_cmd) (version option1 option2 p : Nat) :
    List Nat :=
  STM32_ACK :: (get_reply bl_version cmd ++ gvr_reply version option1 option2 ++ gid_reply p)

/-- The eleven opcodes of a GET reply, in the order they are sent. -/
def opcode_bytes (cmd : stm32_cmd) : List Nat :=
  [cmd.get, cmd.gvr, cmd.gid, cmd.rm, cmd.go, cmd.wm, cmd.er, cmd.wp, cmd.uw, cmd.rp, cmd.ur]

/-- The answer to GET of a bootloader that announces `n + 1` bytes: ACK, the count `n`,
the version, the eleven opcodes, the bytes `extra` and the closing byte `last`. -/
def get_reply_long (n bl_version : Nat) (cmd : stm32_cmd) (extra : List Nat) (last : Nat) :
    List Nat :=
  STM32_ACK :: n :: bl_version :: (opcode_bytes cmd ++ extra ++ [last])

/-- The four bytes of a 32-bit word, least significant first. -/
def le_bytes (v : Nat) : List Nat := [byteOf v 0, byteOf v 1, byteOf v 2, byteOf v 3]

/-- The block the reset trampoline puts at the target address `t`: the stack pointer
0x20002000 and `t + 8`, both least significant byte first, then the reset code. -/
def reset_block (t : Nat) : List Nat :=
  le_bytes 0x20002000 ++ le_bytes (t + 8) ++ stm_reset_code

/-- The number of chunks of at most 256 bytes in `len` bytes: `len / 256` rounded up. -/
def chunk_count (len : Nat) : Nat := (len + 255) / 256

/-- The chunks of a transfer of `len` bytes from `start`: chunk `k` begins at
`start + 256 * k` and has the least of 256 and the bytes left. -/
def spans (start len : Nat) : List Span :=
  (List.range (chunk_count len)).map (fun k => ⟨start + 256 * k, min 256 (len - 256 * k)⟩)

/-- What a device holding the bytes `mem` answers to the Read Memory calls of `n`
chunks: three ACKs and up to 256 bytes for each. -/
def read_replies : Nat → List Nat → List Nat
  | 0, _ => []
  | n + 1, mem =>
    STM32_ACK :: STM32_ACK :: STM32_ACK :: (mem.take 256 ++ read_replies n (mem.drop 256))

/-- What a device answers to the exchanges of one chunk that is written and, under
verification, read back unchanged: three ACKs for the Write Memory, then three ACKs and
the bytes of the chunk for the Read Memory. -/
def chunk_replies (verify : Bool) (chunk : List Nat) : List Nat :=
  STM32_ACK :: STM32_ACK :: STM32_ACK ::
    (if verify then STM32_ACK :: STM32_ACK :: STM32_ACK :: chunk else [])

/-- The replies of that device to a write transfer of `n` chunks of the bytes `data`. -/
def write_replies (verify : Bool) : Nat → List Nat → List Nat
  | 0, _ => []
  | n + 1, data => chunk_replies verify (data.take 256) ++ write_replies verify n (data.drop 256)

/-- The record of a write transfer of `n` chunks of the bytes `data` from `addr`, each
chunk read back unchanged under verification. -/
def write_log (verify : Bool) : Nat → Nat → List Nat → List ChunkLog
  | 0, _, _ => []
  | n + 1, addr, data =>
    ⟨addr, data.take 256, if verify then some (data.take 256) else none⟩ ::
      write_log verify n (addr + (data.take 256).length) (data.drop 256)

/-- What the session sends in that transfer: for each chunk one Write Memory frame and,
under verification, one Read Memory frame. -/
def write_sent (host_le : Bool) (stm : stm32_t) (verify : Bool) : Nat → Nat → List Nat → List Nat
  | 0, _, _ => []
  | n + 1, addr, data =>
    wm_frame host_le stm addr (data.take 256) (data.take 256).length ++
      (if verify then rm_frame host_le stm addr (data.take 256).length else []) ++
      write_sent host_le stm verify n (addr + (data.take 256).length) (data.drop 256)

/-- The final stage of a primitive: one reply byte, success iff it is ACK. -/
def await_ack : M Bool :=
  stm32_read_byte >>= fun r => pure (decide (r = STM32_ACK))

/-- The opcode table a medium-density STM32F1 bootloader reports (regular erase). -/
def sample_cmd : stm32_cmd :=
  ⟨0x00, 0x01, 0x02, 0x11, 0x21, 0x31, 0x43, 0x63, 0x73, 0x82, 0x92⟩

/-- A session of an STM32L medium-density part: product ID 0x416, extended erase. -/
def sample_stm_ee : stm32_t :=
  ⟨0x20, 0x20, 0, 0, 0x416, ⟨0x00, 0x01, 0x02, 0x11, 0x21, 0x31, 0x44, 0x63, 0x73, 0x82, 0x92⟩,
    ⟨0x416, "STM32L Medium-density", 0x20000000, 0x20000800, 0x20004000, 0x08000000, 0x08020000,
      16, 256, 0x1FF00000, 0x1FF01000, 0x1FF80000, 0x1FF8000F, 0x08080000, 0x08081000⟩⟩

/-- A session as the handshake leaves it for product ID 0x410. -/
def sample_stm : stm32_t :=
  ⟨0x22, 0x22, 0, 0, 0x410, sample_cmd,
    ⟨0x410, "STM32F Medium-density", 0x20000000, 0x20000200, 0x20005000, 0x08000000, 0x08020000,
      4, 1024, 0x1FFFF000, 0x1FFFF800, 0x1FFFF800, 0x1FFFF80F, 0x00000000, 0x00000000⟩⟩

/-! ## Running the byte primitives -/

theorem bind_apply {α β : Type} (m : M α) (f : α → M β) (p : Port) :
    (m >>= f) p = match m p with
      | Res.ret a q => f a q
      | Res.halt q => Res.halt q := rfl

theorem pure_apply {α : Type} (a : α) (p : Port) : (pure a : M α) p = Res.ret a p := rfl

theorem send_byte_ok (b : Nat) (s i : List Nat) (c : Nat) :
    stm32_send_byte b ⟨s, i, c + 1⟩ = Res.ret () ⟨s ++ [b % 256], i, c⟩ := by
  simp [stm32_send_byte, serial_write]

theorem send_byte_full (b : Nat) (s i : List Nat) :
    stm32_send_byte b ⟨s, i, 0⟩ = Res.halt ⟨s, i, 0⟩ := by
  simp [stm32_send_byte, serial_write]

theorem read_byte_cons (r : Nat) (s i : List Nat) (c : Nat) :
    stm32_read_byte ⟨s, r :: i, c⟩ = Res.ret r ⟨s, i, c⟩ := by
  simp [stm32_read_byte, serial_read]

theorem read_byte_nil (s : List Nat) (c : Nat) :
    stm32_read_byte ⟨s, [], c⟩ = Res.halt ⟨s, [], c⟩ := by
  simp [stm32_read_byte, serial_read]

theorem writeBuf_ok (bs s i : List Nat) (c : Nat) (h : bs.length ≤ c) :
    writeBuf bs ⟨s, i, c⟩ = Res.ret SERIAL_ERR_OK ⟨s ++ bs, i, c - bs.length⟩ := by
  simp [writeBuf, serial_write, h]

theorem send_command_reply (cmd r : Nat) (s i : List Nat) (c : Nat) :
    stm32_send_command cmd ⟨s, r :: i, c + 2⟩ =
      Res.ret (decide (r = STM32_ACK)) ⟨s ++ cmd_bytes cmd, i, c⟩ := by
  simp only [stm32_send_command, bind_apply, send_byte_ok, read_byte_cons, cmd_bytes]
  by_cases h : r = STM32_ACK <;> simp [h, pure_apply]

/-! ## Checksums -/

theorem shiftRight_and (v m i : Nat) : (v &&& m) >>> i = (v >>> i) &&& (m >>> i) := by
  apply Nat.eq_of_testBit_eq
  intro j
  simp [Nat.testBit_shiftRight, Nat.testBit_and]

theorem mask_byte (v m i : Nat) (hm : m >>> (8 * i) = 2 ^ 8 - 1) :
    (v &&& m) >>> (8 * i) = byteOf v i := by
  rw [shiftRight_and, hm, Nat.and_pow_two_sub_one_eq_mod, Nat.shiftRight_eq_div_pow, byteOf,
    Nat.pow_mul]

theorem byteOf_lt (v i : Nat) : byteOf v i < 256 := by
  unfold byteOf
  omega

theorem xor_byte_lt {a b : Nat} (ha : a < 256) (hb : b < 256) : a ^^^ b < 256 :=
  Nat.xor_lt_two_pow (n := 8) ha hb

/-- The fold of `stm32_gen_cs` is the XOR of the four bytes of its argument. -/
theorem gen_cs_bytes (v : Nat) :
    stm32_gen_cs v = byteOf v 3 ^^^ byteOf v 2 ^^^ byteOf v 1 ^^^ byteOf v 0 := by
  have h3 := mask_byte v 0xFF000000 3 (by decide)
  have h2 := mask_byte v 0x00FF0000 2 (by decide)
  have h1 := mask_byte v 0x0000FF00 1 (by decide)
  have h0 := mask_byte v 0x000000FF 0 (by decide)
  simp only [Nat.reduceMul] at h3 h2 h1 h0
  unfold stm32_gen_cs
  rw [h3, h2, h1, h0]
  apply Nat.mod_eq_of_lt
  exact xor_byte_lt (xor_byte_lt (xor_byte_lt (byteOf_lt _ _) (byteOf_lt _ _)) (byteOf_lt _ _))
    (byteOf_lt _ _)

theorem pack_bytes (b0 b1 b2 b3 : Nat) (h0 : b0 < 256) (h1 : b1 < 256) (h2 : b2 < 256)
    (h3 : b3 < 256) :
    (b0 * 16777216 + b1 * 65536 + b2 * 256 + b3) / 16777216 % 256 = b0 ∧
    (b0 * 16777216 + b1 * 65536 + b2 * 256 + b3) / 65536 % 256 = b1 ∧
    (b0 * 16777216 + b1 * 65536 + b2 * 256 + b3) / 256 % 256 = b2 ∧
    (b0 * 16777216 + b1 * 65536 + b2 * 256 + b3) % 256 = b3 := by
  omega

/-- On either host the storage of `be_u32 a` is the address most significant byte
first. -/
theorem storage_be_u32 (host_le : Bool) (a : Nat) :
    u32_storage host_le (be_u32 host_le a) = be_bytes a := by
  cases host_le
  · simp only [u32_storage, be_u32, be_bytes, byteOf]
    norm_num
    omega
  · have h := pack_bytes (byteOf a 0) (byteOf a 1) (byteOf a 2) (byteOf a 3) (byteOf_lt _ _)
      (byteOf_lt _ _) (byteOf_lt _ _) (byteOf_lt _ _)
    simp only [u32_storage, be_u32, be_bytes, if_true]
    simp only [byteOf] at h ⊢
    norm_num at h ⊢
    omega

/-- The checksum of the encoded address is the XOR of the four bytes of the address,
on either host. -/
theorem gen_cs_be_u32 (host_le : Bool) (a : Nat) :
    stm32_gen_cs (be_u32 host_le a) = byteOf a 3 ^^^ byteOf a 2 ^^^ byteOf a 1 ^^^ byteOf a 0 := by
  rw [gen_cs_bytes]
  cases host_le
  · have e : ∀ i, i < 4 → byteOf (be_u32 false a) i = byteOf a i := by
      intro i hi
      simp only [be_u32, byteOf]
      interval_cases i <;> norm_num <;> omega
    rw [e 3 (by decide), e 2 (by decide), e 1 (by decide), e 0 (by decide)]
  · have h := pack_bytes (byteOf a 0) (byteOf a 1) (byteOf a 2) (byteOf a 3) (byteOf_lt _ _)
      (byteOf_lt _ _) (byteOf_lt _ _) (byteOf_lt _ _)
    have e3 : byteOf (be_u32 true a) 3 = byteOf a 0 := by
      simp only [be_u32, if_true]
      rw [byteOf]
      norm_num
      exact h.1
    have e2 : byteOf (be_u32 true a) 2 = byteOf a 1 := by
      simp only [be_u32, if_true]
      rw [byteOf]
      norm_num
      exact h.2.1
    have e1 : byteOf (be_u32 true a) 1 = byteOf a 2 := by
      simp only [be_u32, if_true]
      rw [byteOf]
      norm_num
      exact h.2.2.1
    have e0 : byteOf (be_u32 true a) 0 = byteOf a 3 := by
      simp only [be_u32, if_true]
      rw [byteOf]
      norm_num
      exact h.2.2.2
    rw [e3, e2, e1, e0]
    have c4 : ∀ w x y z : Nat, w ^^^ x ^^^ y ^^^ z = z ^^^ y ^^^ x ^^^ w := by
      intro w x y z
      rw [Nat.xor_comm (z ^^^ y ^^^ x) w, Nat.xor_comm (z ^^^ y) x, Nat.xor_comm z y]
      simp only [Nat.xor_assoc]
    exact c4 _ _ _ _

/-! ## Running the memory primitives -/

theorem send_byte_run (b : Nat) (s i : List Nat) (c : Nat) (h : 0 < c) :
    stm32_send_byte b ⟨s, i, c⟩ = Res.ret () ⟨s ++ [b % 256], i, c - 1⟩ := by
  obtain ⟨k, rfl⟩ : ∃ k, c = k + 1 := ⟨c - 1, by omega⟩
  simpa using send_byte_ok b s i k

theorem send_command_run (cmd r : Nat) (s i : List Nat) (c : Nat) (h : 2 ≤ c) :
    stm32_send_command cmd ⟨s, r :: i, c⟩ =
      Res.ret (decide (r = STM32_ACK)) ⟨s ++ cmd_bytes cmd, i, c - 2⟩ := by
  obtain ⟨k, rfl⟩ : ∃ k, c = k + 2 := ⟨c - 2, by omega⟩
  simpa using send_command_reply cmd r s i k

theorem fold_mod_eq (bs : List Nat) (hb : ∀ b ∈ bs, b < 256) (c0 : Nat) (h0 : c0 < 256) :
    bs.foldl (fun c b => (c ^^^ b) % 256) c0 = bs.foldl (fun c b => c ^^^ b) c0 ∧
      bs.foldl (fun c b => c ^^^ b) c0 < 256 := by
  induction bs generalizing c0 with
  | nil => exact ⟨rfl, h0⟩
  | cons b bs ih =>
    have hb0 : b < 256 := hb b (List.mem_cons_self _ _)
    have hx : c0 ^^^ b < 256 := xor_byte_lt h0 hb0
    simp only [List.foldl_cons, Nat.mod_eq_of_lt hx]
    exact ih (fun x hx2 => hb x (List.mem_cons_of_mem _ hx2)) _ hx

theorem foldl_xor_start (bs : List Nat) (c0 : Nat) :
    bs.foldl (fun c b => c ^^^ b) c0 = c0 ^^^ xorAll bs := by
  unfold xorAll
  induction bs generalizing c0 with
  | nil => simp
  | cons b bs ih =>
    simp only [List.foldl_cons]
    rw [ih (c0 ^^^ b), ih (0 ^^^ b), Nat.zero_xor, Nat.xor_assoc]

theorem xorAll_cons (b : Nat) (bs : List Nat) : xorAll (b :: bs) = b ^^^ xorAll bs := by
  have h := foldl_xor_start bs (0 ^^^ b)
  rw [Nat.zero_xor] at h
  simpa [xorAll] using h

theorem xorAll_append (as bs : List Nat) : xorAll (as ++ bs) = xorAll as ^^^ xorAll bs := by
  unfold xorAll
  rw [List.foldl_append, foldl_xor_start]
  rfl

theorem xorAll_lt (bs : List Nat) (hb : ∀ b ∈ bs, b < 256) : xorAll bs < 256 :=
  (fold_mod_eq bs hb 0 (by decide)).2

/-- A list of bytes followed by its XOR folds to zero. -/
theorem xorAll_closed (bs : List Nat) : xorAll (bs ++ [xorAll bs]) = 0 := by
  rw [xorAll_append, xorAll_cons]
  simp [xorAll, Nat.xor_self]

theorem write_padding_run (n : Nat) (cs : Nat) (s i : List Nat) (c : Nat) (h : n ≤ c) :
    write_padding n cs ⟨s, i, c⟩ =
      Res.ret ((List.replicate n 0xFF).foldl (fun c b => (c ^^^ b) % 256) cs)
        ⟨s ++ List.replicate n 0xFF, i, c - n⟩ := by
  induction n generalizing cs s c with
  | zero => simp [write_padding, pure_apply]
  | succ n ih =>
    rw [write_padding, bind_apply, send_byte_run _ _ _ _ (by omega)]
    simp only []
    rw [ih _ _ _ (by omega)]
    simp [List.replicate_succ, Nat.sub_sub, Nat.add_comm]

/-- The number of filler bytes the code computes is `(4 - len % 4) % 4`. -/
theorem extra_eq (len : Nat) :
    (if len % 4 ≠ 0 then 4 - len % 4 else len % 4) = (4 - len % 4) % 4 := by
  split <;> omega

/-- The complete exchange of `stm32_write_memory` with a device that acknowledges the
command and the address: everything sent before the final reply is awaited. -/
theorem write_memory_run (host_le : Bool) (stm : stm32_t) (address : Nat) (data : List Nat)
    (len : Nat) (s i : List Nat) (c : Nat) (h1 : 1 ≤ len) (h2 : len ≤ 256)
    (hd : len ≤ data.length) (hb : ∀ b ∈ data, b < 256) (ha : address % 4 = 0)
    (hc : 8 + len + (4 - len % 4) % 4 + 1 ≤ c) :
    stm32_write_memory host_le stm address data len ⟨s, STM32_ACK :: STM32_ACK :: i, c⟩ =
      await_ack
        ⟨s ++ cmd_bytes stm.cmd.wm ++ be_bytes address ++ [stm32_gen_cs (be_u32 host_le address)]
          ++ ((len - 1 + (4 - len % 4) % 4) :: (data.take len ++
                List.replicate ((4 - len % 4) % 4) 0xFF))
          ++ [xorAll ((len - 1 + (4 - len % 4) % 4) :: (data.take len ++
                List.replicate ((4 - len % 4) % 4) 0xFF))],
         i, c - (8 + len + (4 - len % 4) % 4 + 1)⟩ := by
  have hcs : stm32_gen_cs (be_u32 host_le address) < 256 := by
    unfold stm32_gen_cs
    omega
  have hpad : (4 - len % 4) % 4 ≤ 3 := by omega
  have hL : len - 1 + (4 - len % 4) % 4 < 256 := by omega
  unfold stm32_write_memory
  rw [if_neg (by omega), if_neg (by simpa using ha)]
  simp only [extra_eq]
  generalize (4 - len % 4) % 4 = pad at hc hpad hL ⊢
  have htake : (List.take len data).length = len := by simp [List.length_take, hd]
  have hbt : ∀ b ∈ List.take len data ++ List.replicate pad 0xFF, b < 256 := by
    intro b hb2
    rcases List.mem_append.1 hb2 with h | h
    · exact hb b (List.mem_of_mem_take h)
    · rw [List.eq_of_mem_replicate h]
      decide
  have hfold := fold_mod_eq _ hbt _ hL
  rw [List.foldl_append] at hfold
  have hx : xorAll ((len - 1 + pad) :: (List.take len data ++ List.replicate pad 0xFF)) =
      List.foldl (fun c b => c ^^^ b) (len - 1 + pad)
        (List.take len data ++ List.replicate pad 0xFF) := by
    simp [xorAll]
  simp only [bind_apply]
  rw [send_command_run _ _ _ _ _ (by omega)]
  simp only [decide_True, storage_be_u32, Bool.true_eq_false, if_false, bind_apply]
  rw [writeBuf_ok _ _ _ _ (by simp [be_bytes]; omega)]
  simp only [ne_eq, not_true_eq_false, if_false, bind_apply]
  rw [send_byte_run _ _ _ _ (by simp [be_bytes]; omega)]
  simp only [bind_apply]
  rw [read_byte_cons]
  simp only [ne_eq, not_true_eq_false, if_false, bind_apply]
  rw [send_byte_run _ _ _ _ (by simp [be_bytes]; omega)]
  simp only [bind_apply]
  rw [writeBuf_ok _ _ _ _ (by simp [be_bytes, htake]; omega)]
  simp only [ne_eq, not_true_eq_false, if_false, bind_apply]
  rw [write_padding_run _ _ _ _ _ (by simp [be_bytes, htake]; omega)]
  simp only [bind_apply]
  rw [send_byte_run _ _ _ _ (by simp [be_bytes, htake]; omega)]
  simp only [Nat.mod_eq_of_lt hL, Nat.mod_eq_of_lt hcs, hfold.1, Nat.mod_eq_of_lt hfold.2, hx]
  have hcap : c - 2 - (be_bytes address).length - 1 - 1 - (List.take len data).length -
      pad - 1 = c - (8 + len + pad + 1) := by
    simp only [be_bytes, htake, List.length_cons, List.length_nil]
    omega
  rw [hcap]
  simp only [await_ack, bind_apply, List.append_assoc, List.cons_append, List.nil_append,
    List.singleton_append]

theorem be_bytes_length (a : Nat) : (be_bytes a).length = 4 := rfl

theorem gen_cs_lt (v : Nat) : stm32_gen_cs v < 256 := by
  unfold stm32_gen_cs
  omega

/-- The part of `stm32_write_memory` up to the address checksum, with a device that
acknowledges the command and then stays silent. -/
theorem write_memory_address_stage (host_le : Bool) (stm : stm32_t) (address : Nat)
    (data : List Nat) (len : Nat) (s : List Nat) (c : Nat) (h1 : 1 ≤ len) (h2 : len ≤ 256)
    (ha : address % 4 = 0) (hc : 7 ≤ c) :
    stm32_write_memory host_le stm address data len ⟨s, [STM32_ACK], c⟩ =
      Res.halt ⟨s ++ cmd_bytes stm.cmd.wm ++ be_bytes address ++
        [stm32_gen_cs (be_u32 host_le address)], [], c - 7⟩ := by
  unfold stm32_write_memory
  rw [if_neg (by omega), if_neg (by simpa using ha)]
  simp only [bind_apply]
  rw [send_command_run _ _ _ _ _ (by omega)]
  simp only [decide_True, storage_be_u32, Bool.true_eq_false, if_false, bind_apply]
  rw [writeBuf_ok _ _ _ _ (by rw [be_bytes_length]; omega)]
  simp only [ne_eq, not_true_eq_false, if_false, bind_apply]
  rw [send_byte_run _ _ _ _ (by rw [be_bytes_length]; omega)]
  simp only [bind_apply]
  rw [read_byte_nil, Nat.mod_eq_of_lt (gen_cs_lt _), be_bytes_length]
  simp only [Nat.sub_sub]

/-- The part of `stm32_read_memory` up to the address checksum, with a device that
acknowledges the command and then stays silent. -/
theorem read_memory_address_stage (host_le : Bool) (stm : stm32_t) (address len : Nat)
    (s : List Nat) (c : Nat) (h1 : 1 ≤ len) (h2 : len ≤ 256)
    (ha : address % 4 = 0) (hc : 7 ≤ c) :
    stm32_read_memory host_le stm address len ⟨s, [STM32_ACK], c⟩ =
      Res.halt ⟨s ++ cmd_bytes stm.cmd.rm ++ be_bytes address ++
        [stm32_gen_cs (be_u32 host_le address)], [], c - 7⟩ := by
  unfold stm32_read_memory
  rw [if_neg (by omega), if_neg (by simpa using ha)]
  simp only [bind_apply]
  rw [send_command_run _ _ _ _ _ (by omega)]
  simp only [decide_True, storage_be_u32, Bool.true_eq_false, if_false, bind_apply]
  rw [writeBuf_ok _ _ _ _ (by rw [be_bytes_length]; omega)]
  simp only [ne_eq, not_true_eq_false, if_false, bind_apply]
  rw [send_byte_run _ _ _ _ (by rw [be_bytes_length]; omega)]
  simp only [bind_apply]
  rw [read_byte_nil, Nat.mod_eq_of_lt (gen_cs_lt _), be_bytes_length]
  simp only [Nat.sub_sub]

/-- The complete exchange of `stm32_go` with a device that acknowledges the command. -/
theorem go_run (host_le : Bool) (stm : stm32_t) (address : Nat) (s i : List Nat) (c : Nat)
    (hc : 7 ≤ c) :
    stm32_go host_le stm address ⟨s, STM32_ACK :: i, c⟩ =
      await_ack ⟨s ++ cmd_bytes stm.cmd.go ++ be_bytes address ++
        [stm32_gen_cs (be_u32 host_le address)], i, c - 7⟩ := by
  unfold stm32_go
  simp only [bind_apply]
  rw [send_command_run _ _ _ _ _ (by omega)]
  simp only [decide_True, storage_be_u32, Bool.true_eq_false, if_false, bind_apply]
  rw [writeBuf_ok _ _ _ _ (by rw [be_bytes_length]; omega)]
  simp only [bind_apply]
  rw [writeBuf_ok _ _ _ _ (by rw [be_bytes_length]; simp only [List.length_singleton]; omega)]
  simp only [await_ack, bind_apply, be_bytes_length, List.length_singleton, Nat.sub_sub]

/-- The complete exchange of `stm32_read_memory` with a device that acknowledges the
three stages and delivers `len` bytes. -/
theorem read_memory_run (host_le : Bool) (stm : stm32_t) (address len : Nat)
    (s reply i : List Nat) (c : Nat) (h1 : 1 ≤ len) (h2 : len ≤ 256) (hr : reply.length = len)
    (ha : address % 4 = 0) (hc : 9 ≤ c) :
    stm32_read_memory host_le stm address len
        ⟨s, STM32_ACK :: STM32_ACK :: STM32_ACK :: (reply ++ i), c⟩ =
      Res.ret (true, reply) ⟨s ++ cmd_bytes stm.cmd.rm ++ be_bytes address ++
        [stm32_gen_cs (be_u32 host_le address)] ++ cmd_bytes (len - 1), i, c - 9⟩ := by
  unfold stm32_read_memory
  rw [if_neg (by omega), if_neg (by simpa using ha)]
  simp only [bind_apply]
  rw [send_command_run _ _ _ _ _ (by omega)]
  simp only [decide_True, storage_be_u32, Bool.true_eq_false, if_false, bind_apply]
  rw [writeBuf_ok _ _ _ _ (by rw [be_bytes_length]; omega)]
  simp only [ne_eq, not_true_eq_false, if_false, bind_apply]
  rw [send_byte_run _ _ _ _ (by rw [be_bytes_length]; omega)]
  simp only [bind_apply]
  rw [read_byte_cons]
  simp only [ne_eq, not_true_eq_false, if_false, bind_apply]
  rw [send_byte_run _ _ _ _ (by rw [be_bytes_length]; omega)]
  simp only [bind_apply]
  rw [send_byte_run _ _ _ _ (by rw [be_bytes_length]; omega)]
  simp only [bind_apply]
  rw [read_byte_cons]
  simp only [ne_eq, not_true_eq_false, if_false, bind_apply]
  have hrd : ∀ (t : List Nat) (k : Nat), readBuf len ⟨t, reply ++ i, k⟩ =
      Res.ret (SERIAL_ERR_OK, reply) ⟨t, i, k⟩ := by
    intro t k
    simp [readBuf, serial_read, hr.symm]
  rw [hrd]
  simp only [ne_eq, not_true_eq_false, if_false, pure_apply, Nat.mod_eq_of_lt (gen_cs_lt _),
    be_bytes_length, Nat.sub_sub, cmd_bytes, List.append_assoc, List.cons_append,
    List.nil_append]

/-! ## Running the erase loops -/

theorem erase_loop8_run (bound : Nat) (hb : bound ≤ 255) (n : Nat) :
    ∀ (fuel pg cs : Nat) (s i : List Nat) (c : Nat), pg + n = bound → n < fuel → n ≤ c →
      erase_loop8 bound fuel pg cs ⟨s, i, c⟩ =
        some (Res.ret ((List.range' pg n).foldl (fun c b => (c ^^^ b) % 256) cs)
          ⟨s ++ List.range' pg n, i, c - n⟩) := by
  induction n with
  | zero =>
    intro fuel pg cs s i c hpg hf _
    obtain ⟨f, rfl⟩ : ∃ f, fuel = f + 1 := ⟨fuel - 1, by omega⟩
    simp [erase_loop8, show ¬ pg < bound by omega]
  | succ n ih =>
    intro fuel pg cs s i c hpg hf hc
    obtain ⟨f, rfl⟩ : ∃ f, fuel = f + 1 := ⟨fuel - 1, by omega⟩
    rw [erase_loop8, if_pos (by omega), send_byte_run _ _ _ _ (by omega)]
    simp only []
    rw [Nat.mod_eq_of_lt (show pg + 1 < 256 by omega), Nat.mod_eq_of_lt (show pg < 256 by omega),
      ih f (pg + 1) _ _ _ _ (by omega) (by omega) (by omega)]
    simp [List.range'_succ, Nat.sub_sub, Nat.add_comm]

theorem be16_byte (pg : Nat) :
    be16 pg = [(pg >>> 8) % 256, (pg &&& 0xFF) % 256] := by
  have h : (0xFF : Nat) = 2 ^ 8 - 1 := by decide
  rw [be16, h, Nat.and_pow_two_sub_one_eq_mod, Nat.shiftRight_eq_div_pow]
  norm_num

theorem erase_loop16_run (bound : Nat) (hb : bound ≤ 65535) (n : Nat) :
    ∀ (fuel pg cs : Nat) (s i : List Nat) (c : Nat), pg + n = bound → n < fuel → 2 * n ≤ c →
      erase_loop16 bound fuel pg cs ⟨s, i, c⟩ =
        some (Res.ret ((page_bytes16 pg n).foldl (fun c b => (c ^^^ b) % 256) cs)
          ⟨s ++ page_bytes16 pg n, i, c - 2 * n⟩) := by
  induction n with
  | zero =>
    intro fuel pg cs s i c hpg hf _
    obtain ⟨f, rfl⟩ : ∃ f, fuel = f + 1 := ⟨fuel - 1, by omega⟩
    simp [erase_loop16, page_bytes16, show ¬ pg < bound by omega]
  | succ n ih =>
    intro fuel pg cs s i c hpg hf hc
    obtain ⟨f, rfl⟩ : ∃ f, fuel = f + 1 := ⟨fuel - 1, by omega⟩
    rw [erase_loop16, if_pos (by omega)]
    simp only []
    rw [send_byte_run _ _ _ _ (by omega)]
    simp only []
    rw [send_byte_run _ _ _ _ (by omega)]
    simp only []
    rw [Nat.mod_eq_of_lt (show pg + 1 < 65536 by omega),
      ih f (pg + 1) _ _ _ _ (by omega) (by omega) (by omega)]
    simp only [page_bytes16, be16_byte, Nat.mod_mod, List.foldl_cons, List.cons_append,
      List.nil_append, List.append_assoc, List.foldl_append]
    congr 3
    omega

/-- More fuel does not change the result of a page loop that ended. -/
theorem erase_loop8_mono (bound : Nat) (r : Res Nat) :
    ∀ (fuel pg cs : Nat) (p : Port), erase_loop8 bound fuel pg cs p = some r →
      erase_loop8 bound (fuel + 1) pg cs p = some r := by
  intro fuel
  induction fuel with
  | zero => intro pg cs p h; simp [erase_loop8] at h
  | succ f ih =>
    intro pg cs p h
    rw [erase_loop8] at h
    rw [erase_loop8]
    by_cases hlt : pg < bound
    · rw [if_pos hlt] at h ⊢
      cases hsb : stm32_send_byte pg p with
      | halt q => rw [hsb] at h; exact h
      | ret u q =>
        rw [hsb] at h
        exact ih _ _ _ h
    · rw [if_neg hlt] at h ⊢
      exact h

theorem erase_loop16_mono (bound : Nat) (r : Res Nat) :
    ∀ (fuel pg cs : Nat) (p : Port), erase_loop16 bound fuel pg cs p = some r →
      erase_loop16 bound (fuel + 1) pg cs p = some r := by
  intro fuel
  induction fuel with
  | zero => intro pg cs p h; simp [erase_loop16] at h
  | succ f ih =>
    intro pg cs p h
    rw [erase_loop16] at h
    rw [erase_loop16]
    by_cases hlt : pg < bound
    · rw [if_pos hlt] at h ⊢
      simp only [] at h ⊢
      cases hsb : stm32_send_byte ((pg >>> 8) % 256) p with
      | halt q => rw [hsb] at h; exact h
      | ret u q =>
        rw [hsb] at h
        simp only [] at h ⊢
        cases hsb2 : stm32_send_byte ((pg &&& 0xFF) % 256) q with
        | halt q2 => rw [hsb2] at h; exact h
        | ret u2 q2 =>
          rw [hsb2] at h
          exact ih _ _ _ h
    · rw [if_neg hlt] at h ⊢
      exact h

/-- More fuel does not change the result of an erase that ended. -/
theorem erase_memory_mono (stm : stm32_t) (spage pages : Nat) (p : Port) (r : Res Bool)
    (fuel : Nat) (h : stm32_erase_memory fuel stm spage pages p = some r) :
    stm32_erase_memory (fuel + 1) stm spage pages p = some r := by
  unfold stm32_erase_memory at h ⊢
  simp only [] at h ⊢
  generalize spage % 65536 = spage at h ⊢
  generalize pages % 65536 = pages at h ⊢
  by_cases h0 : pages = 0
  · rw [if_pos h0] at h ⊢
    exact h
  rw [if_neg h0] at h ⊢
  cases hsc : stm32_send_command stm.cmd.er p with
  | halt q => rw [hsc] at h; exact h
  | ret ok q =>
    rw [hsc] at h
    cases ok with
    | false => exact h
    | true =>
      simp only [] at h ⊢
      by_cases hee : stm.cmd.er = STM32_CMD_EE
      · rw [if_pos hee] at h ⊢
        generalize (if decide (stm.pid = 0x416 ∧ pages = 0xFFFF) = true then 0 else spage) = sp
          at h ⊢
        generalize (if decide (stm.pid = 0x416 ∧ pages = 0xFFFF) = true then
          (stm.dev.fl_end + 2 ^ 32 - stm.dev.fl_start) % 2 ^ 32 / stm.dev.fl_ps % 65536
          else pages) = pg at h ⊢
        split_ifs at h ⊢ with hm
        · exact h
        · split at h
          · exact h
          · split at h
            · exact absurd h (by simp)
            · rename_i s1 hl
              rw [erase_loop16_mono _ _ _ _ _ _ hl]
              exact h
            · rename_i cs1 s1 hl
              rw [erase_loop16_mono _ _ _ _ _ _ hl]
              exact h
      · rw [if_neg hee] at h ⊢
        split_ifs at h ⊢ with hm
        · exact h
        · split at h
          · exact h
          · split at h
            · exact absurd h (by simp)
            · rename_i s1 hl
              rw [erase_loop8_mono _ _ _ _ _ _ hl]
              exact h
            · rename_i cs1 s1 hl
              rw [erase_loop8_mono _ _ _ _ _ _ hl]
              exact h

theorem erase_memory_mono_add (stm : stm32_t) (spage pages : Nat) (p : Port) (r : Res Bool)
    (fuel k : Nat) (h : stm32_erase_memory fuel stm spage pages p = some r) :
    stm32_erase_memory (fuel + k) stm spage pages p = some r := by
  induction k with
  | zero => exact h
  | succ k ih => exact erase_memory_mono _ _ _ _ _ _ ih

/-- The start page and the page count are received as `uint16_t`. -/
theorem erase_memory_reduce (fuel : Nat) (stm : stm32_t) (spage pages : Nat) (p : Port) :
    stm32_erase_memory fuel stm spage pages p =
      stm32_erase_memory fuel stm (spage % 65536) (pages % 65536) p := by
  unfold stm32_erase_memory
  simp only [Nat.mod_mod]

theorem await_ack_alt :
    (stm32_read_byte >>= fun r2 => if r2 ≠ STM32_ACK then pure false else pure true) =
      await_ack := by
  funext p
  simp only [await_ack, bind_apply]
  cases stm32_read_byte p with
  | halt q => rfl
  | ret r q =>
    by_cases h : r = STM32_ACK <;> simp [h, pure_apply]

theorem await_ack_cons (r : Nat) (s i : List Nat) (c : Nat) :
    await_ack ⟨s, r :: i, c⟩ = Res.ret (decide (r = STM32_ACK)) ⟨s, i, c⟩ := by
  simp [await_ack, bind_apply, read_byte_cons, pure_apply]

theorem range'_lt_256 (pg n : Nat) (h : pg + n ≤ 256) : ∀ b ∈ List.range' pg n, b < 256 := by
  intro b hb
  rw [List.mem_range'_1] at hb
  omega

theorem page_bytes16_lt (pg n : Nat) : ∀ b ∈ page_bytes16 pg n, b < 256 := by
  induction n generalizing pg with
  | zero => intro b hb; simp [page_bytes16] at hb
  | succ n ih =>
    intro b hb
    simp only [page_bytes16, be16, List.cons_append, List.nil_append, List.mem_cons] at hb
    rcases hb with h | h | h
    · omega
    · omega
    · exact ih _ b h

theorem page_bytes16_length (pg n : Nat) : (page_bytes16 pg n).length = 2 * n := by
  induction n generalizing pg with
  | zero => rfl
  | succ n ih => simp [page_bytes16, be16, ih]; omega

/-- The regular erase of a bounded page list whose last page number fits the 8-bit
loop counter, on a device that acknowledges the command. -/
theorem regular_erase_run (fuel : Nat) (stm : stm32_t) (spage pages : Nat) (s i : List Nat)
    (c : Nat) (her : stm.cmd.er ≠ STM32_CMD_EE) (h1 : 1 ≤ pages) (h2 : spage + pages ≤ 255)
    (hc : pages + 4 ≤ c) (hf : pages < fuel) :
    stm32_erase_memory fuel stm spage pages ⟨s, STM32_ACK :: i, c⟩ =
      some (await_ack ⟨s ++ cmd_bytes stm.cmd.er ++ [pages - 1] ++ List.range' spage pages ++
        [xorAll ((pages - 1) :: List.range' spage pages)], i, c - (pages + 4)⟩) := by
  have hfold := fold_mod_eq (List.range' spage pages) (range'_lt_256 _ _ (by omega)) (pages - 1)
    (by omega)
  unfold stm32_erase_memory
  simp only []
  rw [Nat.mod_eq_of_lt (show spage < 65536 by omega),
    Nat.mod_eq_of_lt (show pages < 65536 by omega)]
  rw [if_neg (by omega), send_command_run _ _ _ _ _ (by omega)]
  simp only [decide_True]
  rw [if_neg her, if_neg (by omega), send_byte_run _ _ _ _ (by omega)]
  simp only [Nat.zero_xor]
  rw [Nat.mod_eq_of_lt (show pages - 1 < 256 by omega),
    Nat.mod_eq_of_lt (show spage < 256 by omega),
    erase_loop8_run (pages + spage) (by omega) pages fuel spage _ _ _ _ (by omega) hf (by omega)]
  simp only [bind_apply]
  rw [send_byte_run _ _ _ _ (by omega), hfold.1, Nat.mod_eq_of_lt hfold.2]
  simp only [await_ack, bind_apply, xorAll, List.foldl_cons, Nat.zero_xor, Nat.sub_sub,
    List.append_assoc]
  have e : c - (2 + 1 + pages + 1) = c - (pages + 4) := by omega
  rw [e]

theorem and_ff (x : Nat) : x &&& 0xFF = x % 256 := by
  have h : (0xFF : Nat) = 2 ^ 8 - 1 := by decide
  rw [h, Nat.and_pow_two_sub_one_eq_mod]

theorem shr8 (x : Nat) : x >>> 8 = x / 256 := by
  rw [Nat.shiftRight_eq_div_pow]

/-- The extended erase of a bounded page list on a device that acknowledges the
command; `sp` and `pg` are the start page and the page count after the 0x416
substitution. -/
theorem extended_erase_run (fuel : Nat) (stm : stm32_t) (spage pages sp pg : Nat)
    (s i : List Nat) (c : Nat) (her : stm.cmd.er = STM32_CMD_EE) (h0 : pages ≠ 0)
    (hs16 : spage < 65536) (hp16 : pages < 65536)
    (hsp : (if decide (stm.pid = 0x416 ∧ pages = 0xFFFF) = true then 0 else spage) = sp)
    (hpg : (if decide (stm.pid = 0x416 ∧ pages = 0xFFFF) = true then
      (stm.dev.fl_end + 2 ^ 32 - stm.dev.fl_start) % 2 ^ 32 / stm.dev.fl_ps % 65536 else pages)
      = pg)
    (h1 : 1 ≤ pg) (hm : pg ≠ 0xFFFF) (h2 : sp + pg ≤ 65535) (hc : 2 * pg + 5 ≤ c)
    (hf : pg < fuel) :
    stm32_erase_memory fuel stm spage pages ⟨s, STM32_ACK :: i, c⟩ =
      some (await_ack ⟨s ++ cmd_bytes stm.cmd.er ++ be16 (pg - 1) ++ page_bytes16 sp pg ++
        [xorAll (be16 (pg - 1) ++ page_bytes16 sp pg)], i, c - (2 * pg + 5)⟩) := by
  have hfold := fold_mod_eq (page_bytes16 sp pg) (page_bytes16_lt _ _)
    ((pg - 1) / 256 % 256 ^^^ (pg - 1) % 256)
    (xor_byte_lt (Nat.mod_lt _ (by decide)) (Nat.mod_lt _ (by decide)))
  have hx : xorAll (be16 (pg - 1) ++ page_bytes16 sp pg) =
      List.foldl (fun c b => c ^^^ b) ((pg - 1) / 256 % 256 ^^^ (pg - 1) % 256)
        (page_bytes16 sp pg) := by
    simp [xorAll, be16]
  have hd : (pg - 1) / 256 % 256 = (pg - 1) / 256 := by omega
  have hcs : ((pg - 1) / 256 ^^^ (pg - 1) % 256) % 256 =
      (pg - 1) / 256 % 256 ^^^ (pg - 1) % 256 := by
    rw [hd]
    exact Nat.mod_eq_of_lt (xor_byte_lt (by omega) (Nat.mod_lt _ (by decide)))
  have hpm : (pg + (2 ^ 32 - 1)) % 2 ^ 32 = pg - 1 := by omega
  have e : c - 2 - 1 - 1 - 2 * pg - 1 = c - (2 * pg + 5) := by omega
  unfold stm32_erase_memory
  simp only []
  rw [Nat.mod_eq_of_lt hs16, Nat.mod_eq_of_lt hp16]
  rw [if_neg h0, send_command_run _ _ _ _ _ (by omega)]
  simp only [decide_True]
  rw [if_pos her]
  simp only [hsp, hpg]
  rw [if_neg hm, hpm]
  simp only [await_ack_alt]
  simp only [bind_apply, and_ff, shr8]
  rw [send_byte_run _ _ _ _ (by omega)]
  simp only []
  rw [send_byte_run _ _ _ _ (by omega)]
  simp only []
  rw [erase_loop16_run (pg + sp) (by omega) pg fuel sp _ _ _ _ (by omega) hf (by omega)]
  simp only [bind_apply]
  rw [send_byte_run _ _ _ _ (by omega), hcs, hfold.1, Nat.mod_eq_of_lt hfold.2, hx, e]
  simp only [await_ack, bind_apply, be16, List.append_assoc, List.cons_append, List.nil_append,
    Nat.mod_mod]

theorem shift_and_byte (a i : Nat) : (a >>> (8 * i)) &&& 0xFF = byteOf a i := by
  have h : (0xFF : Nat) = 2 ^ 8 - 1 := by decide
  rw [h, Nat.and_pow_two_sub_one_eq_mod, Nat.shiftRight_eq_div_pow, byteOf, Nat.pow_mul]

/-- The formula of the spec is the XOR of the four bytes of the address. -/
theorem spec_fold_bytes (a : Nat) :
    ((a >>> 24) ^^^ (a >>> 16) ^^^ (a >>> 8) ^^^ a) &&& 0xFF =
      byteOf a 3 ^^^ byteOf a 2 ^^^ byteOf a 1 ^^^ byteOf a 0 := by
  have h3 := shift_and_byte a 3
  have h2 := shift_and_byte a 2
  have h1 := shift_and_byte a 1
  have h0 := shift_and_byte a 0
  simp only [Nat.reduceMul, Nat.shiftRight_zero] at h3 h2 h1 h0
  rw [Nat.and_xor_distrib_right, Nat.and_xor_distrib_right, Nat.and_xor_distrib_right, h3, h2,
    h1, h0]

/-! ## Write memory: checksum and padding -/

/-- C1: for every address and every payload of 1..256 bytes, on a device that
acknowledges the command and the address, the last byte `stm32_write_memory` sends
before it waits for the final ACK is the XOR of the length byte, the payload bytes and
the 0xFF filler bytes, in that order; the bytes from the length byte through that
checksum XOR to 0.  An unaligned address fails the assertion with nothing sent. -/
theorem write_memory_checksum (host_le : Bool) (stm : stm32_t) (address : Nat)
    (data : List Nat) (len : Nat) (s i : List Nat) (c : Nat) (h1 : 1 ≤ len) (h2 : len ≤ 256)
    (hd : len ≤ data.length) (hb : ∀ b ∈ data, b < 256)
    (hc : 8 + len + (4 - len % 4) % 4 + 1 ≤ c) :
    (address % 4 = 0 →
      stm32_write_memory host_le stm address data len ⟨s, STM32_ACK :: STM32_ACK :: i, c⟩ =
        await_ack
          ⟨s ++ cmd_bytes stm.cmd.wm ++ be_bytes address ++
              [stm32_gen_cs (be_u32 host_le address)] ++
              ((len - 1 + (4 - len % 4) % 4) ::
                (data.take len ++ List.replicate ((4 - len % 4) % 4) 0xFF)) ++
              [xorAll ((len - 1 + (4 - len % 4) % 4) ::
                (data.take len ++ List.replicate ((4 - len % 4) % 4) 0xFF))],
            i, c - (8 + len + (4 - len % 4) % 4 + 1)⟩) ∧
    (address % 4 ≠ 0 →
      stm32_write_memory host_le stm address data len ⟨s, STM32_ACK :: STM32_ACK :: i, c⟩ =
        Res.halt ⟨s, STM32_ACK :: STM32_ACK :: i, c⟩) ∧
    xorAll (((len - 1 + (4 - len % 4) % 4) ::
        (data.take len ++ List.replicate ((4 - len % 4) % 4) 0xFF)) ++
      [xorAll ((len - 1 + (4 - len % 4) % 4) ::
        (data.take len ++ List.replicate ((4 - len % 4) % 4) 0xFF))]) = 0 := by
  refine ⟨fun ha => write_memory_run host_le stm address data len s i c h1 h2 hd hb ha hc, ?_,
    xorAll_closed _⟩
  intro ha
  unfold stm32_write_memory
  rw [if_neg (by omega), if_pos (by simpa using ha)]
  rfl

/-- C1 at a concrete exchange: five bytes at 0x08000000, three filler bytes, checksum 0xE8. -/
theorem write_memory_checksum_witness :
    (1 ≤ 5 ∧ 5 ≤ 256 ∧ 5 ≤ [0x10, 0x20, 0x30, 0x40, 0x50].length ∧
      (∀ b ∈ [0x10, 0x20, 0x30, 0x40, 0x50], b < 256) ∧ 8 + 5 + (4 - 5 % 4) % 4 + 1 ≤ 32) ∧
    stm32_write_memory true sample_stm 0x08000000 [0x10, 0x20, 0x30, 0x40, 0x50] 5
        ⟨[], [STM32_ACK, STM32_ACK, STM32_ACK], 32⟩ =
      Res.ret true
        ⟨[0x31, 0xCE, 0x08, 0x00, 0x00, 0x00, 0x08, 0x07, 0x10, 0x20, 0x30, 0x40, 0x50,
            0xFF, 0xFF, 0xFF, 0xE8], [], 15⟩ ∧
    xorAll [0x07, 0x10, 0x20, 0x30, 0x40, 0x50, 0xFF, 0xFF, 0xFF, 0xE8] = 0 := by
  have h := write_memory_checksum true sample_stm 0x08000000 [0x10, 0x20, 0x30, 0x40, 0x50] 5
    [] [STM32_ACK] 32 (by decide) (by decide) (by decide) (by decide) (by decide)
  refine ⟨by decide, ?_, by decide⟩
  rw [h.1 (by decide)]
  decide

/-- C2: for every payload length 1..256, `stm32_write_memory` sends the length byte
`len - 1 + pad` with `pad = (4 - len % 4) % 4`, followed by the payload and `pad` filler
bytes 0xFF; the length byte is at most 255 (the value on the line is not truncated),
and the number of data bytes after it, `len + pad`, is a multiple of 4 and equals the
length byte plus one. -/
theorem write_memory_padding (host_le : Bool) (stm : stm32_t) (address : Nat)
    (data : List Nat) (len : Nat) (s i : List Nat) (c : Nat) (h1 : 1 ≤ len) (h2 : len ≤ 256)
    (hd : len ≤ data.length) (hb : ∀ b ∈ data, b < 256) (ha : address % 4 = 0)
    (hc : 8 + len + (4 - len % 4) % 4 + 1 ≤ c) :
    (∃ checksum,
      stm32_write_memory host_le stm address data len ⟨s, STM32_ACK :: STM32_ACK :: i, c⟩ =
        await_ack
          ⟨s ++ cmd_bytes stm.cmd.wm ++ be_bytes address ++
              [stm32_gen_cs (be_u32 host_le address)] ++ [len - 1 + (4 - len % 4) % 4] ++
              (data.take len ++ List.replicate ((4 - len % 4) % 4) 0xFF) ++ [checksum],
            i, c - (8 + len + (4 - len % 4) % 4 + 1)⟩) ∧
    len - 1 + (4 - len % 4) % 4 ≤ 255 ∧
    (data.take len ++ List.replicate ((4 - len % 4) % 4) 0xFF).length =
      len + (4 - len % 4) % 4 ∧
    (len + (4 - len % 4) % 4) % 4 = 0 ∧
    len + (4 - len % 4) % 4 = (len - 1 + (4 - len % 4) % 4) + 1 := by
  refine ⟨⟨xorAll ((len - 1 + (4 - len % 4) % 4) ::
    (data.take len ++ List.replicate ((4 - len % 4) % 4) 0xFF)), ?_⟩, by omega, ?_, by omega,
    by omega⟩
  · rw [write_memory_run host_le stm address data len s i c h1 h2 hd hb ha hc]
    simp only [List.append_assoc, List.cons_append, List.nil_append, List.singleton_append]
  · simp [List.length_take, hd]

/-- C2 at a concrete exchange: one byte at 0x20000200, length byte 3, three filler bytes. -/
theorem write_memory_padding_witness :
    (1 ≤ 1 ∧ 1 ≤ 256 ∧ 1 ≤ [0xAB].length ∧ (∀ b ∈ [0xAB], b < 256) ∧ 0x20000200 % 4 = 0 ∧
      8 + 1 + (4 - 1 % 4) % 4 + 1 ≤ 13) ∧
    ((∃ checksum,
      stm32_write_memory true sample_stm 0x20000200 [0xAB] 1
          ⟨[], STM32_ACK :: STM32_ACK :: [STM32_NACK], 13⟩ =
        await_ack
          ⟨[] ++ cmd_bytes sample_stm.cmd.wm ++ be_bytes 0x20000200 ++
              [stm32_gen_cs (be_u32 true 0x20000200)] ++ [1 - 1 + (4 - 1 % 4) % 4] ++
              (List.take 1 [0xAB] ++ List.replicate ((4 - 1 % 4) % 4) 0xFF) ++ [checksum],
            [STM32_NACK], 13 - (8 + 1 + (4 - 1 % 4) % 4 + 1)⟩) ∧
    1 - 1 + (4 - 1 % 4) % 4 ≤ 255 ∧
    (List.take 1 [0xAB] ++ List.replicate ((4 - 1 % 4) % 4) 0xFF).length =
      1 + (4 - 1 % 4) % 4 ∧
    (1 + (4 - 1 % 4) % 4) % 4 = 0 ∧
    1 + (4 - 1 % 4) % 4 = (1 - 1 + (4 - 1 % 4) % 4) + 1) :=
  ⟨by decide, write_memory_padding true sample_stm 0x20000200 [0xAB] 1 [] [STM32_NACK] 13
    (by decide) (by decide) (by decide) (by decide) (by decide) (by decide)⟩

/-! ## The address checksum -/

/-- C3: for every 32-bit address the checksum `stm32_gen_cs` gives for the encoded
(big-endian) address is `((a>>24)^(a>>16)^(a>>8)^a) & 0xFF`, the same value as the fold
of the address itself, on either host byte order; read-memory, write-memory and go send
the command, the four address bytes most significant first and then this byte. -/
theorem address_checksum (host_le : Bool) (a : Nat) :
    stm32_gen_cs (be_u32 host_le a) = ((a >>> 24) ^^^ (a >>> 16) ^^^ (a >>> 8) ^^^ a) &&& 0xFF ∧
    stm32_gen_cs (be_u32 host_le a) = stm32_gen_cs a ∧
    u32_storage host_le (be_u32 host_le a) = be_bytes a ∧
    (∀ (stm : stm32_t) (s i : List Nat) (c : Nat), 7 ≤ c →
      stm32_go host_le stm a ⟨s, STM32_ACK :: i, c⟩ =
        await_ack ⟨s ++ cmd_bytes stm.cmd.go ++ be_bytes a ++
          [((a >>> 24) ^^^ (a >>> 16) ^^^ (a >>> 8) ^^^ a) &&& 0xFF], i, c - 7⟩) ∧
    (∀ (stm : stm32_t) (len : Nat) (s : List Nat) (c : Nat),
      1 ≤ len → len ≤ 256 → a % 4 = 0 → 7 ≤ c →
      stm32_read_memory host_le stm a len ⟨s, [STM32_ACK], c⟩ =
        Res.halt ⟨s ++ cmd_bytes stm.cmd.rm ++ be_bytes a ++
          [((a >>> 24) ^^^ (a >>> 16) ^^^ (a >>> 8) ^^^ a) &&& 0xFF], [], c - 7⟩) ∧
    (∀ (stm : stm32_t) (data : List Nat) (len : Nat) (s : List Nat) (c : Nat),
      1 ≤ len → len ≤ 256 → a % 4 = 0 → 7 ≤ c →
      stm32_write_memory host_le stm a data len ⟨s, [STM32_ACK], c⟩ =
        Res.halt ⟨s ++ cmd_bytes stm.cmd.wm ++ be_bytes a ++
          [((a >>> 24) ^^^ (a >>> 16) ^^^ (a >>> 8) ^^^ a) &&& 0xFF], [], c - 7⟩) := by
  have hcs : stm32_gen_cs (be_u32 host_le a) =
      ((a >>> 24) ^^^ (a >>> 16) ^^^ (a >>> 8) ^^^ a) &&& 0xFF := by
    rw [gen_cs_be_u32, spec_fold_bytes]
  refine ⟨hcs, ?_, storage_be_u32 host_le a, ?_, ?_, ?_⟩
  · rw [gen_cs_be_u32, gen_cs_bytes]
  · intro stm s i c hc
    rw [← hcs]
    exact go_run host_le stm a s i c hc
  · intro stm len s c h1 h2 ha hc
    rw [← hcs]
    exact read_memory_address_stage host_le stm a len s c h1 h2 ha hc
  · intro stm data len s c h1 h2 ha hc
    rw [← hcs]
    exact write_memory_address_stage host_le stm a data len s c h1 h2 ha hc

/-- C3 at the address 0x08001234 on a little-endian host: checksum 0x2E. -/
theorem address_checksum_witness :
    7 ≤ 7 ∧
    stm32_gen_cs (be_u32 true 0x08001234) = 0x2E ∧
    stm32_gen_cs 0x34120008 = 0x2E ∧
    stm32_gen_cs 0x08001234 = 0x2E ∧
    u32_storage true (be_u32 true 0x08001234) = [0x08, 0x00, 0x12, 0x34] ∧
    stm32_go true sample_stm 0x08001234 ⟨[], [STM32_ACK, STM32_ACK], 7⟩ =
      Res.ret true ⟨[0x21, 0xDE, 0x08, 0x00, 0x12, 0x34, 0x2E], [], 0⟩ := by
  have h := address_checksum true 0x08001234
  have e : ((0x08001234 >>> 24) ^^^ (0x08001234 >>> 16) ^^^ (0x08001234 >>> 8) ^^^ 0x08001234)
      &&& 0xFF = 0x2E := by decide
  rw [e] at h
  refine ⟨by decide, h.1, by decide, ?_, ?_, ?_⟩
  · rw [← h.2.1]
    exact h.1
  · rw [h.2.2.1]
    decide
  · rw [h.2.2.2.1 sample_stm [] [STM32_ACK] 7 (by decide)]
    decide

/-! ## Erase -/

/-- C7, as the code has it: in the regular erase (opcode other than 0x44), for every
start page and page count with `1 ≤ page_count` and `start_page + page_count ≤ 255`,
after the base exchange the bytes sent are `page_count - 1`, the `page_count` page
numbers `start_page ..` as single bytes, and the XOR of all of them (count byte
included); the call then succeeds iff the next reply byte is ACK. -/
theorem regular_erase_bounded (fuel : Nat) (stm : stm32_t) (spage pages r : Nat)
    (s i : List Nat) (c : Nat) (her : stm.cmd.er ≠ STM32_CMD_EE) (h1 : 1 ≤ pages)
    (h2 : spage + pages ≤ 255) (hc : pages + 4 ≤ c) (hf : pages < fuel) :
    stm32_erase_memory fuel stm spage pages ⟨s, STM32_ACK :: r :: i, c⟩ =
      some (Res.ret (decide (r = STM32_ACK))
        ⟨s ++ cmd_bytes stm.cmd.er ++ [pages - 1] ++ List.range' spage pages ++
          [xorAll ((pages - 1) :: List.range' spage pages)], i, c - (pages + 4)⟩) ∧
    (List.range' spage pages).length = pages ∧
    xorAll ((pages - 1) :: List.range' spage pages ++
      [xorAll ((pages - 1) :: List.range' spage pages)]) = 0 := by
  refine ⟨?_, List.length_range' _ _ _, ?_⟩
  · rw [regular_erase_run fuel stm spage pages s (r :: i) c her h1 h2 hc hf, await_ack_cons]
  · exact xorAll_closed ((pages - 1) :: List.range' spage pages)

/-- C7 at a concrete exchange: three pages from page 4. -/
theorem regular_erase_bounded_witness :
    (sample_stm.cmd.er ≠ STM32_CMD_EE ∧ 1 ≤ 3 ∧ 4 + 3 ≤ 255 ∧ 3 + 4 ≤ 7 ∧ 3 < 4) ∧
    stm32_erase_memory 4 sample_stm 4 3 ⟨[], [STM32_ACK, STM32_ACK], 7⟩ =
      some (Res.ret true ⟨[0x43, 0xBC, 2, 4, 5, 6, 5], [], 0⟩) := by
  refine ⟨by decide, ?_⟩
  rw [(regular_erase_bounded 4 sample_stm 4 3 STM32_ACK [] [] 7 (by decide) (by decide)
    (by decide) (by decide) (by decide)).1]
  decide

/-- C7 as stated fails: with start page 256 and one page, on a port with room for the
frame the claim describes, the regular erase sends the count byte 0 and then the page
bytes 0, 1, .. until the port refuses a byte; it sends no checksum, reads no reply and
never returns. -/
theorem regular_erase_wide_page_counterexample :
    stm32_erase_memory 8 sample_stm 256 1 ⟨[], [STM32_ACK, STM32_ACK], 5⟩ =
      some (Res.halt ⟨[0x43, 0xBC, 0, 0, 1], [STM32_ACK], 0⟩) ∧
    ¬ ∃ fuel b q, stm32_erase_memory fuel sample_stm 256 1 ⟨[], [STM32_ACK, STM32_ACK], 5⟩ =
      some (Res.ret b q) := by
  have h8 : stm32_erase_memory 8 sample_stm 256 1 ⟨[], [STM32_ACK, STM32_ACK], 5⟩ =
      some (Res.halt ⟨[0x43, 0xBC, 0, 0, 1], [STM32_ACK], 0⟩) := by decide
  refine ⟨h8, ?_⟩
  rintro ⟨fuel, b, q, h⟩
  have e1 := erase_memory_mono_add _ _ _ _ _ fuel 8 h
  have e2 := erase_memory_mono_add _ _ _ _ _ 8 fuel h8
  rw [Nat.add_comm] at e2
  rw [e1] at e2
  cases e2

/-- C8, as the code has it: in the extended erase (opcode 0x44), for every start page
and page count with `1 ≤ page_count`, `page_count ≠ 0xFFFF` and
`start_page + page_count ≤ 65535`, after the base exchange the bytes sent are
`page_count - 1` as two bytes most significant first, each page number
`start_page ..` as two bytes most significant first, and the XOR of every byte of the
frame before it, so the whole frame XORs to 0; success iff the reply is ACK. -/
theorem extended_erase_bounded (fuel : Nat) (stm : stm32_t) (spage pages r : Nat)
    (s i : List Nat) (c : Nat) (her : stm.cmd.er = STM32_CMD_EE) (h1 : 1 ≤ pages)
    (hm : pages ≠ 0xFFFF) (h2 : spage + pages ≤ 65535) (hc : 2 * pages + 5 ≤ c)
    (hf : pages < fuel) :
    stm32_erase_memory fuel stm spage pages ⟨s, STM32_ACK :: r :: i, c⟩ =
      some (Res.ret (decide (r = STM32_ACK))
        ⟨s ++ cmd_bytes stm.cmd.er ++ be16 (pages - 1) ++ page_bytes16 spage pages ++
          [xorAll (be16 (pages - 1) ++ page_bytes16 spage pages)], i, c - (2 * pages + 5)⟩) ∧
    xorAll (be16 (pages - 1) ++ page_bytes16 spage pages ++
      [xorAll (be16 (pages - 1) ++ page_bytes16 spage pages)]) = 0 := by
  refine ⟨?_, xorAll_closed _⟩
  have hq : decide (stm.pid = 0x416 ∧ pages = 0xFFFF) = false := by
    simp only [decide_eq_false_iff_not, not_and]
    exact fun _ => hm
  rw [extended_erase_run fuel stm spage pages spage pages s (r :: i) c her (by omega)
    (by omega) (by omega) (by rw [hq]; rfl) (by rw [hq]; rfl) h1 hm h2 hc hf, await_ack_cons]

/-- C8 at a concrete exchange: two pages from page 0x1FF. -/
theorem extended_erase_bounded_witness :
    (sample_stm_ee.cmd.er = STM32_CMD_EE ∧ 1 ≤ 2 ∧ 2 ≠ 0xFFFF ∧ 0x1FF + 2 ≤ 65535 ∧
      2 * 2 + 5 ≤ 9 ∧ 2 < 3) ∧
    stm32_erase_memory 3 sample_stm_ee 0x1FF 2 ⟨[], [STM32_ACK, STM32_ACK], 9⟩ =
      some (Res.ret true ⟨[0x44, 0xBB, 0x00, 0x01, 0x01, 0xFF, 0x02, 0x00, 0xFD], [], 0⟩) := by
  refine ⟨by decide, ?_⟩
  rw [(extended_erase_bounded 3 sample_stm_ee 0x1FF 2 STM32_ACK [] [] 9 (by decide) (by decide)
    (by decide) (by decide) (by decide) (by decide)).1]
  decide

/-- C8 as stated fails: with start page 65535 and two pages (the second page number
does not fit two bytes), on a port with room for the frame the claim describes, the
extended erase sends the count, page 65535 and then pages 0, 1, .. until the port
refuses a byte; it sends no checksum, reads no reply and never returns. -/
theorem extended_erase_wide_page_counterexample :
    stm32_erase_memory 8 sample_stm_ee 65535 2 ⟨[], [STM32_ACK, STM32_ACK], 9⟩ =
      some (Res.halt ⟨[0x44, 0xBB, 0x00, 0x01, 0xFF, 0xFF, 0x00, 0x00, 0x00],
        [STM32_ACK], 0⟩) ∧
    ¬ ∃ fuel b q, stm32_erase_memory fuel sample_stm_ee 65535 2
      ⟨[], [STM32_ACK, STM32_ACK], 9⟩ = some (Res.ret b q) := by
  have h8 : stm32_erase_memory 8 sample_stm_ee 65535 2 ⟨[], [STM32_ACK, STM32_ACK], 9⟩ =
      some (Res.halt ⟨[0x44, 0xBB, 0x00, 0x01, 0xFF, 0xFF, 0x00, 0x00, 0x00],
        [STM32_ACK], 0⟩) := by decide
  refine ⟨h8, ?_⟩
  rintro ⟨fuel, b, q, h⟩
  have e1 := erase_memory_mono_add _ _ _ _ _ fuel 8 h
  have e2 := erase_memory_mono_add _ _ _ _ _ 8 fuel h8
  rw [Nat.add_comm] at e2
  rw [e1] at e2
  cases e2

theorem scan_0x416 (d : stm32_dev_t) (h : scan_devices 0x416 devices = some d) :
    d.fl_start = 0x08000000 ∧ d.fl_end = 0x08020000 ∧ d.fl_ps = 256 := by
  have e : scan_devices 0x416 devices = some sample_stm_ee.dev := by decide
  rw [e] at h
  cases h
  exact ⟨rfl, rfl, rfl⟩

theorem no_mass_erase (l : List Nat) (h : has_mass_erase l = false) :
    ¬ [0xFF, 0xFF, 0x00] <:+: l := by
  induction l with
  | nil =>
    intro hi
    have := hi.length_le
    simp at this
  | cons a rest ih =>
    simp only [has_mass_erase, Bool.or_eq_false_iff] at h
    rw [List.infix_cons_iff]
    rintro (hp | hi)
    · obtain ⟨t, ht⟩ := hp
      simp only [List.cons_append, List.nil_append, List.cons.injEq] at ht
      obtain ⟨rfl, rfl⟩ := ht
      simp [starts_mass_erase] at h
    · exact ih h.2 hi

set_option maxRecDepth 1000000 in
/-- The frame of the whole-flash page list of product ID 0x416, the command bytes
included, contains the mass-erase sequence nowhere. -/
theorem frame_0x416_scan :
    has_mass_erase (cmd_bytes STM32_CMD_EE ++ be16 511 ++ page_bytes16 0 512 ++
      [xorAll (be16 511 ++ page_bytes16 0 512)]) = false := by
  decide

/-- C9: for a session with product ID 0x416 (its descriptor the one the table scan
selects) and the extended erase opcode, `stm32_erase_memory` called with the sentinel
0xFFFF and any start page sends, once the device has acknowledged the command, the
count 511 as two bytes, the page numbers 0 .. 511 as two bytes each and the checksum:
an explicit list of `(fl_end - fl_start) / fl_ps = 512` pages starting at page 0.  When
the command is not acknowledged nothing follows it.  The mass-erase sequence
0xFF, 0xFF, 0x00 occurs nowhere in what the call sends. -/
theorem extended_erase_0x416_sentinel (fuel : Nat) (stm : stm32_t) (spage r0 r : Nat)
    (s i : List Nat) (c : Nat) (hpid : stm.pid = 0x416)
    (hdev : scan_devices stm.pid devices = some stm.dev) (her : stm.cmd.er = STM32_CMD_EE)
    (hc : 1029 ≤ c) (hf : 512 < fuel) :
    stm32_erase_memory fuel stm spage 0xFFFF ⟨s, r0 :: r :: i, c⟩ =
      (if r0 = STM32_ACK then
        some (Res.ret (decide (r = STM32_ACK))
          ⟨s ++ (cmd_bytes STM32_CMD_EE ++ be16 511 ++ page_bytes16 0 512 ++
            [xorAll (be16 511 ++ page_bytes16 0 512)]), i, c - 1029⟩)
      else some (Res.ret false ⟨s ++ cmd_bytes STM32_CMD_EE, r :: i, c - 2⟩)) ∧
    (stm.dev.fl_end - stm.dev.fl_start) / stm.dev.fl_ps = 512 ∧
    (page_bytes16 0 512).length = 2 * 512 ∧
    ¬ [0xFF, 0xFF, 0x00] <:+: (cmd_bytes STM32_CMD_EE ++ be16 511 ++ page_bytes16 0 512 ++
      [xorAll (be16 511 ++ page_bytes16 0 512)]) ∧
    ¬ [0xFF, 0xFF, 0x00] <:+: cmd_bytes STM32_CMD_EE := by
  rw [hpid] at hdev
  obtain ⟨hs, he, hp⟩ := scan_0x416 stm.dev hdev
  have hq : decide (stm.pid = 0x416 ∧ 0xFFFF = 0xFFFF) = true := by
    simp [hpid]
  refine ⟨?_, by rw [hs, he, hp], page_bytes16_length 0 512, no_mass_erase _ frame_0x416_scan,
    no_mass_erase _ (by decide)⟩
  have hred : stm32_erase_memory fuel stm spage 0xFFFF ⟨s, r0 :: r :: i, c⟩ =
      stm32_erase_memory fuel stm (spage % 65536) 0xFFFF ⟨s, r0 :: r :: i, c⟩ :=
    erase_memory_reduce fuel stm spage 0xFFFF _
  by_cases h0 : r0 = STM32_ACK
  · subst h0
    rw [if_pos rfl, hred, extended_erase_run fuel stm (spage % 65536) 0xFFFF 0 512 s (r :: i) c
      her (by decide) (Nat.mod_lt _ (by decide)) (by decide)
      (by rw [hq]; rfl) (by rw [hq, hs, he, hp]; rfl) (by decide) (by decide) (by decide)
      (by omega) hf, await_ack_cons, her]
    simp only [List.append_assoc]
  · rw [if_neg h0]
    unfold stm32_erase_memory
    simp only []
    rw [if_neg (by decide), send_command_run _ _ _ _ _ (by omega), decide_eq_false h0, her]

/-- C9 at a concrete session: the STM32L medium-density sample with start page 7. -/
theorem extended_erase_0x416_sentinel_witness :
    (sample_stm_ee.pid = 0x416 ∧ scan_devices sample_stm_ee.pid devices = some sample_stm_ee.dev ∧
      sample_stm_ee.cmd.er = STM32_CMD_EE ∧ 1029 ≤ 1029 ∧ 512 < 513) ∧
    stm32_erase_memory 513 sample_stm_ee 7 0xFFFF ⟨[], STM32_ACK :: STM32_ACK :: [], 1029⟩ =
      (if STM32_ACK = STM32_ACK then
        some (Res.ret (decide (STM32_ACK = STM32_ACK))
          ⟨[] ++ (cmd_bytes STM32_CMD_EE ++ be16 511 ++ page_bytes16 0 512 ++
            [xorAll (be16 511 ++ page_bytes16 0 512)]), [], 1029 - 1029⟩)
      else some (Res.ret false ⟨[] ++ cmd_bytes STM32_CMD_EE, STM32_ACK :: [], 1029 - 2⟩)) :=
  ⟨by decide, (extended_erase_0x416_sentinel 513 sample_stm_ee 7 STM32_ACK STM32_ACK [] [] 1029
    (by decide) (by decide) (by decide) (by decide) (by decide)).1⟩

/-- C10, as the code has it: in the regular erase (opcode other than 0x44) with the
sentinel 0xFFFF, after the base exchange on the erase opcode `stm32_erase_memory` runs
a second command exchange on 0xFF: it sends the two bytes 0xFF and 0x00 and nothing
else before it reads the reply, and succeeds iff that reply is ACK. -/
theorem regular_mass_erase (fuel : Nat) (stm : stm32_t) (spage r : Nat) (s i : List Nat)
    (c : Nat) (her : stm.cmd.er ≠ STM32_CMD_EE) (hc : 4 ≤ c) :
    stm32_erase_memory fuel stm spage 0xFFFF ⟨s, STM32_ACK :: r :: i, c⟩ =
      some (Res.ret (decide (r = STM32_ACK))
        ⟨s ++ cmd_bytes stm.cmd.er ++ [0xFF, 0x00], i, c - 4⟩) := by
  unfold stm32_erase_memory
  simp only []
  rw [if_neg (by decide), send_command_run _ _ _ _ _ (by omega)]
  simp only [decide_True]
  rw [if_neg her, if_pos (by decide), send_command_run _ _ _ _ _ (by omega)]
  simp [cmd_bytes, Nat.sub_sub]

/-- C10 at a concrete exchange with the regular erase opcode 0x43. -/
theorem regular_mass_erase_witness :
    (sample_stm.cmd.er ≠ STM32_CMD_EE ∧ 4 ≤ 4) ∧
    stm32_erase_memory 0 sample_stm 0 0xFFFF ⟨[], [STM32_ACK, STM32_ACK], 4⟩ =
      some (Res.ret true ⟨[0x43, 0xBC, 0xFF, 0x00], [], 0⟩) := by
  refine ⟨by decide, ?_⟩
  rw [regular_mass_erase 0 sample_stm 0 STM32_ACK [] [] 4 (by decide) (by decide)]
  decide

/-- C10 as stated fails: in the regular mass erase the byte 0xFF is followed by its
complement 0x00 before the reply is read, so what is sent after the base exchange is
not the single byte 0xFF. -/
theorem regular_mass_erase_counterexample :
    stm32_erase_memory 0 sample_stm 0 0xFFFF ⟨[], [STM32_ACK, STM32_ACK], 4⟩ =
      some (Res.ret true ⟨[0x43, 0xBC, 0xFF, 0x00], [], 0⟩) ∧
    ¬ ∃ b q, stm32_erase_memory 0 sample_stm 0 0xFFFF ⟨[], [STM32_ACK, STM32_ACK], 4⟩ =
        some (Res.ret b q) ∧ q.sent = [0x43, 0xBC] ++ [0xFF] := by
  have h : stm32_erase_memory 0 sample_stm 0 0xFFFF ⟨[], [STM32_ACK, STM32_ACK], 4⟩ =
      some (Res.ret true ⟨[0x43, 0xBC, 0xFF, 0x00], [], 0⟩) := by decide
  refine ⟨h, ?_⟩
  rintro ⟨b, q, hq, hs⟩
  rw [h] at hq
  cases hq
  revert hs
  decide

/-! ## The workspace resolver -/

/-- The result and the resolved length of `calc_workspace`, with the page bookkeeping
left aside: the start, the end and the length of step 2 and step 3, and the two checks
of step 4. -/
theorem calc_workspace_range (stm : stm32_t) (g : Globals) (start end_addr : Nat)
    (h : (calc_workspace stm g).1 = some (start, end_addr)) :
    ∃ allowed_start allowed_end,
      calc_allowed stm g.mem_type = some (allowed_start, allowed_end) ∧
      start = ws_start stm g allowed_start ∧
      end_addr = (if ws_len stm g allowed_start allowed_end ≠ 0 then
        to_u32 ((start : Int) + ws_len stm g allowed_start allowed_end) else allowed_end) ∧
      (calc_workspace stm g).2.readwrite_len =
        (if ws_len stm g allowed_start allowed_end ≠ 0 then
          ws_len stm g allowed_start allowed_end else to_u32 ((end_addr : Int) - start)) ∧
      allowed_start ≤ start ∧ end_addr ≤ allowed_end := by
  unfold calc_workspace at h ⊢
  by_cases h0 : g.mem_type ≠ MEM_TYPE_FLASH ∧ (g.spage ≥ 0 ∨ g.npages > 0)
  · rw [if_pos h0] at h
    cases h
  · rw [if_neg h0] at h ⊢
    cases hall : calc_allowed stm g.mem_type with
    | none => rw [hall] at h; cases h
    | some ae =>
      obtain ⟨allowed_start, allowed_end⟩ := ae
      rw [hall] at h
      simp only [] at h ⊢
      by_cases hv : ws_start stm g allowed_start < allowed_start ∨
          (if ws_len stm g allowed_start allowed_end ≠ 0 then
            to_u32 ((ws_start stm g allowed_start : Int) + ws_len stm g allowed_start allowed_end)
            else allowed_end) > allowed_end
      · rw [if_pos hv] at h
        cases h
      · rw [if_neg hv] at h ⊢
        by_cases he : ws_exec_outside stm (ws_exec_flag g) (ws_execute g allowed_start)
        · rw [if_pos he] at h
          cases h
        · rw [if_neg he] at h ⊢
          simp only [Option.some.injEq, Prod.mk.injEq] at h
          refine ⟨allowed_start, allowed_end, rfl, h.1.symm, ?_, ?_, ?_, ?_⟩
          · rw [← h.1]
            exact h.2.symm
          · rw [← h.1, ← h.2]
          · rw [← h.1]
            omega
          · rw [← h.2]
            omega

theorem calc_allowed_end_lt (stm : stm32_t) (mem_type allowed_start allowed_end : Nat)
    (hd : stm.dev.fl_end < 2 ^ 32 ∧ stm.dev.ram_end < 2 ^ 32 ∧ stm.dev.eep_end < 2 ^ 32)
    (h : calc_allowed stm mem_type = some (allowed_start, allowed_end)) :
    allowed_end < 2 ^ 32 := by
  unfold calc_allowed at h
  split_ifs at h <;> simp only [Option.some.injEq, Prod.mk.injEq] at h
  · omega
  · omega
  · omega
  · omega

theorem to_u32_lt (x : Int) : to_u32 x < 2 ^ 32 := by
  unfold to_u32
  omega

theorem ws_start_lt (stm : stm32_t) (g : Globals) (allowed_start : Nat)
    (hs : g.start_addr < 2 ^ 32) : ws_start stm g allowed_start < 2 ^ 32 := by
  unfold ws_start
  split_ifs
  · exact to_u32_lt _
  · exact to_u32_lt _
  · exact hs

theorem ws_len_lt (stm : stm32_t) (g : Globals) (allowed_start allowed_end : Nat)
    (hl : g.readwrite_len < 2 ^ 32) : ws_len stm g allowed_start allowed_end < 2 ^ 32 := by
  unfold ws_len
  split_ifs
  · exact to_u32_lt _
  · exact to_u32_lt _
  · exact hl

/-- C4, as the code has it: whenever `calc_workspace` returns success (inputs being
32-bit values), the resolved start is not below the start of the allowed region of the
chosen memory type and the resolved end is not above its end; the start is at most the
end whenever start plus the resolved length does not pass 0xFFFFFFFF. -/
theorem calc_workspace_in_region (stm : stm32_t) (g : Globals) (start end_addr : Nat)
    (hs : g.start_addr < 2 ^ 32) (hl : g.readwrite_len < 2 ^ 32)
    (hd : stm.dev.fl_end < 2 ^ 32 ∧ stm.dev.ram_end < 2 ^ 32 ∧ stm.dev.eep_end < 2 ^ 32)
    (h : (calc_workspace stm g).1 = some (start, end_addr)) :
    ∃ allowed_start allowed_end,
      calc_allowed stm g.mem_type = some (allowed_start, allowed_end) ∧
      allowed_start ≤ start ∧ end_addr ≤ allowed_end ∧
      (start + (calc_workspace stm g).2.readwrite_len < 2 ^ 32 → start ≤ end_addr) := by
  obtain ⟨allowed_start, allowed_end, hall, hst, hen, hrl, h1, h2⟩ :=
    calc_workspace_range stm g start end_addr h
  refine ⟨allowed_start, allowed_end, hall, h1, h2, ?_⟩
  have hae := calc_allowed_end_lt stm g.mem_type allowed_start allowed_end hd hall
  have hsl : start < 2 ^ 32 := hst ▸ ws_start_lt stm g allowed_start hs
  have hll := ws_len_lt stm g allowed_start allowed_end hl
  rw [hrl]
  generalize ws_len stm g allowed_start allowed_end = len0 at hen hll ⊢
  by_cases hz : len0 = 0
  · rw [if_neg (by simpa using hz)] at hen ⊢
    subst hen
    unfold to_u32
    omega
  · rw [if_pos hz] at hen ⊢
    subst hen
    unfold to_u32
    omega

/-- C4 at product ID 0x410, Flash, no selectors: the whole flash. -/
theorem calc_workspace_in_region_witness :
    ((0 : Nat) < 2 ^ 32 ∧ (0 : Nat) < 2 ^ 32 ∧
      (sample_stm.dev.fl_end < 2 ^ 32 ∧ sample_stm.dev.ram_end < 2 ^ 32 ∧
        sample_stm.dev.eep_end < 2 ^ 32) ∧
      (calc_workspace sample_stm ⟨MEM_TYPE_FLASH, true, 0, -1, 0, 0, EXEC_FLAG_NONE, 0⟩).1 =
        some (0x08000000, 0x08020000)) ∧
    ∃ allowed_start allowed_end,
      calc_allowed sample_stm MEM_TYPE_FLASH = some (allowed_start, allowed_end) ∧
      allowed_start ≤ 0x08000000 ∧ 0x08020000 ≤ allowed_end ∧
      (0x08000000 +
        (calc_workspace sample_stm
          ⟨MEM_TYPE_FLASH, true, 0, -1, 0, 0, EXEC_FLAG_NONE, 0⟩).2.readwrite_len < 2 ^ 32 →
        0x08000000 ≤ 0x08020000) :=
  ⟨by decide, calc_workspace_in_region sample_stm
    ⟨MEM_TYPE_FLASH, true, 0, -1, 0, 0, EXEC_FLAG_NONE, 0⟩ 0x08000000 0x08020000 (by decide)
    (by decide) (by decide) (by decide)⟩

/-- C4 as stated fails: for product ID 0x410, Flash and the relative address 0x30000
with no length (`-S +0x30000`), `calc_workspace` returns success with the range
`[0x08030000, 0x08020000)`, whose start lies past its end and past the end of flash. -/
theorem calc_workspace_start_past_end :
    calc_workspace sample_stm ⟨MEM_TYPE_FLASH, true, 0, -1, 0, 0x30000, EXEC_FLAG_NONE, 0⟩ =
      (some (0x08030000, 0x08020000),
        ⟨MEM_TYPE_FLASH, true, -63, 192, 0xFFFF0000, 0x30000, EXEC_FLAG_NONE, 0⟩) ∧
    calc_allowed sample_stm MEM_TYPE_FLASH = some (0x08000000, 0x08020000) ∧
    ¬ (0x08000000 ≤ 0x08030000 ∧ 0x08030000 ≤ 0x08020000 ∧ 0x08020000 ≤ 0x08020000) := by
  decide

/-! ## The write loop: verification and retries -/

theorem first_mismatch_none (buffer compare : List Nat) (len : Nat)
    (h : first_mismatch buffer compare len = none) :
    ∀ k, k < len → buffer.getD k 0 = compare.getD k 0 := by
  intro k hk
  unfold first_mismatch at h
  rw [List.find?_eq_none] at h
  have := h k (List.mem_range.2 hk)
  simpa using this

/-- With a retry ceiling other than 0 and `failed` at 0, as `main` starts it, the loop
of one chunk never ends with the verify error. -/
theorem write_chunk_no_verify_error (host_le : Bool) (stm : stm32_t) (retry : Int)
    (hr : retry ≠ 0) (addr : Nat) (buffer : List Nat) (len : Nat) (fuel : Nat) :
    ∀ (p q : Port) (a e f : Nat),
      write_chunk host_le stm true retry addr buffer len fuel 0 p ≠
        some (Res.ret (ChunkEnd.fatal (Fatal.verify a e f)) q) := by
  induction fuel with
  | zero => intro p q a e f h; simp [write_chunk] at h
  | succ n ih =>
    intro p q a e f h
    rw [write_chunk] at h
    split at h
    · cases h
    · cases h
    · simp only [if_true] at h
      split at h
      · cases h
      · cases h
      · split at h
        · rw [if_neg (fun h0 => hr h0.symm)] at h
          exact ih _ _ _ _ _ h
        · cases h

/-- A chunk left with `r == len` under verification was read back, by a Read Memory of
the same address and length that followed a successful Write Memory, with bytes equal
to the buffer at every index. -/
theorem write_chunk_done (host_le : Bool) (stm : stm32_t) (retry : Int) (addr : Nat)
    (buffer : List Nat) (len : Nat) (fuel : Nat) :
    ∀ (failed : Int) (p q : Port) (f1 : Int) (rb : Option (List Nat)),
      write_chunk host_le stm true retry addr buffer len fuel failed p =
        some (Res.ret (ChunkEnd.done f1 rb) q) →
      ∃ p1 p2 compare,
        stm32_write_memory host_le stm addr buffer len p1 = Res.ret true p2 ∧
        stm32_read_memory host_le stm addr len p2 = Res.ret (true, compare) q ∧
        rb = some compare ∧ ∀ k, k < len → buffer.getD k 0 = compare.getD k 0 := by
  induction fuel with
  | zero => intro failed p q f1 rb h; simp [write_chunk] at h
  | succ n ih =>
    intro failed p q f1 rb h
    rw [write_chunk] at h
    split at h
    · cases h
    · cases h
    · rename_i p2 hw
      simp only [if_true] at h
      split at h
      · cases h
      · cases h
      · rename_i compare r hrd
        split at h
        · split_ifs at h
          · cases h
          · exact ih _ _ _ _ _ h
        · rename_i hm
          simp only [Option.some.injEq, Res.ret.injEq, ChunkEnd.done.injEq] at h
          obtain ⟨⟨_, rfl⟩, rfl⟩ := h
          exact ⟨p, p2, compare, hw, hrd, rfl, first_mismatch_none _ _ _ hm⟩

/-- Every chunk the write loop records under verification was read back. -/
theorem write_loop_log {σ : Type} (host_le : Bool) (stm : stm32_t) (parser : parser_t σ)
    (retry : Int) (from_stdin : Bool) (end_addr size : Nat) (fuel : Nat) :
    ∀ (addr offset : Nat) (failed : Int) (st : σ) (log : List ChunkLog) (p : Port)
      (e : WriteEnd) (log1 : List ChunkLog) (q : Port),
      (∀ c ∈ log, c.read_back host_le stm) →
      write_loop host_le stm parser true retry from_stdin end_addr size fuel addr offset failed
        st log p = some (Res.ret (e, log1) q) →
      ∀ c ∈ log1, c.read_back host_le stm := by
  induction fuel with
  | zero => intro addr offset failed st log p e log1 q _ h; simp [write_loop] at h
  | succ n ih =>
    intro addr offset failed st log p e log1 q hlog h
    have hsame : ∀ (w : WriteEnd) (t : Port),
        some (Res.ret (w, log) t) = some (Res.ret (e, log1) q) →
        ∀ c ∈ log1, c.read_back host_le stm := by
      intro w t hh
      simp only [Option.some.injEq, Res.ret.injEq, Prod.mk.injEq] at hh
      obtain ⟨⟨_, rfl⟩, _⟩ := hh
      exact hlog
    rw [write_loop] at h
    by_cases hc : addr < end_addr ∧ offset < size
    · rw [if_pos hc] at h
      simp only [] at h
      generalize chunk_len end_addr addr size offset = len at h
      rcases hrd : parser.read st len with ⟨ok, bytes, st1⟩
      rw [hrd] at h
      cases ok with
      | false => exact hsame _ _ h
      | true =>
        simp only [] at h
        by_cases hz : (List.take len bytes).length = 0
        · rw [if_pos hz] at h
          split_ifs at h
          · exact hsame _ _ h
          · exact hsame _ _ h
        · rw [if_neg hz] at h
          split at h
          · cases h
          · cases h
          · exact hsame _ _ h
          · rename_i failed1 rb q1 hch
            refine ih _ _ _ _ _ _ _ _ _ ?_ h
            intro c hcm
            rcases List.mem_append.1 hcm with hin | hin
            · exact hlog c hin
            · rw [List.mem_singleton] at hin
              subst hin
              obtain ⟨p1, p2, compare, hw, hr, hrb, heq⟩ :=
                write_chunk_done host_le stm retry addr _ _ _ _ _ _ _ _ hch
              exact ⟨p1, p2, q1, compare, hw, hr, hrb, heq⟩
    · rw [if_neg hc] at h
      exact hsame _ _ h

/-- One round of the loop of a chunk with a device that acknowledges every stage and
delivers `rb` as the read-back: the frames of both exchanges are sent, and the loop
ends, reports the verify error or goes round again according to the comparison. -/
theorem write_chunk_round (host_le : Bool) (stm : stm32_t) (retry : Int) (addr : Nat)
    (buffer : List Nat) (len fuel : Nat) (failed : Int) (s rb rest : List Nat) (c : Nat)
    (h1 : 1 ≤ len) (h2 : len ≤ 256) (hd : len ≤ buffer.length) (hb : ∀ b ∈ buffer, b < 256)
    (ha : addr % 4 = 0) (hrb : rb.length = len) (hc : 18 + len + (4 - len % 4) % 4 ≤ c) :
    write_chunk host_le stm true retry addr buffer len (fuel + 1) failed
        ⟨s, round_replies rb ++ rest, c⟩ =
      match first_mismatch buffer rb len with
      | some k =>
        if failed = retry then
          some (Res.ret (ChunkEnd.fatal
            (Fatal.verify ((addr + k) % 2 ^ 32) (buffer.getD k 0) (rb.getD k 0)))
            ⟨s ++ wm_frame host_le stm addr buffer len ++ rm_frame host_le stm addr len, rest,
              c - (18 + len + (4 - len % 4) % 4)⟩)
        else
          write_chunk host_le stm true retry addr buffer len fuel 0
            ⟨s ++ wm_frame host_le stm addr buffer len ++ rm_frame host_le stm addr len, rest,
              c - (18 + len + (4 - len % 4) % 4)⟩
      | none =>
        some (Res.ret (ChunkEnd.done 0 (some rb))
          ⟨s ++ wm_frame host_le stm addr buffer len ++ rm_frame host_le stm addr len, rest,
            c - (18 + len + (4 - len % 4) % 4)⟩) := by
  have hin : round_replies rb ++ rest = STM32_ACK :: STM32_ACK :: STM32_ACK :: STM32_ACK ::
      STM32_ACK :: STM32_ACK :: (rb ++ rest) := by
    simp [round_replies]
  have hcap : c - (8 + len + (4 - len % 4) % 4 + 1) - 9 = c - (18 + len + (4 - len % 4) % 4) := by
    omega
  rw [write_chunk, hin, write_memory_run host_le stm addr buffer len s _ c h1 h2 hd hb ha
    (by omega), await_ack_cons]
  simp only [decide_True, if_true]
  rw [read_memory_run host_le stm addr len _ rb rest _ h1 h2 hrb ha (by omega), hcap]
  simp only [wm_frame, rm_frame, List.append_assoc]

theorem write_memory_silent (host_le : Bool) (stm : stm32_t) (addr : Nat) (buffer : List Nat)
    (len : Nat) (s : List Nat) (c : Nat) (h1 : 1 ≤ len) (h2 : len ≤ 256) (ha : addr % 4 = 0)
    (hc : 2 ≤ c) :
    stm32_write_memory host_le stm addr buffer len ⟨s, [], c⟩ =
      Res.halt ⟨s ++ cmd_bytes stm.cmd.wm, [], c - 2⟩ := by
  unfold stm32_write_memory
  rw [if_neg (by omega), if_neg (by simpa using ha)]
  simp only [bind_apply, stm32_send_command]
  rw [send_byte_run _ _ _ _ (by omega)]
  simp only []
  rw [send_byte_run _ _ _ _ (by omega)]
  simp only []
  rw [read_byte_nil]
  simp [cmd_bytes, Nat.sub_sub]

/-- With a retry ceiling other than 0, a device whose read-back mismatches in `k` rounds
in a row and which then falls silent keeps the loop of the chunk going for all `k`
rounds, whatever `k` is: the loop ends on the read timeout of the next Write Memory,
not with the verify error. -/
theorem write_chunk_mismatch_rounds (host_le : Bool) (stm : stm32_t) (retry : Int)
    (addr : Nat) (buffer : List Nat) (len : Nat) (rb : List Nat) (j : Nat)
    (hr : retry ≠ 0) (h1 : 1 ≤ len) (h2 : len ≤ 256) (hd : len ≤ buffer.length)
    (hb : ∀ b ∈ buffer, b < 256) (ha : addr % 4 = 0) (hrb : rb.length = len)
    (hm : first_mismatch buffer rb len = some j) (k : Nat) :
    ∀ (fuel : Nat) (s : List Nat) (c : Nat), k < fuel →
      k * (18 + len + (4 - len % 4) % 4) + 2 ≤ c →
      write_chunk host_le stm true retry addr buffer len fuel 0
          ⟨s, (List.replicate k (round_replies rb)).flatten, c⟩ =
        some (Res.halt
          ⟨s ++ (List.replicate k (wm_frame host_le stm addr buffer len ++
              rm_frame host_le stm addr len)).flatten ++ cmd_bytes stm.cmd.wm, [],
            c - (k * (18 + len + (4 - len % 4) % 4) + 2)⟩) := by
  induction k with
  | zero =>
    intro fuel s c hf hc
    obtain ⟨f, rfl⟩ : ∃ f, fuel = f + 1 := ⟨fuel - 1, by omega⟩
    simp only [List.replicate_zero, List.flatten_nil, List.append_nil, Nat.zero_mul,
      Nat.zero_add]
    rw [write_chunk, write_memory_silent host_le stm addr buffer len s c h1 h2 ha (by omega)]
  | succ k ih =>
    intro fuel s c hf hc
    obtain ⟨f, rfl⟩ : ∃ f, fuel = f + 1 := ⟨fuel - 1, by omega⟩
    have hmul : (k + 1) * (18 + len + (4 - len % 4) % 4) =
        k * (18 + len + (4 - len % 4) % 4) + (18 + len + (4 - len % 4) % 4) := by
      rw [Nat.add_mul, Nat.one_mul]
    rw [hmul] at hc ⊢
    rw [List.replicate_succ, List.flatten_cons,
      write_chunk_round host_le stm retry addr buffer len f 0 s rb _ c h1 h2 hd hb ha hrb
        (by omega), hm]
    simp only []
    rw [if_neg (fun h0 => hr h0.symm), ih f _ _ (by omega) (by omega)]
    simp only [List.replicate_succ, List.flatten_cons, List.append_assoc, Nat.sub_sub]
    congr 3
    omega

theorem round_sent_eq :
    wm_frame true sample_stm 0x08000000 [0, 1, 2, 3, 4, 5, 6, 7, 8, 9] 10 ++
      rm_frame true sample_stm 0x08000000 10 = round_sent := by
  decide

/-- C5 fails on the code: with verification on and the retry ceiling 2, a 10-byte chunk
at 0x08000000 whose read-back differs at byte 5 every time is written again and again:
after five mismatching rounds (the claim allows three write attempts) the session has
begun a sixth Write Memory and ends on the read timeout, with no verify error.  For
this chunk and ceiling no run ends with the verify error, whatever the device does.
With the ceiling 0 the error is reported at the first mismatch, for address
0x08000005 with the bytes 0x05 expected and 0xFF found. -/
theorem verify_retry_ceiling_not_enforced :
    write_chunk true sample_stm true 2 0x08000000 [0, 1, 2, 3, 4, 5, 6, 7, 8, 9] 10 20 0
        ⟨[], (List.replicate 5 (round_replies [0, 1, 2, 3, 4, 0xFF, 6, 7, 8, 9])).flatten, 1000⟩ =
      some (Res.halt ⟨[] ++ (List.replicate 5 round_sent).flatten ++ [0x31, 0xCE], [], 848⟩) ∧
    (∀ (fuel : Nat) (p q : Port) (a e f : Nat),
      write_chunk true sample_stm true 2 0x08000000 [0, 1, 2, 3, 4, 5, 6, 7, 8, 9] 10 fuel 0 p ≠
        some (Res.ret (ChunkEnd.fatal (Fatal.verify a e f)) q)) ∧
    write_chunk true sample_stm true 0 0x08000000 [0, 1, 2, 3, 4, 5, 6, 7, 8, 9] 10 20 0
        ⟨[], (List.replicate 5 (round_replies [0, 1, 2, 3, 4, 0xFF, 6, 7, 8, 9])).flatten, 1000⟩ =
      some (Res.ret (ChunkEnd.fatal (Fatal.verify 0x08000005 0x05 0xFF))
        ⟨[] ++ round_sent,
          (List.replicate 4 (round_replies [0, 1, 2, 3, 4, 0xFF, 6, 7, 8, 9])).flatten, 970⟩) := by
  have hm : first_mismatch [0, 1, 2, 3, 4, 5, 6, 7, 8, 9] [0, 1, 2, 3, 4, 0xFF, 6, 7, 8, 9] 10 =
      some 5 := by decide
  refine ⟨?_, ?_, ?_⟩
  · have h := write_chunk_mismatch_rounds true sample_stm 2 0x08000000
      [0, 1, 2, 3, 4, 5, 6, 7, 8, 9] 10 [0, 1, 2, 3, 4, 0xFF, 6, 7, 8, 9] 5 (by decide)
      (by decide) (by decide) (by decide) (by decide) (by decide) (by decide) hm 5 20 [] 1000
      (by decide) (by decide)
    rw [round_sent_eq] at h
    exact h
  · intro fuel p q a e f
    exact write_chunk_no_verify_error true sample_stm 2 (by decide) _ _ _ fuel p q a e f
  · have h := write_chunk_round true sample_stm 0 0x08000000 [0, 1, 2, 3, 4, 5, 6, 7, 8, 9] 10
      19 0 [] [0, 1, 2, 3, 4, 0xFF, 6, 7, 8, 9]
      (List.replicate 4 (round_replies [0, 1, 2, 3, 4, 0xFF, 6, 7, 8, 9])).flatten 1000
      (by decide) (by decide) (by decide) (by decide) (by decide) (by decide) (by decide)
    rw [hm] at h
    simp only [if_true, List.append_assoc, round_sent_eq] at h
    exact h

/-- One turn of the write loop whose chunk is completed. -/
theorem write_loop_step {σ : Type} (host_le : Bool) (stm : stm32_t) (parser : parser_t σ)
    (verify : Bool) (retry : Int) (from_stdin : Bool) (end_addr size fuel addr offset : Nat)
    (failed : Int) (st : σ) (log : List ChunkLog) (p : Port) (len : Nat) (bytes : List Nat)
    (st1 : σ) (buffer : List Nat) (n : Nat) (failed1 : Int) (rb : Option (List Nat)) (q : Port)
    (hc : addr < end_addr ∧ offset < size)
    (hl : chunk_len end_addr addr size offset = len)
    (hrd : parser.read st len = (true, bytes, st1))
    (hbuf : bytes.take len = buffer) (hn : buffer.length = n) (hz : n ≠ 0)
    (hch : write_chunk host_le stm verify retry addr buffer n (fuel + 1) failed p =
      some (Res.ret (ChunkEnd.done failed1 rb) q)) :
    write_loop host_le stm parser verify retry from_stdin end_addr size (fuel + 1) addr offset
        failed st log p =
      write_loop host_le stm parser verify retry from_stdin end_addr size fuel
        ((addr + n) % 2 ^ 32) (offset + n) failed1 st1 (log ++ [⟨addr, buffer, rb⟩]) q := by
  rw [write_loop, if_pos hc]
  simp only [hl, hrd, hbuf, hn]
  rw [if_neg hz, hch]

/-- The write loop ends with `ret = 0` when the range or the input is used up. -/
theorem write_loop_end {σ : Type} (host_le : Bool) (stm : stm32_t) (parser : parser_t σ)
    (verify : Bool) (retry : Int) (from_stdin : Bool) (end_addr size fuel addr offset : Nat)
    (failed : Int) (st : σ) (log : List ChunkLog) (p : Port)
    (hc : ¬ (addr < end_addr ∧ offset < size)) :
    write_loop host_le stm parser verify retry from_stdin end_addr size (fuel + 1) addr offset
        failed st log p = some (Res.ret (WriteEnd.ok, log) p) := by
  rw [write_loop, if_neg hc]

theorem round_sent4_eq :
    wm_frame true sample_stm 0x08000000 [0xDE, 0xAD, 0xBE, 0xEF] 4 ++
      rm_frame true sample_stm 0x08000000 4 = round_sent4 := by
  decide

/-- The loop of the chunk DE AD BE EF when the first read-back differs at byte 2 and
the second one matches: two rounds, then the chunk is done. -/
theorem sample_chunk_run :
    write_chunk true sample_stm true 10 0x08000000 [0xDE, 0xAD, 0xBE, 0xEF] 4 (7 + 1) 0
        ⟨[], round_replies [0xDE, 0xAD, 0x00, 0xEF] ++ round_replies [0xDE, 0xAD, 0xBE, 0xEF], 64⟩ =
      some (Res.ret (ChunkEnd.done 0 (some [0xDE, 0xAD, 0xBE, 0xEF]))
        ⟨round_sent4 ++ round_sent4, [], 20⟩) := by
  have hm1 : first_mismatch [0xDE, 0xAD, 0xBE, 0xEF] [0xDE, 0xAD, 0x00, 0xEF] 4 = some 2 := by
    decide
  have hm2 : first_mismatch [0xDE, 0xAD, 0xBE, 0xEF] [0xDE, 0xAD, 0xBE, 0xEF] 4 = none := by
    decide
  have r1 := write_chunk_round true sample_stm 10 0x08000000 [0xDE, 0xAD, 0xBE, 0xEF] 4 7 0 []
    [0xDE, 0xAD, 0x00, 0xEF] (round_replies [0xDE, 0xAD, 0xBE, 0xEF]) 64
    (by decide) (by decide) (by decide) (by decide) (by decide) (by decide) (by decide)
  have r2 := write_chunk_round true sample_stm 10 0x08000000 [0xDE, 0xAD, 0xBE, 0xEF] 4 6 0
    round_sent4 [0xDE, 0xAD, 0xBE, 0xEF] [] 42
    (by decide) (by decide) (by decide) (by decide) (by decide) (by decide) (by decide)
  rw [hm1] at r1
  rw [hm2] at r2
  simp only [List.append_nil, List.nil_append, List.append_assoc, round_sent4_eq] at r1 r2
  rw [if_neg (by decide)] at r1
  rw [r1]
  exact r2

/-- A complete write transfer of the four bytes with verification: one chunk, rewritten
once after a mismatching read-back. -/
theorem sample_transfer_run :
    write_loop true sample_stm list_source true 10 false 0x08000004 4 (7 + 1) 0x08000000 0 0
        [0xDE, 0xAD, 0xBE, 0xEF] []
        ⟨[], round_replies [0xDE, 0xAD, 0x00, 0xEF] ++ round_replies [0xDE, 0xAD, 0xBE, 0xEF], 64⟩ =
      some (Res.ret (WriteEnd.ok, [] ++ [⟨0x08000000, [0xDE, 0xAD, 0xBE, 0xEF],
          some [0xDE, 0xAD, 0xBE, 0xEF]⟩])
        ⟨round_sent4 ++ round_sent4, [], 20⟩) := by
  rw [write_loop_step true sample_stm list_source true 10 false 0x08000004 4 7 0x08000000 0 0
    [0xDE, 0xAD, 0xBE, 0xEF] [] _ 4 [0xDE, 0xAD, 0xBE, 0xEF] [] [0xDE, 0xAD, 0xBE, 0xEF] 4 0
    (some [0xDE, 0xAD, 0xBE, 0xEF]) ⟨round_sent4 ++ round_sent4, [], 20⟩ (by decide) (by decide)
    (by rfl) (by rfl) (by rfl) (by decide) sample_chunk_run]
  exact write_loop_end true sample_stm list_source true 10 false 0x08000004 4 6 _ _ _ _ _ _
    (by decide)

/-- C6: with verification enabled, the loop of one chunk is left for the next chunk only
after a Read Memory of the same address and length, following a successful Write
Memory, returned bytes equal to the chunk at every index; hence, however a write
transfer ends, every chunk it completed (all of them when it ends with success) has a
final read-back equal to the data written. -/
theorem write_advances_after_read_back {σ : Type} (host_le : Bool) (stm : stm32_t)
    (parser : parser_t σ) (retry : Int) (from_stdin : Bool) (end_addr size fuel addr offset : Nat)
    (failed : Int) (st : σ) (p : Port) (e : WriteEnd) (log : List ChunkLog) (q : Port)
    (h : write_loop host_le stm parser true retry from_stdin end_addr size fuel addr offset
      failed st [] p = some (Res.ret (e, log) q)) :
    (∀ c ∈ log, c.read_back host_le stm) ∧
    (∀ (a : Nat) (buffer : List Nat) (len n : Nat) (f0 f1 : Int) (p0 q0 : Port)
      (rb : Option (List Nat)),
      write_chunk host_le stm true retry a buffer len n f0 p0 =
        some (Res.ret (ChunkEnd.done f1 rb) q0) →
      ∃ p1 p2 compare,
        stm32_write_memory host_le stm a buffer len p1 = Res.ret true p2 ∧
        stm32_read_memory host_le stm a len p2 = Res.ret (true, compare) q0 ∧
        rb = some compare ∧ ∀ k, k < len → buffer.getD k 0 = compare.getD k 0) := by
  refine ⟨?_, ?_⟩
  · exact write_loop_log host_le stm parser retry from_stdin end_addr size fuel addr offset
      failed st [] p e log q (fun c hc => absurd hc (List.not_mem_nil c)) h
  · intro a buffer len n f0 f1 p0 q0 rb hch
    exact write_chunk_done host_le stm retry a buffer len n f0 p0 q0 f1 rb hch

/-- C6 at a concrete transfer: four bytes, the first read-back mismatching, the second equal. -/
theorem write_advances_after_read_back_witness :
    write_loop true sample_stm list_source true 10 false 0x08000004 4 (7 + 1) 0x08000000 0 0
        [0xDE, 0xAD, 0xBE, 0xEF] []
        ⟨[], round_replies [0xDE, 0xAD, 0x00, 0xEF] ++ round_replies [0xDE, 0xAD, 0xBE, 0xEF], 64⟩ =
      some (Res.ret (WriteEnd.ok, [] ++ [⟨0x08000000, [0xDE, 0xAD, 0xBE, 0xEF],
          some [0xDE, 0xAD, 0xBE, 0xEF]⟩])
        ⟨round_sent4 ++ round_sent4, [], 20⟩) ∧
    ∀ c ∈ [] ++ [(⟨0x08000000, [0xDE, 0xAD, 0xBE, 0xEF], some [0xDE, 0xAD, 0xBE, 0xEF]⟩ : ChunkLog)],
      c.read_back true sample_stm :=
  ⟨sample_transfer_run, (write_advances_after_read_back true sample_stm list_source 10 false
    0x08000004 4 (7 + 1) 0x08000000 0 0 [0xDE, 0xAD, 0xBE, 0xEF] _ _ _ _ sample_transfer_run).1⟩

/-! ## The command exchange and the protection commands -/

theorem xor_complement (c : Nat) : c ^^^ (c ^^^ 0xFF) = 0xFF := by
  rw [← Nat.xor_assoc, Nat.xor_self, Nat.zero_xor]

set_option maxRecDepth 100000 in
theorem complement_byte : ∀ c < 256, c ^^^ 0xFF = 255 - c := by decide

theorem cmd_bytes_byte (c : Nat) (hc : c < 256) : cmd_bytes c = [c, c ^^^ 0xFF] := by
  have h : c ^^^ 0xFF < 256 := xor_byte_lt hc (by decide)
  simp [cmd_bytes, Nat.mod_eq_of_lt hc, Nat.mod_eq_of_lt h]

/-- C19: for every opcode byte `c`, on a line that takes two bytes and holds a reply
`r`, `stm32_send_command` sends exactly `c` and `c XOR 0xFF`, which is the one's
complement `255 - c` and XORs with `c` to 0xFF; it takes exactly the one byte `r` from
the line and returns success iff `r` is 0x79; on NACK (0x1F) it returns failure. -/
theorem send_command_exchange (c r : Nat) (s i : List Nat) (cap : Nat) (hc : c < 256)
    (hcap : 2 ≤ cap) :
    stm32_send_command c ⟨s, r :: i, cap⟩ =
      Res.ret (decide (r = 0x79)) ⟨s ++ [c, c ^^^ 0xFF], i, cap - 2⟩ ∧
    c ^^^ (c ^^^ 0xFF) = 0xFF ∧ c ^^^ 0xFF = 255 - c ∧
    stm32_send_command c ⟨s, STM32_NACK :: i, cap⟩ =
      Res.ret false ⟨s ++ [c, c ^^^ 0xFF], i, cap - 2⟩ := by
  refine ⟨?_, xor_complement c, complement_byte c hc, ?_⟩
  · rw [send_command_run _ _ _ _ _ hcap, cmd_bytes_byte c hc]
    rfl
  · rw [send_command_run _ _ _ _ _ hcap, cmd_bytes_byte c hc]
    rfl

/-- C19 at the erase opcode 0x43 answered by 0x79 and then by an unexpected byte. -/
theorem send_command_exchange_witness :
    ((0x43 : Nat) < 256 ∧ 2 ≤ 2) ∧
    stm32_send_command 0x43 ⟨[], [0x79, 0x55], 2⟩ = Res.ret true ⟨[0x43, 0xBC], [0x55], 0⟩ ∧
    stm32_send_command 0x43 ⟨[], [STM32_NACK, 0x55], 2⟩ =
      Res.ret false ⟨[0x43, 0xBC], [0x55], 0⟩ :=
  ⟨by decide, (send_command_exchange 0x43 0x79 [] [0x55] 2 (by decide) (by decide)).1,
    (send_command_exchange 0x43 0x79 [] [0x55] 2 (by decide) (by decide)).2.2.2⟩

theorem second_reply (p : Port) :
    (stm32_read_byte >>= fun ret =>
      if ret = STM32_ACK then (pure true : M Bool) else pure false) p = await_ack p := by
  simp only [await_ack, bind_apply]
  cases stm32_read_byte p with
  | halt q => rfl
  | ret r q => by_cases h1 : r = STM32_ACK <;> simp [h1]

theorem wunprot_run (stm : stm32_t) (r0 : Nat) (s i : List Nat) (c : Nat) (h : 2 ≤ c) :
    stm32_wunprot_memory stm ⟨s, r0 :: i, c⟩ =
      if r0 = STM32_ACK then await_ack ⟨s ++ cmd_bytes stm.cmd.uw, i, c - 2⟩
      else Res.ret false ⟨s ++ cmd_bytes stm.cmd.uw, i, c - 2⟩ := by
  unfold stm32_wunprot_memory
  rw [bind_apply, send_command_run _ _ _ _ _ h]
  by_cases h0 : r0 = STM32_ACK
  · simp [h0, second_reply]
  · simp [h0, pure_apply]

theorem rprot_run (stm : stm32_t) (r0 : Nat) (s i : List Nat) (c : Nat) (h : 2 ≤ c) :
    stm32_rprot_memory stm ⟨s, r0 :: i, c⟩ =
      if r0 = STM32_ACK then await_ack ⟨s ++ cmd_bytes stm.cmd.rp, i, c - 2⟩
      else Res.ret false ⟨s ++ cmd_bytes stm.cmd.rp, i, c - 2⟩ := by
  unfold stm32_rprot_memory
  rw [bind_apply, send_command_run _ _ _ _ _ h]
  by_cases h0 : r0 = STM32_ACK
  · simp [h0, second_reply]
  · simp [h0, pure_apply]

theorem runprot_run (stm : stm32_t) (r0 : Nat) (s i : List Nat) (c : Nat) (h : 2 ≤ c) :
    stm32_runprot_memory stm ⟨s, r0 :: i, c⟩ =
      if r0 = STM32_ACK then await_ack ⟨s ++ cmd_bytes stm.cmd.ur, i, c - 2⟩
      else Res.ret false ⟨s ++ cmd_bytes stm.cmd.ur, i, c - 2⟩ := by
  unfold stm32_runprot_memory
  rw [bind_apply, send_command_run _ _ _ _ _ h]
  by_cases h0 : r0 = STM32_ACK
  · simp [h0, second_reply]
  · simp [h0, pure_apply]

/-- C20: on a line that takes the two command bytes and holds the replies `r0`, `r1`,
each of write-unprotect, read-protect and read-unprotect sends the command exchange on
its opcode and returns success iff `r0` and `r1` are both ACK; when `r0` is not ACK it
fails with `r1` still unread on the line, and it fails in the same way when the line
holds no second byte at all. -/
theorem protection_two_acks (stm : stm32_t) (r0 r1 : Nat) (s i : List Nat) (c : Nat)
    (hc : 2 ≤ c) :
    (stm32_wunprot_memory stm ⟨s, r0 :: r1 :: i, c⟩ =
        Res.ret (decide (r0 = STM32_ACK ∧ r1 = STM32_ACK))
          ⟨s ++ cmd_bytes stm.cmd.uw, if r0 = STM32_ACK then i else r1 :: i, c - 2⟩ ∧
      stm32_rprot_memory stm ⟨s, r0 :: r1 :: i, c⟩ =
        Res.ret (decide (r0 = STM32_ACK ∧ r1 = STM32_ACK))
          ⟨s ++ cmd_bytes stm.cmd.rp, if r0 = STM32_ACK then i else r1 :: i, c - 2⟩ ∧
      stm32_runprot_memory stm ⟨s, r0 :: r1 :: i, c⟩ =
        Res.ret (decide (r0 = STM32_ACK ∧ r1 = STM32_ACK))
          ⟨s ++ cmd_bytes stm.cmd.ur, if r0 = STM32_ACK then i else r1 :: i, c - 2⟩) ∧
    (r0 ≠ STM32_ACK →
      stm32_wunprot_memory stm ⟨s, [r0], c⟩ =
        Res.ret false ⟨s ++ cmd_bytes stm.cmd.uw, [], c - 2⟩ ∧
      stm32_rprot_memory stm ⟨s, [r0], c⟩ =
        Res.ret false ⟨s ++ cmd_bytes stm.cmd.rp, [], c - 2⟩ ∧
      stm32_runprot_memory stm ⟨s, [r0], c⟩ =
        Res.ret false ⟨s ++ cmd_bytes stm.cmd.ur, [], c - 2⟩) := by
  refine ⟨?_, fun h0 => ?_⟩
  · rw [wunprot_run _ _ _ _ _ hc, rprot_run _ _ _ _ _ hc, runprot_run _ _ _ _ _ hc]
    by_cases h0 : r0 = STM32_ACK
    · simp [h0, await_ack_cons]
    · simp [h0]
  · rw [wunprot_run _ _ _ _ _ hc, rprot_run _ _ _ _ _ hc, runprot_run _ _ _ _ _ hc]
    simp [h0]

/-- C20 at the sample session: NACK to the exchange leaves the next byte unread, and a
lone NACK is enough for the failure. -/
theorem protection_two_acks_witness :
    2 ≤ 2 ∧ STM32_NACK ≠ STM32_ACK ∧
    stm32_wunprot_memory sample_stm ⟨[], [STM32_NACK, STM32_ACK], 2⟩ =
      Res.ret false ⟨[0x73, 0x8C], [STM32_ACK], 0⟩ ∧
    stm32_rprot_memory sample_stm ⟨[], [STM32_NACK], 2⟩ = Res.ret false ⟨[0x82, 0x7D], [], 0⟩ :=
  ⟨by decide, by decide,
    (protection_two_acks sample_stm STM32_NACK STM32_ACK [] [] 2 (by decide)).1.1,
    ((protection_two_acks sample_stm STM32_NACK STM32_ACK [] [] 2 (by decide)).2
      (by decide)).2.1⟩

/-! ## The device table -/

theorem devices_eq_catalog :
    devices = catalog ++ [⟨0x0, "", 0, 0, 0, 0, 0, 0, 0, 0, 0, 0, 0, 0, 0⟩] := by decide

/-- C17: every device descriptor of the table (every row before the terminating row)
has `ram_start <= ram_bl_res <= ram_end` and `fl_start < fl_end`, and its system
memory, option byte and EEPROM ranges have start `<=` end. -/
theorem catalog_ranges : ∀ d ∈ catalog,
    d.ram_start ≤ d.ram_bl_res ∧ d.ram_bl_res ≤ d.ram_end ∧ d.fl_start < d.fl_end ∧
    d.mem_start ≤ d.mem_end ∧ d.opt_start ≤ d.opt_end ∧ d.eep_start ≤ d.eep_end := by
  decide

/-- C17 at the row of product ID 0x410. -/
theorem catalog_ranges_witness :
    sample_stm.dev ∈ catalog ∧
    (0x20000000 ≤ 0x20000200 ∧ 0x20000200 ≤ 0x20005000 ∧ 0x08000000 < 0x08020000 ∧
      0x1FFFF000 ≤ 0x1FFFF800 ∧ 0x1FFFF800 ≤ 0x1FFFF80F ∧ 0x00000000 ≤ 0x00000000) :=
  ⟨by decide, catalog_ranges sample_stm.dev (by decide)⟩

/-! ## The workspace resolver: start, end, length and execution address -/

theorem calc_workspace_eq (stm : stm32_t) (g : Globals) (allowed_start allowed_end : Nat)
    (h0 : ¬ (g.mem_type ≠ MEM_TYPE_FLASH ∧ (g.spage ≥ 0 ∨ g.npages > 0)))
    (hall : calc_allowed stm g.mem_type = some (allowed_start, allowed_end)) :
    calc_workspace stm g =
      if ws_start stm g allowed_start < allowed_start ∨
          ws_end stm g allowed_start allowed_end > allowed_end then
        (none, ws_globals stm g allowed_start allowed_end)
      else if ws_exec_outside stm (ws_exec_flag g) (ws_execute g allowed_start) then
        (none, ws_globals stm g allowed_start allowed_end)
      else (some (ws_start stm g allowed_start, ws_end stm g allowed_start allowed_end),
        ws_globals stm g allowed_start allowed_end) := by
  unfold calc_workspace
  rw [if_neg h0, hall]
  rfl

theorem calc_workspace_some (stm : stm32_t) (g : Globals) (start end_addr : Nat)
    (h : (calc_workspace stm g).1 = some (start, end_addr)) :
    ∃ allowed_start allowed_end,
      calc_allowed stm g.mem_type = some (allowed_start, allowed_end) ∧
      calc_workspace stm g =
        (some (start, end_addr), ws_globals stm g allowed_start allowed_end) ∧
      start = ws_start stm g allowed_start ∧
      end_addr = ws_end stm g allowed_start allowed_end ∧
      allowed_start ≤ start ∧ end_addr ≤ allowed_end ∧
      ¬ ws_exec_outside stm (ws_exec_flag g) (ws_execute g allowed_start) := by
  by_cases h0 : g.mem_type ≠ MEM_TYPE_FLASH ∧ (g.spage ≥ 0 ∨ g.npages > 0)
  · unfold calc_workspace at h
    rw [if_pos h0] at h
    cases h
  · cases hall : calc_allowed stm g.mem_type with
    | none =>
      unfold calc_workspace at h
      rw [if_neg h0, hall] at h
      cases h
    | some ae =>
      obtain ⟨allowed_start, allowed_end⟩ := ae
      rw [calc_workspace_eq stm g allowed_start allowed_end h0 hall] at h ⊢
      by_cases hv : ws_start stm g allowed_start < allowed_start ∨
          ws_end stm g allowed_start allowed_end > allowed_end
      · rw [if_pos hv] at h
        cases h
      · rw [if_neg hv] at h ⊢
        by_cases he : ws_exec_outside stm (ws_exec_flag g) (ws_execute g allowed_start)
        · rw [if_pos he] at h
          cases h
        · rw [if_neg he] at h ⊢
          simp only [Option.some.injEq, Prod.mk.injEq] at h
          refine ⟨allowed_start, allowed_end, rfl, ?_, h.1.symm, h.2.symm, ?_, ?_, he⟩
          · rw [h.1, h.2]
          · rw [← h.1]
            omega
          · rw [← h.2]
            omega

theorem calc_workspace_exec_outside (stm : stm32_t) (g : Globals)
    (allowed_start allowed_end : Nat)
    (hall : calc_allowed stm g.mem_type = some (allowed_start, allowed_end))
    (he : ws_exec_outside stm (ws_exec_flag g) (ws_execute g allowed_start)) :
    (calc_workspace stm g).1 = none := by
  by_cases h0 : g.mem_type ≠ MEM_TYPE_FLASH ∧ (g.spage ≥ 0 ∨ g.npages > 0)
  · unfold calc_workspace
    rw [if_pos h0]
  · rw [calc_workspace_eq stm g allowed_start allowed_end h0 hall]
    split_ifs <;> rfl

theorem to_u32_add (a b : Nat) : to_u32 ((a : Int) + b) = (a + b) % 2 ^ 32 := by
  unfold to_u32
  omega

theorem ws_execute_eq (g : Globals) (allowed_start : Nat) :
    ws_execute g allowed_start =
      if g.exec_flag = EXEC_FLAG_REL then (g.execute + allowed_start) % 2 ^ 32
      else g.execute := by
  unfold ws_execute
  rw [to_u32_add]

theorem ws_exec_flag_abs (g : Globals)
    (hx : g.exec_flag = EXEC_FLAG_REL ∨ g.exec_flag = EXEC_FLAG_ABS) :
    ws_exec_flag g = EXEC_FLAG_ABS := by
  unfold ws_exec_flag
  rcases hx with hx | hx
  · rw [if_pos hx]
  · rw [hx]
    decide

/-- C15: when an execution address is requested (flag relative or absolute), a
successful `calc_workspace` leaves the flag absolute and `execute` equal to the
requested address, with `allowed_start` added (in 32 bits) when it was relative, and
that address lies in `[fl_start, fl_end)` or in `[ram_bl_res, ram_end)`; whenever the
address so converted lies in neither, `calc_workspace` fails. -/
theorem execute_address_checked (stm : stm32_t) (g : Globals)
    (hx : g.exec_flag = EXEC_FLAG_REL ∨ g.exec_flag = EXEC_FLAG_ABS) :
    (∀ start end_addr, (calc_workspace stm g).1 = some (start, end_addr) →
      (calc_workspace stm g).2.exec_flag = EXEC_FLAG_ABS ∧
      (∃ allowed_start allowed_end,
        calc_allowed stm g.mem_type = some (allowed_start, allowed_end) ∧
        (calc_workspace stm g).2.execute =
          if g.exec_flag = EXEC_FLAG_REL then (g.execute + allowed_start) % 2 ^ 32
          else g.execute) ∧
      ((stm.dev.fl_start ≤ (calc_workspace stm g).2.execute ∧
          (calc_workspace stm g).2.execute < stm.dev.fl_end) ∨
        (stm.dev.ram_bl_res ≤ (calc_workspace stm g).2.execute ∧
          (calc_workspace stm g).2.execute < stm.dev.ram_end))) ∧
    (∀ allowed_start allowed_end,
      calc_allowed stm g.mem_type = some (allowed_start, allowed_end) →
      ∀ address,
        address = (if g.exec_flag = EXEC_FLAG_REL then (g.execute + allowed_start) % 2 ^ 32
          else g.execute) →
        ¬ (stm.dev.fl_start ≤ address ∧ address < stm.dev.fl_end) →
        ¬ (stm.dev.ram_bl_res ≤ address ∧ address < stm.dev.ram_end) →
        (calc_workspace stm g).1 = none) := by
  constructor
  · intro start end_addr h
    obtain ⟨allowed_start, allowed_end, hall, heq, -, -, -, -, he⟩ :=
      calc_workspace_some stm g start end_addr h
    rw [heq]
    have hf := ws_exec_flag_abs g hx
    refine ⟨hf, ⟨allowed_start, allowed_end, hall, ws_execute_eq g allowed_start⟩, ?_⟩
    show (stm.dev.fl_start ≤ ws_execute g allowed_start ∧
        ws_execute g allowed_start < stm.dev.fl_end) ∨
      (stm.dev.ram_bl_res ≤ ws_execute g allowed_start ∧
        ws_execute g allowed_start < stm.dev.ram_end)
    unfold ws_exec_outside at he
    rw [hf] at he
    generalize ws_execute g allowed_start = x at he ⊢
    by_contra hc
    apply he
    refine ⟨rfl, ?_, ?_⟩ <;> omega
  · intro allowed_start allowed_end hall address ha hfl hram
    apply calc_workspace_exec_outside stm g allowed_start allowed_end hall
    unfold ws_exec_outside
    rw [ws_exec_flag_abs g hx, ws_execute_eq, ← ha]
    refine ⟨rfl, ?_, ?_⟩ <;> omega

/-- C15 at product ID 0x410: the absolute address 0x08000100 is accepted, the relative
address 0x30000 (outside flash once converted) is refused. -/
theorem execute_address_checked_witness :
    ((EXEC_FLAG_ABS = EXEC_FLAG_REL ∨ EXEC_FLAG_ABS = EXEC_FLAG_ABS) ∧
      (calc_workspace sample_stm
        ⟨MEM_TYPE_FLASH, true, 0, -1, 0, 0, EXEC_FLAG_ABS, 0x08000100⟩).1 =
          some (0x08000000, 0x08020000)) ∧
    (calc_workspace sample_stm
      ⟨MEM_TYPE_FLASH, true, 0, -1, 0, 0, EXEC_FLAG_ABS, 0x08000100⟩).2.exec_flag =
        EXEC_FLAG_ABS ∧
    ((EXEC_FLAG_REL = EXEC_FLAG_REL ∨ EXEC_FLAG_REL = EXEC_FLAG_ABS) ∧
      calc_allowed sample_stm MEM_TYPE_FLASH = some (0x08000000, 0x08020000)) ∧
    (calc_workspace sample_stm
      ⟨MEM_TYPE_FLASH, true, 0, -1, 0, 0, EXEC_FLAG_REL, 0x30000⟩).1 = none :=
  ⟨by decide,
    ((execute_address_checked sample_stm
      ⟨MEM_TYPE_FLASH, true, 0, -1, 0, 0, EXEC_FLAG_ABS, 0x08000100⟩ (by decide)).1
      0x08000000 0x08020000 (by decide)).1,
    by decide,
    (execute_address_checked sample_stm
      ⟨MEM_TYPE_FLASH, true, 0, -1, 0, 0, EXEC_FLAG_REL, 0x30000⟩ (by decide)).2
      0x08000000 0x08020000 (by decide) 0x08030000 (by decide) (by decide) (by decide)⟩

/-- C16, the failing input: with the absolute execution address 0 (`-g 0x0`) on the
device of product ID 0x410, `calc_workspace` fails, because 0 lies neither in flash nor
in RAM; `main` reaches `close:` with `ret` 1, so the test `execute == 0` is not reached
and nothing is sent: no Go at the flash start. -/
theorem execute_zero_rejected :
    (calc_workspace sample_stm
      ⟨MEM_TYPE_FLASH, true, 0, -1, 0, 0, EXEC_FLAG_ABS, 0⟩).1 = none ∧
    main_no_transfer true sample_stm ⟨MEM_TYPE_FLASH, true, 0, -1, 0, 0, EXEC_FLAG_ABS, 0⟩
      true ⟨[], [STM32_ACK, STM32_ACK], 16⟩ =
        Res.ret (1, true) ⟨[], [STM32_ACK, STM32_ACK], 16⟩ := by
  decide

theorem ws_len_given (stm : stm32_t) (g : Globals) (allowed_start allowed_end : Nat)
    (hl : g.readwrite_len ≠ 0) : ws_len stm g allowed_start allowed_end = g.readwrite_len := by
  unfold ws_len
  rw [if_neg (fun hc => hl hc.1)]

theorem ws_len_default (stm : stm32_t) (g : Globals) (allowed_start allowed_end : Nat)
    (hl : g.readwrite_len = 0) (hn : g.npages = 0) :
    ws_len stm g allowed_start allowed_end = 0 := by
  unfold ws_len
  rw [if_neg (fun hc => hc.2 hn), hl]

/-- C13, as the code has it: whenever `calc_workspace` succeeds (the address a 32-bit
value, the product of page and page size within the `int` range), the resolved start is
`allowed_start + spage * fl_ps` when a start page is given, `allowed_start + start_addr`
when the address is relative, and `start_addr` itself when it is absolute; when a length
`L` is given, the resolved end is `(start + L) mod 2^32`, which is `start + L` whenever
that sum is at most 0xFFFFFFFF. -/
theorem workspace_start_end (stm : stm32_t) (g : Globals) (start end_addr : Nat)
    (hs : g.start_addr < 2 ^ 32) (hp : g.spage * stm.dev.fl_ps < 2 ^ 31)
    (h : (calc_workspace stm g).1 = some (start, end_addr)) :
    ∃ allowed_start allowed_end,
      calc_allowed stm g.mem_type = some (allowed_start, allowed_end) ∧
      (0 ≤ g.spage → (start : Int) = allowed_start + g.spage * stm.dev.fl_ps) ∧
      (g.spage < 0 → g.relative_addr = true → start = allowed_start + g.start_addr) ∧
      (g.spage < 0 → g.relative_addr = false → start = g.start_addr) ∧
      (g.readwrite_len ≠ 0 →
        end_addr = (start + g.readwrite_len) % 2 ^ 32 ∧
        (start + g.readwrite_len < 2 ^ 32 → end_addr = start + g.readwrite_len)) := by
  obtain ⟨allowed_start, allowed_end, hall, -, hst, hen, h1, -, -⟩ :=
    calc_workspace_some stm g start end_addr h
  refine ⟨allowed_start, allowed_end, hall, ?_, ?_, ?_, ?_⟩
  · intro hpg
    have hx : 0 ≤ g.spage * stm.dev.fl_ps := Int.mul_nonneg hpg (Int.ofNat_nonneg _)
    unfold ws_start at hst
    rw [if_pos hpg] at hst
    generalize g.spage * (stm.dev.fl_ps : Int) = x at hp hx hst
    unfold to_u32 to_i32 at hst
    omega
  · intro hpg hrel
    unfold ws_start at hst
    rw [if_neg (by omega), if_pos hrel, to_u32_add] at hst
    omega
  · intro hpg hrel
    unfold ws_start at hst
    rw [if_neg (by omega), if_neg (by simp [hrel])] at hst
    exact hst
  · intro hl
    have he : end_addr = (start + g.readwrite_len) % 2 ^ 32 := by
      rw [hen, hst]
      unfold ws_end
      rw [ws_len_given stm g allowed_start allowed_end hl, if_pos hl, to_u32_add]
    exact ⟨he, fun hlt => by rw [he, Nat.mod_eq_of_lt hlt]⟩

/-- C13 at the scenario of the claim: RAM, relative address 0x1000, length 100, on the
device of product ID 0x410 (`ram_bl_res` 0x20000200). -/
theorem workspace_start_end_witness :
    ((0x1000 : Nat) < 2 ^ 32 ∧ (-1 : Int) * sample_stm.dev.fl_ps < 2 ^ 31 ∧
      (calc_workspace sample_stm
        ⟨MEM_TYPE_RAM, true, 0, -1, 100, 0x1000, EXEC_FLAG_NONE, 0⟩).1 =
          some (0x20001200, 0x20001264)) ∧
    ∃ allowed_start allowed_end,
      calc_allowed sample_stm MEM_TYPE_RAM = some (allowed_start, allowed_end) ∧
      (0 ≤ (-1 : Int) → ((0x20001200 : Nat) : Int) = allowed_start + -1 * sample_stm.dev.fl_ps) ∧
      ((-1 : Int) < 0 → true = true → 0x20001200 = allowed_start + 0x1000) ∧
      ((-1 : Int) < 0 → true = false → 0x20001200 = 0x1000) ∧
      (100 ≠ 0 →
        0x20001264 = (0x20001200 + 100) % 2 ^ 32 ∧
        (0x20001200 + 100 < 2 ^ 32 → 0x20001264 = 0x20001200 + 100)) :=
  ⟨by decide, workspace_start_end sample_stm
    ⟨MEM_TYPE_RAM, true, 0, -1, 100, 0x1000, EXEC_FLAG_NONE, 0⟩ 0x20001200 0x20001264
    (by decide) (by decide) (by decide)⟩

/-- C13 as stated fails: for product ID 0x410, Flash, the absolute address 0x08000020
and the length 0xFFFFFFF0 (`-S 0x08000020:0xFFFFFFF0`), `calc_workspace` succeeds with
the end 0x08000010, which is not the start plus the length. -/
theorem workspace_end_wraps :
    (calc_workspace sample_stm
      ⟨MEM_TYPE_FLASH, false, 0, -1, 0xFFFFFFF0, 0x08000020, EXEC_FLAG_NONE, 0⟩).1 =
        some (0x08000020, 0x08000010) ∧
    (0x08000010 : Nat) ≠ 0x08000020 + 0xFFFFFFF0 := by
  decide

theorem to_u32_cast (x : Int) : ((to_u32 x : Nat) : Int) = x % 2 ^ 32 := by
  unfold to_u32
  omega

theorem calc_allowed_table (stm : stm32_t) :
    calc_allowed stm MEM_TYPE_FLASH = some (stm.dev.fl_start, stm.dev.fl_end) ∧
    calc_allowed stm MEM_TYPE_RAM = some (stm.dev.ram_bl_res, stm.dev.ram_end) ∧
    calc_allowed stm MEM_TYPE_ANY = some (0, 0xFFFFFFFF) ∧
    (to_u32 ((stm.dev.eep_end : Int) - stm.dev.eep_start) ≠ 0 →
      calc_allowed stm MEM_TYPE_EEPROM = some (stm.dev.eep_start, stm.dev.eep_end)) := by
  refine ⟨rfl, rfl, rfl, fun h => ?_⟩
  unfold calc_allowed
  rw [if_neg (by decide), if_neg (by decide), if_pos rfl, if_neg h]

/-- C14, as the code has it: when neither a length nor a page count is given,
a successful `calc_workspace` sets the end to `allowed_end` and the length to
`(allowed_end - start) mod 2^32`, which is `allowed_end - start` whenever the start is
at most `allowed_end`; with no selectors at all the start is `allowed_start`, so the
range is `[allowed_start, allowed_end)`, and the call does succeed when no execution
address is asked for and `allowed_start <= allowed_end <= 0xFFFFFFFF`.  The allowed
region is `(fl_start, fl_end)` for Flash, `(ram_bl_res, ram_end)` for RAM,
`(0, 0xFFFFFFFF)` for Any and `(eep_start, eep_end)` for a non-empty EEPROM. -/
theorem workspace_default_end (stm : stm32_t) (g : Globals)
    (hlen : g.readwrite_len = 0) (hnp : g.npages = 0) :
    (∀ start end_addr, (calc_workspace stm g).1 = some (start, end_addr) →
      ∃ allowed_start allowed_end,
        calc_allowed stm g.mem_type = some (allowed_start, allowed_end) ∧
        end_addr = allowed_end ∧
        (((calc_workspace stm g).2.readwrite_len : Nat) : Int) =
          ((allowed_end : Int) - start) % 2 ^ 32 ∧
        (start ≤ allowed_end → allowed_end < 2 ^ 32 →
          (calc_workspace stm g).2.readwrite_len = allowed_end - start) ∧
        (g.spage < 0 → g.start_addr = 0 → g.relative_addr = true →
          start = allowed_start)) ∧
    (g.spage < 0 → g.start_addr = 0 → g.relative_addr = true →
      g.exec_flag = EXEC_FLAG_NONE →
      ∀ allowed_start allowed_end,
        calc_allowed stm g.mem_type = some (allowed_start, allowed_end) →
        allowed_start ≤ allowed_end → allowed_end < 2 ^ 32 →
        (calc_workspace stm g).1 = some (allowed_start, allowed_end) ∧
        (calc_workspace stm g).2.readwrite_len = allowed_end - allowed_start) ∧
    (calc_allowed stm MEM_TYPE_FLASH = some (stm.dev.fl_start, stm.dev.fl_end) ∧
      calc_allowed stm MEM_TYPE_RAM = some (stm.dev.ram_bl_res, stm.dev.ram_end) ∧
      calc_allowed stm MEM_TYPE_ANY = some (0, 0xFFFFFFFF) ∧
      (to_u32 ((stm.dev.eep_end : Int) - stm.dev.eep_start) ≠ 0 →
        calc_allowed stm MEM_TYPE_EEPROM = some (stm.dev.eep_start, stm.dev.eep_end))) := by
  have hrl : ∀ allowed_start allowed_end,
      ws_rlen stm g allowed_start allowed_end =
        to_u32 ((allowed_end : Int) - ws_start stm g allowed_start) := by
    intro allowed_start allowed_end
    unfold ws_rlen ws_end
    rw [ws_len_default stm g allowed_start allowed_end hlen hnp]
    rfl
  have hend : ∀ allowed_start allowed_end,
      ws_end stm g allowed_start allowed_end = allowed_end := by
    intro allowed_start allowed_end
    unfold ws_end
    rw [ws_len_default stm g allowed_start allowed_end hlen hnp]
    rfl
  refine ⟨?_, ?_, calc_allowed_table stm⟩
  · intro start end_addr h
    obtain ⟨allowed_start, allowed_end, hall, heq, hst, hen, h1, -, -⟩ :=
      calc_workspace_some stm g start end_addr h
    have hr : (calc_workspace stm g).2.readwrite_len =
        to_u32 ((allowed_end : Int) - start) := by
      rw [heq, hst]
      exact hrl allowed_start allowed_end
    refine ⟨allowed_start, allowed_end, hall, ?_, ?_, ?_, ?_⟩
    · rw [hen, hend]
    · rw [hr, to_u32_cast]
    · intro hle hlt
      rw [hr]
      unfold to_u32
      omega
    · intro hpg hz hrel
      unfold ws_start at hst
      rw [if_neg (by omega), if_pos hrel, hz] at hst
      unfold to_u32 at hst
      omega
  · intro hpg hz hrel hx allowed_start allowed_end hall hle hlt
    have h0 : ¬ (g.mem_type ≠ MEM_TYPE_FLASH ∧ (g.spage ≥ 0 ∨ g.npages > 0)) := by
      intro hc
      rcases hc.2 with h1 | h1 <;> omega
    have hst : ws_start stm g allowed_start = allowed_start := by
      unfold ws_start
      rw [if_neg (by omega), if_pos hrel, hz]
      unfold to_u32
      omega
    have hex : ¬ ws_exec_outside stm (ws_exec_flag g) (ws_execute g allowed_start) := by
      intro hc
      have h1 := hc.1
      unfold ws_exec_flag at h1
      rw [hx] at h1
      revert h1
      decide
    rw [calc_workspace_eq stm g allowed_start allowed_end h0 hall, hend, hst,
      if_neg (by omega), if_neg hex]
    refine ⟨rfl, ?_⟩
    show ws_rlen stm g allowed_start allowed_end = allowed_end - allowed_start
    rw [hrl, hst]
    unfold to_u32
    omega

/-- C14 at the scenario of the claim: product ID 0x410, Flash, no selectors: the range
`[0x08000000, 0x08020000)` of 128 pages of 1024 bytes. -/
theorem workspace_default_end_witness :
    ((0 : Nat) = 0 ∧ (0 : Int) = 0 ∧ (-1 : Int) < 0 ∧ true = true ∧
      EXEC_FLAG_NONE = EXEC_FLAG_NONE ∧
      calc_allowed sample_stm MEM_TYPE_FLASH = some (0x08000000, 0x08020000) ∧
      0x08000000 ≤ 0x08020000 ∧ 0x08020000 < 2 ^ 32) ∧
    ((calc_workspace sample_stm
        ⟨MEM_TYPE_FLASH, true, 0, -1, 0, 0, EXEC_FLAG_NONE, 0⟩).1 =
          some (0x08000000, 0x08020000) ∧
      (calc_workspace sample_stm
        ⟨MEM_TYPE_FLASH, true, 0, -1, 0, 0, EXEC_FLAG_NONE, 0⟩).2.readwrite_len =
          0x08020000 - 0x08000000) ∧
    0x08020000 - 0x08000000 = 128 * sample_stm.dev.fl_ps ∧ sample_stm.dev.fl_ps = 1024 :=
  ⟨by decide,
    (workspace_default_end sample_stm ⟨MEM_TYPE_FLASH, true, 0, -1, 0, 0, EXEC_FLAG_NONE, 0⟩
      rfl rfl).2.1 (by decide) rfl rfl rfl 0x08000000 0x08020000 (by decide) (by decide)
      (by decide),
    by decide, by decide⟩

/-- C14 as stated fails: for product ID 0x410, Flash and the relative address 0x30000
with neither length nor page count (`-S +0x30000`), `calc_workspace` succeeds with the
start 0x08030000 and the length 0xFFFF0000, which is not `allowed_end - start`. -/
theorem workspace_default_length_wraps :
    (calc_workspace sample_stm
      ⟨MEM_TYPE_FLASH, true, 0, -1, 0, 0x30000, EXEC_FLAG_NONE, 0⟩).1 =
        some (0x08030000, 0x08020000) ∧
    calc_allowed sample_stm MEM_TYPE_FLASH = some (0x08000000, 0x08020000) ∧
    (calc_workspace sample_stm
      ⟨MEM_TYPE_FLASH, true, 0, -1, 0, 0x30000, EXEC_FLAG_NONE, 0⟩).2.readwrite_len =
        0xFFFF0000 ∧
    ((0xFFFF0000 : Nat) : Int) ≠ (0x08020000 : Int) - 0x08030000 := by
  decide

/-! ## The handshake and the table scan -/

theorem scan_devices_append (p : Nat) (z : stm32_dev_t) (hz : z.id = 0) :
    ∀ l : List stm32_dev_t, (∀ d ∈ l, d.id ≠ 0) →
      scan_devices p (l ++ [z]) = some ((l.find? (fun d => d.id == p)).getD z) := by
  intro l
  induction l with
  | nil =>
    intro _
    simp [scan_devices, hz]
  | cons d rest ih =>
    intro hl
    have hd : d.id ≠ 0 := hl d (List.mem_cons_self _ _)
    have hr : ∀ x ∈ rest, x.id ≠ 0 := fun x hx => hl x (List.mem_cons_of_mem _ hx)
    rw [List.cons_append, scan_devices, List.find?_cons]
    by_cases hp : d.id = p
    · simp [hp]
    · have hb : (d.id == p) = false := by simp [hp]
      rw [if_pos ⟨hd, hp⟩, ih hr, hb]

theorem catalog_ids_nonzero : ∀ d ∈ catalog, d.id ≠ 0 := by decide

theorem catalog_ids_unique : ∀ d ∈ catalog, ∀ e ∈ catalog, d.id = e.id → d = e := by decide

theorem scan_devices_catalog (p : Nat) :
    scan_devices p devices =
      some ((catalog.find? (fun d => d.id == p)).getD
        ⟨0x0, "", 0, 0, 0, 0, 0, 0, 0, 0, 0, 0, 0, 0, 0⟩) := by
  rw [devices_eq_catalog]
  exact scan_devices_append p _ rfl catalog catalog_ids_nonzero

theorem init_select_eq (p : Nat) : init_select p = catalog.find? (fun d => d.id == p) := by
  unfold init_select
  rw [scan_devices_catalog]
  cases h : catalog.find? (fun d => d.id == p) with
  | none => rfl
  | some d =>
    have hd : d.id ≠ 0 := catalog_ids_nonzero d (List.mem_of_find?_eq_some h)
    simp [hd]

theorem init_select_iff (p : Nat) (d : stm32_dev_t) :
    init_select p = some d ↔ d ∈ catalog ∧ d.id = p := by
  rw [init_select_eq]
  constructor
  · intro h
    have h2 := List.find?_some h
    exact ⟨List.mem_of_find?_eq_some h, by simpa using h2⟩
  · intro h
    cases hf : catalog.find? (fun d => d.id == p) with
    | none =>
      rw [List.find?_eq_none] at hf
      exact absurd (by simpa using h.2) (hf d h.1)
    | some e =>
      have he := List.find?_some hf
      have hm := List.mem_of_find?_eq_some hf
      have hid : e.id = d.id := by
        rw [h.2]
        simpa using he
      rw [catalog_ids_unique e hm d h.1 hid]

theorem readBuf_one (r : Nat) (s i : List Nat) (c : Nat) :
    readBuf 1 ⟨s, r :: i, c⟩ = Res.ret (SERIAL_ERR_OK, [r]) ⟨s, i, c⟩ := by
  simp [readBuf, serial_read]

theorem init_sync_reply (index r : Nat) (s i : List Nat) (c : Nat) (h : 0 < c) :
    init_sync (index + 1) ⟨s, r :: i, c⟩ =
      Res.ret (some r) ⟨s ++ [STM32_CMD_INIT], i, c - 1⟩ := by
  rw [init_sync, bind_apply, send_byte_run _ _ _ _ h]
  simp only []
  rw [bind_apply, readBuf_one]
  simp only []
  rw [if_pos True.intro]
  rfl

theorem read_bind {α : Type} (f : Nat → M α) (r : Nat) (s i : List Nat) (c : Nat) :
    (stm32_read_byte >>= f) ⟨s, r :: i, c⟩ = f r ⟨s, i, c⟩ := by
  rw [bind_apply, read_byte_cons]

theorem command_bind {α : Type} (f : Bool → M α) (cmd r : Nat) (s i : List Nat) (c : Nat)
    (h : 2 ≤ c) :
    (stm32_send_command cmd >>= f) ⟨s, r :: i, c⟩ =
      f (decide (r = STM32_ACK)) ⟨s ++ cmd_bytes cmd, i, c - 2⟩ := by
  rw [bind_apply, send_command_run _ _ _ _ _ h]

theorem unit_bind {α : Type} (f : Unit → M α) (p : Port) :
    ((pure () : M Unit) >>= f) p = f () p := rfl

theorem init_get_run (bl_version : Nat) (cmd : stm32_cmd) (s i : List Nat) (c : Nat)
    (h : 2 ≤ c) :
    init_get ⟨s, get_reply bl_version cmd ++ i, c⟩ =
      Res.ret (some (bl_version, cmd)) ⟨s ++ cmd_bytes STM32_CMD_GET, i, c - 2⟩ := by
  unfold init_get get_reply
  simp only [List.cons_append, List.nil_append]
  rw [command_bind _ _ _ _ _ _ h]
  simp only [decide_True]
  rw [if_neg (by decide)]
  simp only [read_bind]
  rw [if_neg (by decide), unit_bind, read_bind, if_neg (by simp)]
  rfl

theorem init_gvr_run (gvr version option1 option2 : Nat) (s i : List Nat) (c : Nat)
    (h : 2 ≤ c) :
    init_gvr gvr ⟨s, gvr_reply version option1 option2 ++ i, c⟩ =
      Res.ret (some (version, option1, option2)) ⟨s ++ cmd_bytes gvr, i, c - 2⟩ := by
  unfold init_gvr gvr_reply
  simp only [List.cons_append, List.nil_append]
  rw [command_bind _ _ _ _ _ _ h]
  simp only [decide_True]
  rw [if_neg (by decide)]
  simp only [read_bind]
  rw [if_neg (by simp)]
  rfl

theorem pid_of_bytes (p : Nat) (hp : p < 65536) :
    (((p / 256) <<< 8) ||| (p % 256)) % 65536 = p := by
  have hb : p % 256 < 2 ^ 8 := Nat.mod_lt _ (by decide)
  rw [Nat.shiftLeft_eq, Nat.mul_comm, ← Nat.mul_add_lt_is_or hb]
  omega

theorem init_gid_run (gid p : Nat) (hp : p < 65536) (s i : List Nat) (c : Nat)
    (h : 2 ≤ c) :
    init_gid gid ⟨s, gid_reply p ++ i, c⟩ =
      Res.ret (some p) ⟨s ++ cmd_bytes gid, i, c - 2⟩ := by
  unfold init_gid gid_reply
  simp only [List.cons_append, List.nil_append]
  rw [command_bind _ _ _ _ _ _ h]
  simp only [decide_True]
  rw [if_neg (by decide), read_bind]
  rw [if_neg (by decide), read_bind, read_bind]
  rw [if_neg (by decide), unit_bind, read_bind, if_neg (by simp), pid_of_bytes p hp]
  rfl

theorem init_session_run (bl_version : Nat) (cmd : stm32_cmd) (version option1 option2 p : Nat)
    (hp : p < 65536) (s i : List Nat) (c : Nat) (h : 6 ≤ c) :
    init_session ⟨s, get_reply bl_version cmd ++ gvr_reply version option1 option2 ++
        gid_reply p ++ i, c⟩ =
      Res.ret ((init_select p).map
          (fun dev => ⟨bl_version, version, option1, option2, p, cmd, dev⟩))
        ⟨s ++ cmd_bytes STM32_CMD_GET ++ cmd_bytes cmd.gvr ++ cmd_bytes cmd.gid, i, c - 6⟩ := by
  unfold init_session
  rw [List.append_assoc, List.append_assoc, bind_apply, init_get_run _ _ _ _ _ (by omega)]
  simp only []
  rw [bind_apply, init_gvr_run _ _ _ _ _ _ _ (by omega)]
  simp only []
  rw [bind_apply, init_gid_run _ _ hp _ _ _ (by omega)]
  simp only []
  cases init_select p with
  | none => simp [pure_apply, Nat.sub_sub]
  | some dev => simp [pure_apply, Nat.sub_sub]

theorem stm32_init_run (bl_version : Nat) (cmd : stm32_cmd) (version option1 option2 p : Nat)
    (hp : p < 65536) (s i : List Nat) (c : Nat) (h : 7 ≤ c) :
    stm32_init true ⟨s, handshake_reply bl_version cmd version option1 option2 p ++ i, c⟩ =
      Res.ret ((init_select p).map
          (fun dev => ⟨bl_version, version, option1, option2, p, cmd, dev⟩))
        ⟨s ++ STM32_CMD_INIT ::
          (cmd_bytes STM32_CMD_GET ++ cmd_bytes cmd.gvr ++ cmd_bytes cmd.gid), i, c - 7⟩ := by
  unfold stm32_init handshake_reply
  rw [if_pos rfl, List.cons_append, bind_apply, init_sync_reply _ _ _ _ _ (by omega)]
  simp only []
  rw [if_neg (by decide), if_neg (by decide),
    init_session_run _ _ _ _ _ _ hp _ _ _ (by omega)]
  simp [Nat.sub_sub]

/-- C18: for every 16-bit product ID `p`, the table scan of `stm32_init` stops at a row
(the one with id `p` or the terminating row); a descriptor is selected iff `p` is the id
of a device row of the table, and it is the only row with that id; when no device row
has id `p`, as for `p = 0`, nothing is selected.  A handshake with a device that
reports `p` returns the session with the selected descriptor, and no session when
nothing is selected. -/
theorem handshake_selects (p : Nat) (hp : p < 65536) :
    (∃ d, scan_devices p devices = some d ∧ (d.id = p ∨ d.id = 0)) ∧
    (∀ d, init_select p = some d ↔ d ∈ catalog ∧ d.id = p) ∧
    (∀ d ∈ catalog, ∀ e ∈ catalog, d.id = p → e.id = p → d = e) ∧
    (init_select p = none ↔ ∀ d ∈ catalog, d.id ≠ p) ∧
    init_select 0 = none ∧
    (∀ (bl_version : Nat) (cmd : stm32_cmd) (version option1 option2 : Nat)
        (s i : List Nat) (c : Nat), 7 ≤ c →
      stm32_init true
          ⟨s, handshake_reply bl_version cmd version option1 option2 p ++ i, c⟩ =
        Res.ret ((init_select p).map
            (fun dev => ⟨bl_version, version, option1, option2, p, cmd, dev⟩))
          ⟨s ++ STM32_CMD_INIT ::
            (cmd_bytes STM32_CMD_GET ++ cmd_bytes cmd.gvr ++ cmd_bytes cmd.gid),
            i, c - 7⟩) := by
  refine ⟨?_, init_select_iff p, ?_, ?_, by decide, ?_⟩
  · rw [scan_devices_catalog]
    refine ⟨_, rfl, ?_⟩
    cases h : catalog.find? (fun d => d.id == p) with
    | none => exact Or.inr rfl
    | some d =>
      have h2 := List.find?_some h
      exact Or.inl (by simpa using h2)
  · intro d hd e he h1 h2
    exact catalog_ids_unique d hd e he (h1.trans h2.symm)
  · rw [init_select_eq, List.find?_eq_none]
    simp
  · intro bl_version cmd version option1 option2 s i c hc
    exact stm32_init_run bl_version cmd version option1 option2 p hp s i c hc

/-- C18 at the product IDs 0x410 (a device row) and 0x999 (no row). -/
theorem handshake_selects_witness :
    ((0x410 : Nat) < 65536 ∧ (0x999 : Nat) < 65536 ∧ 7 ≤ 7) ∧
    init_select 0x410 = some sample_stm.dev ∧
    init_select 0x999 = none ∧
    stm32_init true ⟨[], handshake_reply 0x22 sample_cmd 0x22 0 0 0x999 ++ [], 7⟩ =
      Res.ret ((init_select 0x999).map (fun dev => ⟨0x22, 0x22, 0, 0, 0x999, sample_cmd, dev⟩))
        ⟨[] ++ STM32_CMD_INIT ::
          (cmd_bytes STM32_CMD_GET ++ cmd_bytes sample_cmd.gvr ++ cmd_bytes sample_cmd.gid),
          [], 7 - 7⟩ :=
  ⟨by decide,
    ((handshake_selects 0x410 (by decide)).2.1 sample_stm.dev).mpr ⟨by decide, rfl⟩,
    (handshake_selects 0x999 (by decide)).2.2.2.1.mpr (by decide),
    (handshake_selects 0x999 (by decide)).2.2.2.2.2 0x22 sample_cmd 0x22 0 0 [] [] 7
      (by decide)⟩

/-! ## The workspace resolver: page counts -/

theorem tdiv_of_nonneg (x : Int) (ps : Nat) (h : 0 ≤ x) : Int.tdiv x ps = x / ps :=
  Int.tdiv_eq_ediv h (Int.ofNat_nonneg _)

theorem tdiv_of_neg (x : Int) (ps : Nat) (h : x < 0) : Int.tdiv x ps = -((-x) / ps) := by
  have h1 : x = -(-x) := by omega
  rw [h1, Int.neg_tdiv, tdiv_of_nonneg (-x) ps (by omega)]
  simp

theorem to_i32_id (x : Int) (h1 : -2147483648 ≤ x) (h2 : x < 2147483648) : to_i32 x = x := by
  unfold to_i32
  omega

theorem to_i32_range (x : Int) : -2147483648 ≤ to_i32 x ∧ to_i32 x < 2147483648 := by
  unfold to_i32
  omega

theorem to_u32_id (x : Int) (h1 : 0 ≤ x) (h2 : x < 4294967296) :
    ((to_u32 x : Nat) : Int) = x := by
  unfold to_u32
  omega

theorem to_u32_to_i32 (x : Int) (h1 : 0 ≤ x) (h2 : x < 4294967296) :
    ((to_u32 (to_i32 x) : Nat) : Int) = x := by
  unfold to_u32 to_i32
  omega

/-- The page count computed in `int` arithmetic is one more than the quotient of
`offset + length - 1` by the page size, when nothing overflows. -/
theorem count_exact (F S L q ps : Nat) (h1 : F + q ≤ S) (h2 : 1 ≤ L)
    (h3 : S + L < 2147483648) :
    to_i32 (1 + Int.tdiv
      (to_i32 (to_u32 (to_i32 (to_u32 ((S : Int) -
        to_u32 (to_i32 (q : Int) + F))) + L - 1))) ps) =
      (((S - (F + q) + L - 1) / ps + 1 : Nat) : Int) := by
  have e1 : to_i32 (q : Int) = q := to_i32_id _ (by omega) (by omega)
  rw [e1]
  have e2 : ((to_u32 ((q : Int) + F) : Nat) : Int) = (q : Int) + F :=
    to_u32_id _ (by omega) (by omega)
  rw [e2]
  have e3 : ((to_u32 ((S : Int) - ((q : Int) + F)) : Nat) : Int) = (S : Int) - ((q : Int) + F) :=
    to_u32_id _ (by omega) (by omega)
  rw [e3]
  have e4 : to_i32 ((S : Int) - ((q : Int) + F)) = (S : Int) - ((q : Int) + F) :=
    to_i32_id _ (by omega) (by omega)
  rw [e4]
  have e5 : ((to_u32 ((S : Int) - ((q : Int) + F) + L - 1) : Nat) : Int) =
      (S : Int) - ((q : Int) + F) + L - 1 :=
    to_u32_id _ (by omega) (by omega)
  rw [e5]
  have e6 : to_i32 ((S : Int) - ((q : Int) + F) + L - 1) = (S : Int) - ((q : Int) + F) + L - 1 :=
    to_i32_id _ (by omega) (by omega)
  rw [e6]
  have e0 : (S : Int) - ((q : Int) + F) + L - 1 = ((S - (F + q) + L - 1 : Nat) : Int) := by
    omega
  rw [e0, tdiv_of_nonneg _ _ (Int.ofNat_nonneg _)]
  have hN : S - (F + q) + L - 1 + 1 < 2147483648 := by omega
  generalize S - (F + q) + L - 1 = N at hN ⊢
  rw [← Int.ofNat_ediv]
  have hd : N / ps ≤ N := Nat.div_le_self _ _
  generalize N / ps = d at hd ⊢
  rw [to_i32_id _ (by omega) (by omega)]
  omega

theorem count_bound (x : Int) (ps : Nat)
    (hps : ps = 256 ∨ ps = 1024 ∨ ps = 2048 ∨ ps = 16384)
    (h1 : -2147483648 ≤ x) (h2 : x < 2147483648) :
    to_i32 (1 + Int.tdiv x ps) * ps < 4294967296 := by
  by_cases h : 0 ≤ x
  · rw [tdiv_of_nonneg x ps h, to_i32_id _ (by
      rcases hps with rfl | rfl | rfl | rfl <;> omega) (by
      rcases hps with rfl | rfl | rfl | rfl <;> omega)]
    rcases hps with rfl | rfl | rfl | rfl <;> omega
  · rw [tdiv_of_neg x ps (by omega), to_i32_id _ (by
      rcases hps with rfl | rfl | rfl | rfl <;> omega) (by
      rcases hps with rfl | rfl | rfl | rfl <;> omega)]
    rcases hps with rfl | rfl | rfl | rfl <;> omega

theorem catalog_flash : ∀ d ∈ catalog,
    d.fl_start = 0x08000000 ∧
    (d.fl_ps = 256 ∨ d.fl_ps = 1024 ∨ d.fl_ps = 2048 ∨ d.fl_ps = 16384) ∧
    d.fl_start + d.fl_ps < d.fl_end ∧ d.fl_end ≤ 0x08100000 ∧
    0 < d.ram_bl_res := by
  decide

theorem flash_allowed (stm : stm32_t) (g : Globals) (hm : g.mem_type = MEM_TYPE_FLASH) :
    ¬ (g.mem_type ≠ MEM_TYPE_FLASH ∧ (g.spage ≥ 0 ∨ g.npages > 0)) ∧
    calc_allowed stm g.mem_type = some (stm.dev.fl_start, stm.dev.fl_end) := by
  refine ⟨fun hc => hc.1 hm, ?_⟩
  rw [hm]
  rfl

theorem calc_workspace_globals (stm : stm32_t) (g : Globals) (allowed_start allowed_end : Nat)
    (h0 : ¬ (g.mem_type ≠ MEM_TYPE_FLASH ∧ (g.spage ≥ 0 ∨ g.npages > 0)))
    (hall : calc_allowed stm g.mem_type = some (allowed_start, allowed_end)) :
    (calc_workspace stm g).2 = ws_globals stm g allowed_start allowed_end := by
  rw [calc_workspace_eq stm g allowed_start allowed_end h0 hall]
  split_ifs <;> rfl

theorem ws_npages_eq (stm : stm32_t) (g : Globals) (tmp_start : Nat) (spage : Int)
    (readwrite_len : Nat) (hm : g.mem_type = MEM_TYPE_FLASH) :
    ws_npages stm g tmp_start spage readwrite_len =
      if spage = 0 ∧
          to_u32 (to_i32 (ws_count stm g tmp_start spage readwrite_len * stm.dev.fl_ps)) ≥
            to_u32 ((stm.dev.fl_end : Int) - stm.dev.fl_start) then 0xFFFF
      else ws_count stm g tmp_start spage readwrite_len := by
  unfold ws_npages ws_count
  simp only [if_pos hm]

theorem ws_count_bound (stm : stm32_t) (g : Globals) (tmp_start : Nat) (spage : Int)
    (readwrite_len : Nat)
    (hps : stm.dev.fl_ps = 256 ∨ stm.dev.fl_ps = 1024 ∨ stm.dev.fl_ps = 2048 ∨
      stm.dev.fl_ps = 16384)
    (hn1 : g.npages ≤ 0xFFFF) :
    ws_count stm g tmp_start spage readwrite_len * stm.dev.fl_ps < 4294967296 := by
  unfold ws_count
  by_cases hn : g.npages = 0
  · rw [if_pos hn]
    exact count_bound _ _ hps (to_i32_range _).1 (to_i32_range _).2
  · rw [if_neg hn]
    rcases hps with h | h | h | h <;> rw [h] <;> omega

theorem collapse_of_ge (stm : stm32_t) (g : Globals) (tmp_start : Nat) (spage : Int)
    (readwrite_len : Nat) (hm : g.mem_type = MEM_TYPE_FLASH)
    (hps : stm.dev.fl_ps = 256 ∨ stm.dev.fl_ps = 1024 ∨ stm.dev.fl_ps = 2048 ∨
      stm.dev.fl_ps = 16384)
    (hfl : stm.dev.fl_start ≤ stm.dev.fl_end)
    (hn1 : g.npages ≤ 0xFFFF) (hsp : spage = 0)
    (hge : (stm.dev.fl_end : Int) - stm.dev.fl_start ≤
      ws_count stm g tmp_start spage readwrite_len * stm.dev.fl_ps) :
    ws_npages stm g tmp_start spage readwrite_len = 0xFFFF := by
  have hb := ws_count_bound stm g tmp_start spage readwrite_len hps hn1
  rw [ws_npages_eq _ _ _ _ _ hm, if_pos]
  refine ⟨hsp, ?_⟩
  generalize ws_count stm g tmp_start spage readwrite_len * (stm.dev.fl_ps : Int) = y at hb hge
  have e1 := to_u32_to_i32 y (by omega) hb
  have e2 := to_u32_id ((stm.dev.fl_end : Int) - stm.dev.fl_start) (by omega) (by omega)
  omega

/-- C11: for every device of the table and every Flash workspace (page count option at
most 0xFFFF), when the resolved start page is 0 and the page count, given or
computed from the byte range, times `fl_ps` is at least `fl_end - fl_start`,
`calc_workspace` leaves `npages` equal to 0xFFFF; a given page count is the count used;
and a Flash workspace with no selectors resolves to start page 0 and `npages` 0xFFFF. -/
theorem mass_erase_collapse (stm : stm32_t) (g : Globals) (hdev : stm.dev ∈ catalog)
    (hm : g.mem_type = MEM_TYPE_FLASH) (hn1 : g.npages ≤ 0xFFFF) :
    ((calc_workspace stm g).2.spage = 0 →
      (stm.dev.fl_end : Int) - stm.dev.fl_start ≤
        ws_count stm g (ws_start stm g stm.dev.fl_start) (calc_workspace stm g).2.spage
          (calc_workspace stm g).2.readwrite_len * stm.dev.fl_ps →
      (calc_workspace stm g).2.npages = 0xFFFF) ∧
    (g.npages ≠ 0 →
      ws_count stm g (ws_start stm g stm.dev.fl_start) (calc_workspace stm g).2.spage
        (calc_workspace stm g).2.readwrite_len = g.npages) ∧
    (g.spage < 0 → g.npages = 0 → g.readwrite_len = 0 → g.start_addr = 0 →
      g.relative_addr = true →
      (calc_workspace stm g).2.spage = 0 ∧ (calc_workspace stm g).2.npages = 0xFFFF) := by
  obtain ⟨hF, hps, hlt, hE, -⟩ := catalog_flash stm.dev hdev
  obtain ⟨h0, hall⟩ := flash_allowed stm g hm
  rw [calc_workspace_globals stm g _ _ h0 hall]
  simp only [ws_globals]
  refine ⟨?_, ?_, ?_⟩
  · intro hsp hge
    exact collapse_of_ge stm g _ _ _ hm hps (by omega) hn1 hsp hge
  · intro hn
    unfold ws_count
    rw [if_neg hn]
  · intro hpg hn hl hz hrel
    have hst : ws_start stm g stm.dev.fl_start = stm.dev.fl_start := by
      unfold ws_start
      rw [if_neg (by omega), if_pos hrel, hz]
      unfold to_u32
      omega
    have hsp : ws_spage stm g stm.dev.fl_start = 0 := by
      unfold ws_spage
      rw [if_neg (by omega), if_pos hm]
      have e : to_u32 ((stm.dev.fl_start : Int) - stm.dev.fl_start) = 0 := by
        unfold to_u32
        omega
      rw [e, Nat.zero_div]
      rfl
    have hrl : ws_rlen stm g stm.dev.fl_start stm.dev.fl_end =
        stm.dev.fl_end - stm.dev.fl_start := by
      unfold ws_rlen ws_end
      rw [ws_len_default stm g _ _ hl hn, hst]
      simp only [ne_eq, not_true_eq_false, if_false]
      unfold to_u32
      omega
    rw [hst, hsp, hrl]
    refine ⟨rfl, ?_⟩
    apply collapse_of_ge stm g _ _ _ hm hps (by omega) hn1 rfl
    unfold ws_count
    rw [if_pos hn]
    have e0 : (0 : Int) * (stm.dev.fl_ps : Int) = ((0 : Nat) : Int) := by simp
    rw [e0, count_exact stm.dev.fl_start stm.dev.fl_start (stm.dev.fl_end - stm.dev.fl_start) 0
      stm.dev.fl_ps (by omega) (by omega) (by omega)]
    rcases hps with h | h | h | h <;> rw [h] <;> push_cast <;> omega

/-- C11 at product ID 0x410: no selectors, and start page 0 with the page count 128
given (128 pages of 1024 bytes are the whole flash). -/
theorem mass_erase_collapse_witness :
    (sample_stm.dev ∈ catalog ∧ MEM_TYPE_FLASH = MEM_TYPE_FLASH ∧ (0 : Int) ≤ 0xFFFF ∧
      (128 : Int) ≤ 0xFFFF) ∧
    ((calc_workspace sample_stm
        ⟨MEM_TYPE_FLASH, true, 0, -1, 0, 0, EXEC_FLAG_NONE, 0⟩).2.spage = 0 ∧
      (calc_workspace sample_stm
        ⟨MEM_TYPE_FLASH, true, 0, -1, 0, 0, EXEC_FLAG_NONE, 0⟩).2.npages = 0xFFFF) ∧
    (calc_workspace sample_stm
      ⟨MEM_TYPE_FLASH, true, 128, 0, 0, 0, EXEC_FLAG_NONE, 0⟩).2.npages = 0xFFFF :=
  ⟨by decide,
    (mass_erase_collapse sample_stm ⟨MEM_TYPE_FLASH, true, 0, -1, 0, 0, EXEC_FLAG_NONE, 0⟩
      (by decide) rfl (by decide)).2.2 (by decide) rfl rfl rfl rfl,
    (mass_erase_collapse sample_stm ⟨MEM_TYPE_FLASH, true, 128, 0, 0, 0, EXEC_FLAG_NONE, 0⟩
      (by decide) rfl (by decide)).1 (by decide) (by decide)⟩

theorem to_u32_sub (a b : Nat) (h : b ≤ a) (ha : a < 4294967296) :
    to_u32 ((a : Int) - b) = a - b := by
  unfold to_u32
  omega

/-- The arithmetic of the page count: with `c` one more than the quotient of
`off + L - 1` by the page size, `c` pages from the start page reach the end of the
range and no smaller number does. -/
theorem pages_cover (ps off L base : Nat)
    (hps : ps = 256 ∨ ps = 1024 ∨ ps = 2048 ∨ ps = 16384) (hL : 1 ≤ L) :
    (off + L - 1) / ps + 1 = (off + L + ps - 1) / ps ∧
    base + off + L ≤ base + ((off + L - 1) / ps + 1) * ps ∧
    (∀ n, base + off + L ≤ base + n * ps → (off + L - 1) / ps + 1 ≤ n) ∧
    ((off + L - 1) / ps + 1) * ps ≤ off + L - 1 + ps := by
  rcases hps with h | h | h | h <;> subst h <;>
    refine ⟨by omega, by omega, fun n hn => by omega, by omega⟩

/-- C12, as the code has it: for a device of the table, Flash, no page count given, and
a successful `calc_workspace` whose resolved start lies inside flash and whose resolved
length `L` is at least 1 with `start + L <= fl_end` (the product of a given page and the
page size within the `int` range): the resolved start page `P` is `(start - fl_start) / fl_ps`
when no page was given and the given page otherwise; with `off` the offset of the start
into page `P`, `npages` is `count = ceil((off + L) / fl_ps)` unless it collapses to
0xFFFF (start page 0 and `count * fl_ps >= fl_end - fl_start`); the end is `start + L`,
`count` pages from `P` reach it, and no smaller number of pages does. -/
theorem flash_page_count (stm : stm32_t) (g : Globals) (start end_addr : Nat)
    (hdev : stm.dev ∈ catalog) (hm : g.mem_type = MEM_TYPE_FLASH) (hn : g.npages = 0)
    (hp : g.spage * stm.dev.fl_ps < 2 ^ 31)
    (h : (calc_workspace stm g).1 = some (start, end_addr))
    (hin : start < stm.dev.fl_end)
    (hL : 1 ≤ (calc_workspace stm g).2.readwrite_len)
    (hend : start + (calc_workspace stm g).2.readwrite_len ≤ stm.dev.fl_end) :
    ∃ P off count : Nat,
      (calc_workspace stm g).2.spage = P ∧
      (g.spage < 0 → P = (start - stm.dev.fl_start) / stm.dev.fl_ps) ∧
      (0 ≤ g.spage → (P : Int) = g.spage) ∧
      stm.dev.fl_start + P * stm.dev.fl_ps + off = start ∧ off < stm.dev.fl_ps ∧
      count = (off + (calc_workspace stm g).2.readwrite_len + stm.dev.fl_ps - 1) /
        stm.dev.fl_ps ∧
      (calc_workspace stm g).2.npages =
        (if P = 0 ∧ stm.dev.fl_end - stm.dev.fl_start ≤ count * stm.dev.fl_ps then 0xFFFF
          else (count : Int)) ∧
      end_addr = start + (calc_workspace stm g).2.readwrite_len ∧
      start + (calc_workspace stm g).2.readwrite_len ≤
        stm.dev.fl_start + (P + count) * stm.dev.fl_ps ∧
      (∀ n, start + (calc_workspace stm g).2.readwrite_len ≤
          stm.dev.fl_start + (P + n) * stm.dev.fl_ps → count ≤ n) := by
  obtain ⟨hF, hps, hlt, hE, -⟩ := catalog_flash stm.dev hdev
  obtain ⟨h0, hall⟩ := flash_allowed stm g hm
  obtain ⟨as, ae, hall2, -, hst, hen, h1, -, -⟩ := calc_workspace_some stm g start end_addr h
  rw [hall] at hall2
  simp only [Option.some.injEq, Prod.mk.injEq] at hall2
  obtain ⟨ha, hb⟩ := hall2
  subst ha hb
  rw [calc_workspace_globals stm g _ _ h0 hall] at hL hend ⊢
  simp only [ws_globals] at hL hend ⊢
  rw [← hst]
  -- the end
  have hws : ws_start stm g stm.dev.fl_start = start := hst.symm
  have hrl : (ws_len stm g stm.dev.fl_start stm.dev.fl_end = 0 →
        ws_end stm g stm.dev.fl_start stm.dev.fl_end = stm.dev.fl_end ∧
        ws_rlen stm g stm.dev.fl_start stm.dev.fl_end = stm.dev.fl_end - start) ∧
      (ws_len stm g stm.dev.fl_start stm.dev.fl_end ≠ 0 →
        ws_end stm g stm.dev.fl_start stm.dev.fl_end =
          (start + ws_rlen stm g stm.dev.fl_start stm.dev.fl_end) % 2 ^ 32) := by
    unfold ws_rlen ws_end
    rw [hws]
    constructor
    · intro hw
      rw [if_neg (by simpa using hw), if_neg (by simpa using hw)]
      exact ⟨rfl, to_u32_sub _ _ (by omega) (by omega)⟩
    · intro hw
      rw [if_pos hw, if_pos hw, to_u32_add]
  rw [hen]
  generalize ws_rlen stm g stm.dev.fl_start stm.dev.fl_end = L at hL hend hrl ⊢
  have hend2 : ws_end stm g stm.dev.fl_start stm.dev.fl_end = start + L := by
    by_cases hw : ws_len stm g stm.dev.fl_start stm.dev.fl_end = 0
    · obtain ⟨e1, e2⟩ := hrl.1 hw
      rw [e1, e2]
      omega
    · rw [hrl.2 hw, Nat.mod_eq_of_lt (by omega)]
  -- the start page
  have hP : ∃ P : Nat, ws_spage stm g start = P ∧
      (g.spage < 0 → P = (start - stm.dev.fl_start) / stm.dev.fl_ps) ∧
      (0 ≤ g.spage → (P : Int) = g.spage) ∧
      stm.dev.fl_start + P * stm.dev.fl_ps ≤ start ∧
      start - (stm.dev.fl_start + P * stm.dev.fl_ps) < stm.dev.fl_ps := by
    by_cases hpg : 0 ≤ g.spage
    · obtain ⟨P, hPe⟩ : ∃ P : Nat, g.spage = P := ⟨g.spage.toNat, by omega⟩
      refine ⟨P, ?_, fun hc => by omega, fun _ => hPe.symm, ?_⟩
      · unfold ws_spage
        rw [if_pos hpg, hPe]
      · unfold ws_start at hst
        rw [if_pos hpg, hPe] at hst
        rw [hPe] at hp
        have hc : ((P : Int) * (stm.dev.fl_ps : Int)) = ((P * stm.dev.fl_ps : Nat) : Int) := by
          push_cast
          rfl
        rw [hc] at hst hp
        generalize P * stm.dev.fl_ps = q at hst hp ⊢
        rw [to_i32_id _ (by omega) (by omega)] at hst
        unfold to_u32 at hst
        omega
    · refine ⟨(start - stm.dev.fl_start) / stm.dev.fl_ps, ?_, fun _ => rfl,
        fun hc => absurd hc hpg, ?_⟩
      · unfold ws_spage
        rw [if_neg hpg, if_pos hm, to_u32_sub _ _ h1 (by omega)]
        have hd : (start - stm.dev.fl_start) / stm.dev.fl_ps ≤ start - stm.dev.fl_start :=
          Nat.div_le_self _ _
        generalize (start - stm.dev.fl_start) / stm.dev.fl_ps = d at hd ⊢
        exact to_i32_id _ (by omega) (by omega)
      · have hdm := Nat.div_add_mod (start - stm.dev.fl_start) stm.dev.fl_ps
        have hml : (start - stm.dev.fl_start) % stm.dev.fl_ps < stm.dev.fl_ps :=
          Nat.mod_lt _ (by omega)
        rw [Nat.mul_comm] at hdm
        generalize (start - stm.dev.fl_start) / stm.dev.fl_ps * stm.dev.fl_ps = q at hdm ⊢
        omega
  obtain ⟨P, hPs, hPa, hPb, hq, hoff⟩ := hP
  have hcov := pages_cover stm.dev.fl_ps (start - (stm.dev.fl_start + P * stm.dev.fl_ps)) L
    (stm.dev.fl_start + P * stm.dev.fl_ps) hps hL
  refine ⟨P, start - (stm.dev.fl_start + P * stm.dev.fl_ps),
    (start - (stm.dev.fl_start + P * stm.dev.fl_ps) + L - 1) / stm.dev.fl_ps + 1,
    hPs, hPa, hPb, by omega, hoff, hcov.1, ?_, hend2, ?_, ?_⟩
  · rw [hPs, ws_npages_eq _ _ _ _ _ hm]
    have hcnt : ws_count stm g start P L =
        (((start - (stm.dev.fl_start + P * stm.dev.fl_ps) + L - 1) / stm.dev.fl_ps + 1 : Nat) :
          Int) := by
      unfold ws_count
      rw [if_pos hn]
      have hc : ((P : Int) * (stm.dev.fl_ps : Int)) = ((P * stm.dev.fl_ps : Nat) : Int) := by
        push_cast
        rfl
      rw [hc]
      exact count_exact stm.dev.fl_start start L (P * stm.dev.fl_ps) stm.dev.fl_ps hq hL
        (by omega)
    rw [hcnt]
    have hb := hcov.2.2.2
    generalize (start - (stm.dev.fl_start + P * stm.dev.fl_ps) + L - 1) / stm.dev.fl_ps + 1 = c
      at hb ⊢
    have hcp : ((c : Int) * (stm.dev.fl_ps : Int)) = ((c * stm.dev.fl_ps : Nat) : Int) := by
      push_cast
      rfl
    rw [hcp]
    generalize c * stm.dev.fl_ps = y at hb ⊢
    have e1 : to_u32 (to_i32 (y : Int)) = y := by
      have e := to_u32_to_i32 (y : Int) (by omega) (by omega)
      omega
    rw [e1, to_u32_sub _ _ (by omega) (by omega)]
    by_cases hcond : P = 0 ∧ stm.dev.fl_end - stm.dev.fl_start ≤ y
    · rw [if_pos hcond, if_pos ⟨by omega, hcond.2⟩]
    · rw [if_neg hcond, if_neg]
      intro hc2
      exact hcond ⟨by omega, hc2.2⟩
  · have hc2 := hcov.2.1
    rw [Nat.add_mul]
    generalize ((start - (stm.dev.fl_start + P * stm.dev.fl_ps) + L - 1) / stm.dev.fl_ps + 1) *
      stm.dev.fl_ps = y at hc2 ⊢
    omega
  · intro n hn2
    apply hcov.2.2.1 n
    rw [Nat.add_mul] at hn2
    omega

/-- C12 at product ID 0x410 and `-S +0x500:0x800`: the range `[0x08000500, 0x08000D00)`
starts 0x100 bytes into page 1 and takes the three pages 1, 2 and 3. -/
theorem flash_page_count_witness :
    (sample_stm.dev ∈ catalog ∧ MEM_TYPE_FLASH = MEM_TYPE_FLASH ∧ (0 : Int) = 0 ∧
      (-1 : Int) * sample_stm.dev.fl_ps < 2 ^ 31 ∧
      (calc_workspace sample_stm 
        ⟨MEM_TYPE_FLASH, true, 0, -1, 0x800, 0x500, EXEC_FLAG_NONE, 0⟩).1 = some (0x08000500, 0x08000D00) ∧
      0x08000500 < sample_stm.dev.fl_end ∧
      1 ≤ (calc_workspace sample_stm 
        ⟨MEM_TYPE_FLASH, true, 0, -1, 0x800, 0x500, EXEC_FLAG_NONE, 0⟩).2.readwrite_len ∧
      0x08000500 + (calc_workspace sample_stm 
        ⟨MEM_TYPE_FLASH, true, 0, -1, 0x800, 0x500, EXEC_FLAG_NONE, 0⟩).2.readwrite_len ≤ sample_stm.dev.fl_end) ∧
    (∃ P off count : Nat,
      (calc_workspace sample_stm 
        ⟨MEM_TYPE_FLASH, true, 0, -1, 0x800, 0x500, EXEC_FLAG_NONE, 0⟩).2.spage = P ∧
      ((-1 : Int) < 0 → P = (0x08000500 - sample_stm.dev.fl_start) / sample_stm.dev.fl_ps) ∧
      (0 ≤ (-1 : Int) → (P : Int) = -1) ∧
      sample_stm.dev.fl_start + P * sample_stm.dev.fl_ps + off = 0x08000500 ∧
      off < sample_stm.dev.fl_ps ∧
      count = (off + (calc_workspace sample_stm 
        ⟨MEM_TYPE_FLASH, true, 0, -1, 0x800, 0x500, EXEC_FLAG_NONE, 0⟩).2.readwrite_len + sample_stm.dev.fl_ps - 1) /
        sample_stm.dev.fl_ps ∧
      (calc_workspace sample_stm 
        ⟨MEM_TYPE_FLASH, true, 0, -1, 0x800, 0x500, EXEC_FLAG_NONE, 0⟩).2.npages =
        (if P = 0 ∧ sample_stm.dev.fl_end - sample_stm.dev.fl_start ≤
            count * sample_stm.dev.fl_ps then 0xFFFF
          else (count : Int)) ∧
      0x08000D00 = 0x08000500 + (calc_workspace sample_stm 
        ⟨MEM_TYPE_FLASH, true, 0, -1, 0x800, 0x500, EXEC_FLAG_NONE, 0⟩).2.readwrite_len ∧
      0x08000500 + (calc_workspace sample_stm 
        ⟨MEM_TYPE_FLASH, true, 0, -1, 0x800, 0x500, EXEC_FLAG_NONE, 0⟩).2.readwrite_len ≤
        sample_stm.dev.fl_start + (P + count) * sample_stm.dev.fl_ps ∧
      (∀ n, 0x08000500 + (calc_workspace sample_stm 
        ⟨MEM_TYPE_FLASH, true, 0, -1, 0x800, 0x500, EXEC_FLAG_NONE, 0⟩).2.readwrite_len ≤
          sample_stm.dev.fl_start + (P + n) * sample_stm.dev.fl_ps → count ≤ n)) ∧
    (calc_workspace sample_stm 
        ⟨MEM_TYPE_FLASH, true, 0, -1, 0x800, 0x500, EXEC_FLAG_NONE, 0⟩).2.spage = 1 ∧
    (calc_workspace sample_stm 
        ⟨MEM_TYPE_FLASH, true, 0, -1, 0x800, 0x500, EXEC_FLAG_NONE, 0⟩).2.npages = 3 :=
  ⟨by decide,
    flash_page_count sample_stm 
        ⟨MEM_TYPE_FLASH, true, 0, -1, 0x800, 0x500, EXEC_FLAG_NONE, 0⟩ 0x08000500 0x08000D00 (by decide) rfl rfl (by decide)
      (by decide) (by decide) (by decide) (by decide),
    by decide, by decide⟩

/-- C12 as stated fails, on product ID 0x410 (flash `[0x08000000, 0x08020000)`, pages of
1024 bytes).  With `-S 0x08000020:0xFFFFFFF0` the call succeeds with the start
0x08000020 inside flash, the length 0xFFFFFFF0 and the end 0x08000010 below the end of
flash (the 32-bit sum has wrapped), start page 0 and page count 1, not the sentinel
and not `ceil((0x20 + 0xFFFFFFF0) / 1024) = 4194305`.  With `-s 4194304` the product
of the page and the page size wraps to 0: the call succeeds with the whole flash as
its range, start page 4194304 and page count 128, where no page from 4194304 on lies in
the range and the least `n` with `fl_start + (start_page + n) * 1024 >= end` is 0. -/
theorem flash_page_count_wraps :
    ((calc_workspace sample_stm
        ⟨MEM_TYPE_FLASH, false, 0, -1, 0xFFFFFFF0, 0x08000020, EXEC_FLAG_NONE, 0⟩).1 =
        some (0x08000020, 0x08000010) ∧
      (calc_workspace sample_stm
        ⟨MEM_TYPE_FLASH, false, 0, -1, 0xFFFFFFF0, 0x08000020, EXEC_FLAG_NONE, 0⟩).2.readwrite_len
        = 0xFFFFFFF0 ∧
      (calc_workspace sample_stm
        ⟨MEM_TYPE_FLASH, false, 0, -1, 0xFFFFFFF0, 0x08000020, EXEC_FLAG_NONE, 0⟩).2.spage = 0 ∧
      (calc_workspace sample_stm
        ⟨MEM_TYPE_FLASH, false, 0, -1, 0xFFFFFFF0, 0x08000020, EXEC_FLAG_NONE, 0⟩).2.npages = 1 ∧
      sample_stm.dev.fl_start ≤ 0x08000020 ∧ 0x08000020 < sample_stm.dev.fl_end ∧
      0x08000010 ≤ sample_stm.dev.fl_end ∧
      (0x08000020 - sample_stm.dev.fl_start) / sample_stm.dev.fl_ps = 0 ∧
      (0x20 + 0xFFFFFFF0 + sample_stm.dev.fl_ps - 1) / sample_stm.dev.fl_ps = 4194305) ∧
    ((calc_workspace sample_stm
        ⟨MEM_TYPE_FLASH, false, 0, 4194304, 0, 0, EXEC_FLAG_NONE, 0⟩).1 =
        some (0x08000000, 0x08020000) ∧
      (calc_workspace sample_stm
        ⟨MEM_TYPE_FLASH, false, 0, 4194304, 0, 0, EXEC_FLAG_NONE, 0⟩).2.readwrite_len =
        0x20000 ∧
      (calc_workspace sample_stm
        ⟨MEM_TYPE_FLASH, false, 0, 4194304, 0, 0, EXEC_FLAG_NONE, 0⟩).2.spage = 4194304 ∧
      (calc_workspace sample_stm
        ⟨MEM_TYPE_FLASH, false, 0, 4194304, 0, 0, EXEC_FLAG_NONE, 0⟩).2.npages = 128 ∧
      0x08000000 + 0x20000 = sample_stm.dev.fl_end ∧
      0x08020000 ≤ sample_stm.dev.fl_start + (4194304 + 0) * sample_stm.dev.fl_ps) := by
  decide

/-! ## The workspace resolver: the output globals -/

theorem calc_workspace_start_addr (stm : stm32_t) (g : Globals) :
    (calc_workspace stm g).2.start_addr = g.start_addr := by
  unfold calc_workspace
  by_cases h0 : g.mem_type ≠ MEM_TYPE_FLASH ∧ (g.spage ≥ 0 ∨ g.npages > 0)
  · rw [if_pos h0]
  · rw [if_neg h0]
    cases hall : calc_allowed stm g.mem_type with
    | none => rfl
    | some ae =>
      obtain ⟨allowed_start, allowed_end⟩ := ae
      simp only []
      split_ifs <;> rfl

/-- C25, the failing input: for product ID 0x410, RAM and the relative address 0x1000
with length 100 (`-Mr -S +0x1000:100`), `calc_workspace` succeeds and writes the absolute
start 0x20001200 to `*start`, but the global `start_addr` still holds the relative value
0x1000; no call of `calc_workspace` changes `start_addr`. -/
theorem start_addr_left_relative :
    (calc_workspace sample_stm
      ⟨MEM_TYPE_RAM, true, 0, -1, 100, 0x1000, EXEC_FLAG_NONE, 0⟩).1 =
        some (0x20001200, 0x20001264) ∧
    (calc_workspace sample_stm
      ⟨MEM_TYPE_RAM, true, 0, -1, 100, 0x1000, EXEC_FLAG_NONE, 0⟩).2.start_addr = 0x1000 ∧
    (calc_workspace sample_stm
      ⟨MEM_TYPE_FLASH, true, 0, 5, 0, 0, EXEC_FLAG_NONE, 0⟩).1 =
        some (0x08001400, 0x08020000) ∧
    (calc_workspace sample_stm
      ⟨MEM_TYPE_FLASH, true, 0, 5, 0, 0, EXEC_FLAG_NONE, 0⟩).2.start_addr = 0 ∧
    ∀ (stm : stm32_t) (g : Globals), (calc_workspace stm g).2.start_addr = g.start_addr :=
  ⟨by decide, by decide, by decide, by decide, calc_workspace_start_addr⟩

theorem ws_rlen_matches (stm : stm32_t) (g : Globals) (allowed_start allowed_end : Nat)
    (hl : g.readwrite_len < 2 ^ 32) :
    to_u32 ((ws_end stm g allowed_start allowed_end : Int) - ws_start stm g allowed_start) =
      ws_rlen stm g allowed_start allowed_end := by
  have hw := ws_len_lt stm g allowed_start allowed_end hl
  unfold ws_rlen ws_end
  generalize ws_len stm g allowed_start allowed_end = w at hw ⊢
  generalize ws_start stm g allowed_start = t
  by_cases hz : w = 0
  · rw [if_neg (by simpa using hz), if_neg (by simpa using hz)]
  · rw [if_pos hz, if_pos hz]
    unfold to_u32
    omega

theorem skip_bytes_run (extra : List Nat) :
    ∀ (s i : List Nat) (c : Nat),
      skip_bytes extra.length ⟨s, extra ++ i, c⟩ = Res.ret () ⟨s, i, c⟩ := by
  induction extra with
  | nil => intro s i c; rfl
  | cons b rest ih =>
    intro s i c
    rw [List.length_cons, skip_bytes, List.cons_append, read_bind]
    exact ih s i c

theorem skip_or_not (k : Nat) : (if k > 0 then skip_bytes k else pure ()) = skip_bytes k := by
  cases k with
  | zero => rfl
  | succ k => rw [if_pos (Nat.succ_pos k)]

theorem init_get_long_run (n bl_version : Nat) (cmd : stm32_cmd) (extra : List Nat)
    (last : Nat) (s i : List Nat) (c : Nat) (h1 : 11 ≤ n) (h2 : n ≤ 255)
    (he : extra.length = n - 11) (h : 2 ≤ c) :
    init_get ⟨s, get_reply_long n bl_version cmd extra last ++ i, c⟩ =
      Res.ret (if last = STM32_ACK then some (bl_version, cmd) else none)
        ⟨s ++ cmd_bytes STM32_CMD_GET, i, c - 2⟩ := by
  have hk : ((n + 1) % 256 + 12 * 255) % 256 = extra.length := by omega
  unfold init_get get_reply_long opcode_bytes
  simp only [List.cons_append, List.nil_append, List.append_assoc]
  rw [command_bind _ _ _ _ _ _ h]
  simp only [decide_True]
  rw [if_neg (by decide)]
  simp only [read_bind]
  rw [skip_or_not, hk, bind_apply, skip_bytes_run]
  simp only []
  rw [read_bind]
  by_cases hl : last = STM32_ACK
  · rw [if_neg (by simpa using hl), if_pos hl]
    rfl
  · rw [if_pos hl, if_neg hl]
    rfl

theorem init_session_after_get (bl_version : Nat) (cmd : stm32_cmd)
    (version option1 option2 p : Nat) (hp : p < 65536) (q : Port) (s i : List Nat) (c : Nat)
    (h : 4 ≤ c)
    (hget : init_get q = Res.ret (some (bl_version, cmd))
      ⟨s, gvr_reply version option1 option2 ++ (gid_reply p ++ i), c⟩) :
    init_session q =
      Res.ret ((init_select p).map
          (fun dev => ⟨bl_version, version, option1, option2, p, cmd, dev⟩))
        ⟨s ++ cmd_bytes cmd.gvr ++ cmd_bytes cmd.gid, i, c - 4⟩ := by
  unfold init_session
  rw [bind_apply, hget]
  simp only []
  rw [bind_apply, init_gvr_run _ _ _ _ _ _ _ (by omega)]
  simp only []
  rw [bind_apply, init_gid_run _ _ hp _ _ _ (by omega)]
  simp only []
  cases init_select p with
  | none => simp [pure_apply, Nat.sub_sub]
  | some dev => simp [pure_apply, Nat.sub_sub]

/-- C24: in the GET step, for every count byte `N` with `11 <= N <= 255`, after the
version and the eleven opcodes `stm32_init` reads and drops exactly `N - 11` further
bytes (for `N = 255` too, where the 8-bit `len = N + 1` is 0 and the twelve decrements
bring it to 244) and takes the byte after them as the closing reply: the step succeeds
iff that byte is ACK, whatever the extra bytes are, and a handshake that goes on with
the version and ID replies returns the same session as without extra bytes. -/
theorem get_extra_bytes_skipped (n : Nat) (h1 : 11 ≤ n) (h2 : n ≤ 255) (extra : List Nat)
    (he : extra.length = n - 11) :
    ((n + 1) % 256 + 12 * 255) % 256 = n - 11 ∧
    (∀ (bl_version : Nat) (cmd : stm32_cmd) (last : Nat) (s i : List Nat) (c : Nat), 2 ≤ c →
      init_get ⟨s, get_reply_long n bl_version cmd extra last ++ i, c⟩ =
        Res.ret (if last = STM32_ACK then some (bl_version, cmd) else none)
          ⟨s ++ cmd_bytes STM32_CMD_GET, i, c - 2⟩) ∧
    (∀ (bl_version : Nat) (cmd : stm32_cmd) (version option1 option2 p : Nat)
        (s i : List Nat) (c : Nat), p < 65536 → 7 ≤ c →
      stm32_init true ⟨s, STM32_ACK :: (get_reply_long n bl_version cmd extra STM32_ACK ++
          gvr_reply version option1 option2 ++ gid_reply p ++ i), c⟩ =
        Res.ret ((init_select p).map
            (fun dev => ⟨bl_version, version, option1, option2, p, cmd, dev⟩))
          ⟨s ++ STM32_CMD_INIT ::
            (cmd_bytes STM32_CMD_GET ++ cmd_bytes cmd.gvr ++ cmd_bytes cmd.gid),
            i, c - 7⟩) := by
  refine ⟨by omega, ?_, ?_⟩
  · intro bl_version cmd last s i c hc
    exact init_get_long_run n bl_version cmd extra last s i c h1 h2 he hc
  · intro bl_version cmd version option1 option2 p s i c hp hc
    have hget := init_get_long_run n bl_version cmd extra STM32_ACK (s ++ [STM32_CMD_INIT])
      (gvr_reply version option1 option2 ++ (gid_reply p ++ i)) (c - 1) h1 h2 he (by omega)
    rw [if_pos rfl] at hget
    unfold stm32_init
    rw [if_pos rfl, bind_apply, init_sync_reply _ _ _ _ _ (by omega)]
    simp only []
    rw [if_neg (by decide), if_neg (by decide), List.append_assoc, List.append_assoc,
      init_session_after_get bl_version cmd version option1 option2 p hp _ _ i _ (by omega) hget]
    simp [Nat.sub_sub]

/-- C24 at the counts 255 (244 extra bytes, the 8-bit length wraps) and 13. -/
theorem get_extra_bytes_skipped_witness :
    (11 ≤ 255 ∧ 255 ≤ 255 ∧ (List.replicate 244 0x55).length = 255 - 11 ∧ 2 ≤ 2 ∧
      11 ≤ 13 ∧ 13 ≤ 255 ∧ [0x01, 0x02].length = 13 - 11) ∧
    ((255 + 1) % 256 = 0 ∧ ((255 + 1) % 256 + 12 * 255) % 256 = 255 - 11) ∧
    init_get ⟨[], get_reply_long 255 0x22 sample_cmd (List.replicate 244 0x55) STM32_ACK ++
        [0x77], 2⟩ =
      Res.ret (if STM32_ACK = STM32_ACK then some (0x22, sample_cmd) else none)
        ⟨[] ++ cmd_bytes STM32_CMD_GET, [0x77], 2 - 2⟩ ∧
    init_get ⟨[], get_reply_long 13 0x22 sample_cmd [0x01, 0x02] STM32_NACK ++ [], 2⟩ =
      Res.ret (if STM32_NACK = STM32_ACK then some (0x22, sample_cmd) else none)
        ⟨[] ++ cmd_bytes STM32_CMD_GET, [], 2 - 2⟩ :=
  ⟨⟨by decide, by decide, List.length_replicate 244 0x55, by decide, by decide, by decide,
      by decide⟩,
    ⟨by decide, (get_extra_bytes_skipped 255 (by decide) (by decide) (List.replicate 244 0x55)
      (List.length_replicate 244 0x55)).1⟩,
    (get_extra_bytes_skipped 255 (by decide) (by decide) (List.replicate 244 0x55)
      (List.length_replicate 244 0x55)).2.1 0x22 sample_cmd STM32_ACK [] [0x77] 2 (by decide),
    (get_extra_bytes_skipped 13 (by decide) (by decide) [0x01, 0x02] (by decide)).2.1
      0x22 sample_cmd STM32_NACK [] [] 2 (by decide)⟩

/-! ## The page loop of the regular erase -/

theorem erase_loop8_never (bound : Nat) (hb : 256 ≤ bound) (fuel : Nat) :
    ∀ (pg cs : Nat) (p : Port) (r : Nat) (q : Port), pg < 256 →
      erase_loop8 bound fuel pg cs p ≠ some (Res.ret r q) := by
  induction fuel with
  | zero =>
    intro pg cs p r q _ h
    simp [erase_loop8] at h
  | succ n ih =>
    intro pg cs p r q hpg h
    rw [erase_loop8, if_pos (by omega)] at h
    cases hs : stm32_send_byte pg p with
    | halt t =>
      rw [hs] at h
      cases h
    | ret u t =>
      rw [hs] at h
      exact ih _ _ _ _ _ (Nat.mod_lt _ (by decide)) h

theorem erase_loop8_spins (bound : Nat) (hb : 256 ≤ bound) (fuel : Nat) :
    ∀ (pg cs : Nat) (s i : List Nat) (c : Nat), pg < 256 → fuel ≤ c →
      erase_loop8 bound fuel pg cs ⟨s, i, c⟩ = none := by
  induction fuel with
  | zero =>
    intro pg cs s i c _ _
    rfl
  | succ n ih =>
    intro pg cs s i c hpg hc
    rw [erase_loop8, if_pos (by omega), send_byte_run _ _ _ _ (by omega)]
    exact ih _ _ _ _ _ (Nat.mod_lt _ (by decide)) (by omega)

theorem regular_erase_never (fuel : Nat) (stm : stm32_t) (spage pages : Nat) (p t : Port)
    (her : stm.cmd.er ≠ STM32_CMD_EE) (hs : spage < 65536) (hp : pages < 65536)
    (h1 : 1 ≤ pages) (hm : pages ≠ 0xFFFF)
    (h2 : 256 ≤ spage + pages) (hsc : stm32_send_command stm.cmd.er p = Res.ret true t)
    (b : Bool) (q : Port) :
    stm32_erase_memory fuel stm spage pages p ≠ some (Res.ret b q) := by
  intro h
  unfold stm32_erase_memory at h
  simp only [] at h
  rw [Nat.mod_eq_of_lt hs, Nat.mod_eq_of_lt hp] at h
  rw [if_neg (by omega), hsc] at h
  simp only [] at h
  rw [if_neg her, if_neg hm] at h
  cases hb : stm32_send_byte (pages - 1) t with
  | halt u =>
    rw [hb] at h
    cases h
  | ret x u =>
    rw [hb] at h
    simp only [] at h
    cases hl : erase_loop8 (pages + spage) fuel (spage % 256) ((0 ^^^ (pages - 1)) % 256) u with
    | none =>
      rw [hl] at h
      cases h
    | some res =>
      cases res with
      | halt v =>
        rw [hl] at h
        cases h
      | ret cs v =>
        exact erase_loop8_never (pages + spage) (by omega) fuel _ _ _ _ _
          (Nat.mod_lt _ (by decide)) hl

/-- C26: in the regular erase (opcode other than 0x44) on a device that acknowledges the
command and a line that takes the frame, let `spage` and `pages` be the start page and
the page count as `stm32_erase_memory` receives them (its arguments `a` and `b` modulo
65536, the parameters being `uint16_t`), `pages` neither 0 nor 0xFFFF.  The page loop
with its 8-bit counter ends iff `spage + pages <= 255`.  When it ends it has sent
exactly the `pages` page bytes `spage ..`, and the call returns with the frame of those
bytes.  Otherwise every value of the counter is below the bound, the loop is not left
by its condition whatever the line does, it is still running after any number of steps
the line has room for, and `stm32_erase_memory` never returns. -/
theorem regular_erase_loop_ends_iff (stm : stm32_t) (spage pages r : Nat) (s i : List Nat)
    (c : Nat) (her : stm.cmd.er ≠ STM32_CMD_EE) (h1 : 1 ≤ pages) (hm : pages ≠ 0xFFFF)
    (hc : pages + 4 ≤ c) :
    (spage + pages ≤ 255 → ∀ fuel cs, pages < fuel →
      erase_loop8 (pages + spage) fuel (spage % 256) cs ⟨s, i, c⟩ =
        some (Res.ret ((List.range' spage pages).foldl (fun c b => (c ^^^ b) % 256) cs)
          ⟨s ++ List.range' spage pages, i, c - pages⟩) ∧
      (List.range' spage pages).length = pages) ∧
    (256 ≤ spage + pages →
      (∀ pg, pg < 256 → pg < pages + spage) ∧
      (∀ fuel pg cs p x q, pg < 256 →
        erase_loop8 (pages + spage) fuel pg cs p ≠ some (Res.ret x q)) ∧
      (∀ fuel cs, fuel ≤ c →
        erase_loop8 (pages + spage) fuel (spage % 256) cs ⟨s, i, c⟩ = none)) ∧
    (∀ a b, a % 65536 = spage → b % 65536 = pages →
      ((∃ fuel ok q, stm32_erase_memory fuel stm a b ⟨s, STM32_ACK :: r :: i, c⟩ =
          some (Res.ret ok q)) ↔ spage + pages ≤ 255)) ∧
    (spage + pages ≤ 255 → ∀ a b fuel, a % 65536 = spage → b % 65536 = pages →
      pages < fuel →
      stm32_erase_memory fuel stm a b ⟨s, STM32_ACK :: r :: i, c⟩ =
        some (Res.ret (decide (r = STM32_ACK))
          ⟨s ++ cmd_bytes stm.cmd.er ++ [pages - 1] ++ List.range' spage pages ++
            [xorAll ((pages - 1) :: List.range' spage pages)], i, c - (pages + 4)⟩)) := by
  refine ⟨?_, ?_, ?_, ?_⟩
  · intro h2 fuel cs hf
    rw [Nat.mod_eq_of_lt (show spage < 256 by omega)]
    exact ⟨erase_loop8_run (pages + spage) (by omega) pages fuel spage cs s i c (by omega) hf
      (by omega), List.length_range' _ _ _⟩
  · intro h2
    refine ⟨fun pg hpg => by omega, ?_, ?_⟩
    · intro fuel pg cs p x q hpg
      exact erase_loop8_never (pages + spage) (by omega) fuel pg cs p x q hpg
    · intro fuel cs hf
      exact erase_loop8_spins (pages + spage) (by omega) fuel _ cs s i c
        (Nat.mod_lt _ (by decide)) hf
  · intro a b ha hb
    have hs : spage < 65536 := by omega
    have hp : pages < 65536 := by omega
    constructor
    · rintro ⟨fuel, ok, q, h⟩
      rw [erase_memory_reduce, ha, hb] at h
      by_contra hgt
      exact regular_erase_never fuel stm spage pages _ _ her hs hp h1 hm (by omega)
        (send_command_run stm.cmd.er STM32_ACK s (r :: i) c (by omega)) ok q h
    · intro h2
      have h := regular_erase_run (pages + 1) stm spage pages s (r :: i) c her h1 h2 hc
        (by omega)
      rw [await_ack_cons, ← hb, ← ha, ← erase_memory_reduce, ha, hb] at h
      exact ⟨_, _, _, h⟩
  · intro h2 a b fuel ha hb hf
    rw [erase_memory_reduce, ha, hb,
      regular_erase_run fuel stm spage pages s (r :: i) c her h1 h2 hc hf, await_ack_cons]

/-- C26 at three pages from page 4 (the loop ends after three bytes, also when the
caller passes the start page as 65540), and at one page from page 255 (the counter wraps
to 0 and the loop goes on). -/
theorem regular_erase_loop_ends_iff_witness :
    (sample_stm.cmd.er ≠ STM32_CMD_EE ∧ 1 ≤ 3 ∧ 3 ≠ 0xFFFF ∧ 3 + 4 ≤ 7 ∧ 4 + 3 ≤ 255 ∧
      3 < 4 ∧ 65540 % 65536 = 4 ∧ 3 % 65536 = 3 ∧ 1 ≤ 1 ∧ 1 ≠ 0xFFFF ∧ 1 + 4 ≤ 7 ∧
      256 ≤ 255 + 1 ∧ 7 ≤ 7 ∧ 255 % 65536 = 255 ∧ 1 % 65536 = 1) ∧
    (erase_loop8 (3 + 4) 4 (4 % 256) 2 ⟨[], [], 7⟩ =
        some (Res.ret ((List.range' 4 3).foldl (fun c b => (c ^^^ b) % 256) 2)
          ⟨[] ++ List.range' 4 3, [], 7 - 3⟩) ∧
      (List.range' 4 3).length = 3) ∧
    stm32_erase_memory 4 sample_stm 65540 3 ⟨[], STM32_ACK :: STM32_ACK :: [], 7⟩ =
      some (Res.ret (decide (STM32_ACK = STM32_ACK))
        ⟨[] ++ cmd_bytes sample_stm.cmd.er ++ [3 - 1] ++ List.range' 4 3 ++
          [xorAll ((3 - 1) :: List.range' 4 3)], [], 7 - (3 + 4)⟩) ∧
    [] ++ cmd_bytes sample_stm.cmd.er ++ [3 - 1] ++ List.range' 4 3 ++
      [xorAll ((3 - 1) :: List.range' 4 3)] = [0x43, 0xBC, 0x02, 0x04, 0x05, 0x06, 0x05] ∧
    erase_loop8 (1 + 255) 7 (255 % 256) 0 ⟨[], [], 7⟩ = none ∧
    ¬ ∃ fuel b q, stm32_erase_memory fuel sample_stm 255 1
      ⟨[], STM32_ACK :: STM32_ACK :: [], 7⟩ = some (Res.ret b q) :=
  ⟨by decide,
    (regular_erase_loop_ends_iff sample_stm 4 3 STM32_ACK [] [] 7 (by decide) (by decide)
      (by decide) (by decide)).1 (by decide) 4 2 (by decide),
    (regular_erase_loop_ends_iff sample_stm 4 3 STM32_ACK [] [] 7 (by decide) (by decide)
      (by decide) (by decide)).2.2.2 (by decide) 65540 3 4 (by decide) (by decide) (by decide),
    by decide,
    ((regular_erase_loop_ends_iff sample_stm 255 1 STM32_ACK [] [] 7 (by decide) (by decide)
      (by decide) (by decide)).2.1 (by decide)).2.2 7 0 (by decide),
    fun h => absurd (((regular_erase_loop_ends_iff sample_stm 255 1 STM32_ACK [] [] 7
      (by decide) (by decide) (by decide) (by decide)).2.2.1 255 1 (by decide) (by decide)).1 h)
      (by decide)⟩

/-! ## The reset trampoline -/

/-- On either host the storage of `le_u32 v` is the word least significant byte first. -/
theorem storage_le_u32 (host_le : Bool) (v : Nat) :
    u32_storage host_le (le_u32 host_le v) = le_bytes v := by
  cases host_le
  · have h := pack_bytes (byteOf v 0) (byteOf v 1) (byteOf v 2) (byteOf v 3) (byteOf_lt _ _)
      (byteOf_lt _ _) (byteOf_lt _ _) (byteOf_lt _ _)
    simp only [u32_storage, le_u32, le_bytes]
    simp only [byteOf] at h ⊢
    norm_num at h ⊢
    omega
  · simp only [u32_storage, le_u32, le_bytes, byteOf, if_true]
    norm_num
    omega

theorem le_bytes_mod (v : Nat) : le_bytes (v % 2 ^ 32) = le_bytes v := by
  simp only [le_bytes, byteOf]
  norm_num
  omega

theorem le_bytes_lt (v : Nat) : ∀ b ∈ le_bytes v, b < 256 := by
  intro b hb
  simp only [le_bytes, List.mem_cons, List.mem_singleton, List.not_mem_nil, or_false] at hb
  rcases hb with h | h | h | h <;> rw [h] <;> exact byteOf_lt _ _

theorem reset_block_lt (t : Nat) : ∀ b ∈ reset_block t, b < 256 := by
  intro b hb
  unfold reset_block at hb
  rcases List.mem_append.1 hb with h | h
  · rcases List.mem_append.1 h with h2 | h2
    · exact le_bytes_lt _ b h2
    · exact le_bytes_lt _ b h2
  · have hcode : ∀ x ∈ stm_reset_code, x < 256 := by decide
    exact hcode b h

theorem reset_block_length (t : Nat) : (reset_block t).length = 24 := by
  simp [reset_block, le_bytes, stm_reset_code]


theorem run_raw_loop_once (host_le : Bool) (stm : stm32_t) (mem : List Nat) (fuel t len : Nat)
    (s i : List Nat) (c : Nat) (h1 : 1 ≤ len) (h2 : len ≤ 256) (hm : mem.length = len)
    (hb : ∀ b ∈ mem, b < 256) (ha : t % 4 = 0) (hc : 8 + len + (4 - len % 4) % 4 + 1 ≤ c) :
    run_raw_loop host_le stm mem (fuel + 2) t 0 len
        ⟨s, STM32_ACK :: STM32_ACK :: STM32_ACK :: i, c⟩ =
      some (Res.ret true
        ⟨s ++ wm_frame host_le stm t mem len, i, c - (8 + len + (4 - len % 4) % 4 + 1)⟩) := by
  rw [run_raw_loop, if_pos (by omega)]
  simp only []
  rw [if_neg (by omega), List.drop_zero,
    write_memory_run host_le stm t mem len s _ c h1 h2 (by omega) hb ha hc, await_ack_cons]
  simp only [decide_True]
  rw [run_raw_loop, if_neg (by omega)]
  simp only [wm_frame, List.append_assoc]

theorem run_raw_code_reset (fuel : Nat) (host_le : Bool) (stm : stm32_t) (t r : Nat)
    (s i : List Nat) (c : Nat) (ha : t % 4 = 0) (hc : 40 ≤ c) :
    stm32_run_raw_code (fuel + 2) host_le stm t stm_reset_code stm_reset_code_length
        ⟨s, STM32_ACK :: STM32_ACK :: STM32_ACK :: STM32_ACK :: r :: i, c⟩ =
      some (Res.ret (decide (r = STM32_ACK))
        ⟨s ++ wm_frame host_le stm t (reset_block t) 24 ++
          (cmd_bytes stm.cmd.go ++ be_bytes t ++ [stm32_gen_cs (be_u32 host_le t)]),
         i, c - 40⟩) := by
  have hmem : u32_storage host_le (le_u32 host_le 0x20002000) ++
      u32_storage host_le (le_u32 host_le ((t + 8) % 2 ^ 32)) ++
      stm_reset_code.take stm_reset_code_length = reset_block t := by
    rw [storage_le_u32, storage_le_u32, le_bytes_mod]
    rfl
  unfold stm32_run_raw_code
  rw [if_neg (by simpa using ha)]
  simp only [hmem]
  have hlen : (stm_reset_code_length + 8) % 2 ^ 32 = 24 := by decide
  rw [hlen, run_raw_loop_once host_le stm (reset_block t) fuel t 24 s _ c (by decide) (by decide)
    (reset_block_length t) (reset_block_lt t) ha (by omega)]
  simp only []
  rw [go_run host_le stm t _ _ _ (by omega), await_ack_cons]
  simp only [List.append_assoc, Nat.sub_sub]

theorem wm_frame_reset (host_le : Bool) (stm : stm32_t) (t : Nat) :
    wm_frame host_le stm t (reset_block t) 24 =
      cmd_bytes stm.cmd.wm ++ be_bytes t ++ [stm32_gen_cs (be_u32 host_le t)] ++ [23] ++
        reset_block t ++ [xorAll (23 :: reset_block t)] := by
  have ht : (reset_block t).take 24 = reset_block t :=
    List.take_of_length_le (by rw [reset_block_length])
  unfold wm_frame
  rw [ht]
  simp

/-- C21: for every 4-byte-aligned target address `t`, on a device that acknowledges
every stage, `stm32_run_raw_code` with the reset code uploads the 24-byte block whose
bytes 0..3 are 0x20002000 least significant byte first, bytes 4..7 are `t + 8` least
significant byte first and bytes 8..23 are `stm_reset_code`, in one Write Memory at `t`
with length byte 23 and no filler byte, and then sends Go at `t`; `stm32_reset_device`
does this at `ram_bl_res`. -/
theorem reset_trampoline (fuel : Nat) (host_le : Bool) (stm : stm32_t) (t r : Nat)
    (s i : List Nat) (c : Nat) (ha : t % 4 = 0) (hc : 40 ≤ c) :
    stm32_run_raw_code (fuel + 2) host_le stm t stm_reset_code stm_reset_code_length
        ⟨s, STM32_ACK :: STM32_ACK :: STM32_ACK :: STM32_ACK :: r :: i, c⟩ =
      some (Res.ret (decide (r = STM32_ACK))
        ⟨s ++ (cmd_bytes stm.cmd.wm ++ be_bytes t ++ [stm32_gen_cs (be_u32 host_le t)] ++
            [23] ++ reset_block t ++ [xorAll (23 :: reset_block t)]) ++
          (cmd_bytes stm.cmd.go ++ be_bytes t ++ [stm32_gen_cs (be_u32 host_le t)]),
         i, c - 40⟩) ∧
    (reset_block t).length = 24 ∧
    (reset_block t).take 4 = [0x00, 0x20, 0x00, 0x20] ∧
    ((reset_block t).drop 4).take 4 =
      [(t + 8) % 256, (t + 8) / 256 % 256, (t + 8) / 65536 % 256, (t + 8) / 16777216 % 256] ∧
    (reset_block t).drop 8 = stm_reset_code ∧
    (4 - 24 % 4) % 4 = 0 ∧
    (stm.dev.ram_bl_res = t →
      stm32_reset_device (fuel + 2) host_le stm
          ⟨s, STM32_ACK :: STM32_ACK :: STM32_ACK :: STM32_ACK :: r :: i, c⟩ =
        stm32_run_raw_code (fuel + 2) host_le stm t stm_reset_code stm_reset_code_length
          ⟨s, STM32_ACK :: STM32_ACK :: STM32_ACK :: STM32_ACK :: r :: i, c⟩) := by
  refine ⟨?_, reset_block_length t, ?_, ?_, ?_, by decide, ?_⟩
  · rw [run_raw_code_reset fuel host_le stm t r s i c ha hc, wm_frame_reset]
  · simp [reset_block, le_bytes, byteOf]
  · simp [reset_block, le_bytes, byteOf]
  · simp [reset_block, le_bytes]
  · intro ht
    unfold stm32_reset_device
    rw [ht]

/-- C21 at the device of product ID 0x410, whose `ram_bl_res` is 0x20000200: the block
holds the stack pointer, the address 0x20000208 and the reset code. -/
theorem reset_trampoline_witness :
    (0x20000200 % 4 = 0 ∧ 40 ≤ 40 ∧ sample_stm.dev.ram_bl_res = 0x20000200) ∧
    stm32_reset_device (0 + 2) true sample_stm
        ⟨[], STM32_ACK :: STM32_ACK :: STM32_ACK :: STM32_ACK :: STM32_ACK :: [], 40⟩ =
      some (Res.ret (decide (STM32_ACK = STM32_ACK))
        ⟨[] ++ (cmd_bytes sample_stm.cmd.wm ++ be_bytes 0x20000200 ++
            [stm32_gen_cs (be_u32 true 0x20000200)] ++
            [23] ++ reset_block 0x20000200 ++ [xorAll (23 :: reset_block 0x20000200)]) ++
          (cmd_bytes sample_stm.cmd.go ++ be_bytes 0x20000200 ++
            [stm32_gen_cs (be_u32 true 0x20000200)]),
         [], 40 - 40⟩) ∧
    reset_block 0x20000200 =
      [0x00, 0x20, 0x00, 0x20, 0x08, 0x02, 0x00, 0x20,
       0x01, 0x49, 0x02, 0x4A, 0x0A, 0x60, 0xfe, 0xe7,
       0x0c, 0xed, 0x00, 0xe0, 0x04, 0x00, 0xfa, 0x05] ∧
    be_bytes 0x20000200 = [0x20, 0x00, 0x02, 0x00] :=
  ⟨by decide,
    ((reset_trampoline 0 true sample_stm 0x20000200 STM32_ACK [] [] 40 (by decide)
      (by decide)).2.2.2.2.2.2 (by decide)).trans
      (reset_trampoline 0 true sample_stm 0x20000200 STM32_ACK [] [] 40 (by decide)
        (by decide)).1,
    by decide, by decide⟩

/-! ## Chunks of a transfer -/

theorem chunk_count_pos (len : Nat) (h : 0 < len) :
    chunk_count len = chunk_count (len - 256) + 1 := by
  unfold chunk_count
  omega

theorem spans_zero (start : Nat) : spans start 0 = [] := rfl

theorem spans_length (start len : Nat) : (spans start len).length = chunk_count len := by
  simp [spans]

theorem spans_unroll (start len : Nat) (h : 0 < len) :
    spans start len = ⟨start, min 256 len⟩ :: spans (start + 256) (len - 256) := by
  unfold spans
  rw [chunk_count_pos len h, List.range_succ_eq_map, List.map_cons, List.map_map]
  congr 1
  apply List.map_congr_left
  intro k _
  simp only [Function.comp, Span.mk.injEq]
  constructor <;> omega

theorem spans_sum : ∀ (n start len : Nat), chunk_count len = n →
    ((spans start len).map (fun e => e.len)).sum = len := by
  intro n
  induction n with
  | zero =>
    intro start len h
    have h0 : len = 0 := by
      unfold chunk_count at h
      omega
    rw [h0]
    rfl
  | succ n ih =>
    intro start len h
    have hp : 0 < len := by
      unfold chunk_count at h
      omega
    rw [spans_unroll start len hp, List.map_cons, List.sum_cons,
      ih (start + 256) (len - 256) (by rw [chunk_count_pos len hp] at h; omega)]
    show min 256 len + (len - 256) = len
    omega

theorem spans_get (start len k : Nat) (h : k < chunk_count len) :
    (spans start len)[k]? = some ⟨start + 256 * k, min 256 (len - 256 * k)⟩ := by
  unfold spans
  rw [List.getElem?_map, List.getElem?_range h]
  rfl

theorem spans_mem (start len : Nat) (e : Span) (he : e ∈ spans start len) :
    ∃ k, k < chunk_count len ∧ e = ⟨start + 256 * k, min 256 (len - 256 * k)⟩ := by
  unfold spans at he
  rw [List.mem_map] at he
  obtain ⟨k, hk, rfl⟩ := he
  exact ⟨k, List.mem_range.1 hk, rfl⟩

/-! ## The read loop -/

/-- One turn of the read loop with a device that acknowledges the three stages and
delivers the chunk, and a sink that takes it. -/
theorem read_loop_step {σ : Type} (host_le : Bool) (stm : stm32_t)
    (write : σ → List Nat → Bool × σ) (end_addr fuel addr : Nat) (st : σ) (log : List Span)
    (s chunk rest : List Nat) (c len : Nat) (hlt : addr < end_addr)
    (hlen : len = min 256 (end_addr - addr)) (hch : chunk.length = len)
    (ha : addr % 4 = 0) (hc : 9 ≤ c) (hw : (write st chunk).1 = true) :
    read_loop host_le stm write end_addr (fuel + 1) addr st log
        ⟨s, STM32_ACK :: STM32_ACK :: STM32_ACK :: (chunk ++ rest), c⟩ =
      read_loop host_le stm write end_addr fuel ((addr + len) % 2 ^ 32) (write st chunk).2
        (log ++ [⟨addr, len⟩]) ⟨s ++ rm_frame host_le stm addr len, rest, c - 9⟩ := by
  have hl : (if 256 > end_addr - addr then end_addr - addr else 256) = len := by
    rw [hlen]
    split <;> omega
  rw [read_loop, if_pos hlt]
  simp only [hl]
  rw [read_memory_run host_le stm addr len s chunk rest c (by omega) (by omega) hch ha hc]
  simp only []
  rw [List.take_of_length_le (by omega)]
  cases hwr : write st chunk with
  | mk ok st1 =>
    rw [hwr] at hw
    simp only [] at hw
    rw [hw]
    simp only [rm_frame, List.append_assoc]

theorem read_loop_run {σ : Type} (host_le : Bool) (stm : stm32_t)
    (write : σ → List Nat → Bool × σ) (hw : ∀ st bytes, (write st bytes).1 = true)
    (end_addr : Nat) (he : end_addr < 2 ^ 32) (i : List Nat) (n : Nat) :
    ∀ (mem : List Nat) (addr fuel : Nat) (st : σ) (log : List Span) (s : List Nat) (c : Nat),
      chunk_count mem.length = n → addr + mem.length = end_addr →
      (0 < mem.length → addr % 4 = 0) → n < fuel → 9 * n ≤ c →
      ∃ st1 q,
        read_loop host_le stm write end_addr fuel addr st log
            ⟨s, read_replies n mem ++ i, c⟩ =
          some (Res.ret (ReadEnd.ok, log ++ spans addr mem.length, st1) q) ∧
        q.inp = i := by
  induction n with
  | zero =>
    intro mem addr fuel st log s c hn hm _ hf _
    have h0 : mem.length = 0 := by
      unfold chunk_count at hn
      omega
    obtain ⟨f, rfl⟩ : ∃ f, fuel = f + 1 := ⟨fuel - 1, by omega⟩
    refine ⟨st, ⟨s, i, c⟩, ?_, rfl⟩
    rw [read_loop, if_neg (by omega), h0, spans_zero, List.append_nil]
    rfl
  | succ n ih =>
    intro mem addr fuel st log s c hn hm ha hf hc
    have hp : 0 < mem.length := by
      unfold chunk_count at hn
      omega
    obtain ⟨f, rfl⟩ : ∃ f, fuel = f + 1 := ⟨fuel - 1, by omega⟩
    have hcc := chunk_count_pos mem.length hp
    have htl : (mem.take 256).length = min 256 (end_addr - addr) := by
      rw [List.length_take]
      omega
    have hdl : (mem.drop 256).length = mem.length - 256 := List.length_drop _ _
    rw [read_replies, List.cons_append, List.cons_append, List.cons_append, List.append_assoc,
      read_loop_step host_le stm write end_addr f addr st log s (mem.take 256) _ c
        (min 256 (end_addr - addr)) (by omega) rfl htl (ha hp) (by omega) (hw _ _)]
    have hadd : (addr + min 256 (end_addr - addr)) % 2 ^ 32 = addr + min 256 (end_addr - addr) :=
      Nat.mod_eq_of_lt (by omega)
    rw [hadd]
    obtain ⟨st1, q, hrun, hq⟩ := ih (mem.drop 256) (addr + min 256 (end_addr - addr)) f
      (write st (mem.take 256)).2 (log ++ [⟨addr, min 256 (end_addr - addr)⟩])
      (s ++ rm_frame host_le stm addr (min 256 (end_addr - addr))) (c - 9)
      (by rw [hdl]; omega) (by rw [hdl]; omega) (by rw [hdl]; intro h2; have := ha hp; omega)
      (by omega) (by omega)
    refine ⟨st1, q, ?_, hq⟩
    rw [hrun, hdl, spans_unroll addr mem.length hp, List.append_assoc, List.singleton_append]
    have e1 : min 256 (end_addr - addr) = min 256 mem.length := by omega
    rw [e1]
    by_cases h256 : 256 ≤ mem.length
    · rw [Nat.min_eq_left h256]
    · have hz : mem.length - 256 = 0 := by omega
      rw [hz, spans_zero, spans_zero]

/-- A Read Memory call at an unaligned address fails: the loop stops at the alignment
assertion of its first call, with nothing sent. -/
theorem read_loop_unaligned {σ : Type} (host_le : Bool) (stm : stm32_t)
    (write : σ → List Nat → Bool × σ) (end_addr fuel addr : Nat) (st : σ) (log : List Span)
    (p : Port) (h : addr < end_addr) (ha : addr % 4 ≠ 0) :
    read_loop host_le stm write end_addr (fuel + 1) addr st log p = some (Res.halt p) := by
  have hrm : ∀ len, stm32_read_memory host_le stm addr len p = Res.halt p := by
    intro len
    unfold stm32_read_memory
    by_cases hl : len > 0 ∧ len < 257
    · rw [if_neg (not_not.2 hl), if_pos ha]
      rfl
    · rw [if_pos hl]
      rfl
  rw [read_loop, if_pos h]
  simp only [hrm]

/-- C23: for every range with `start <= end` (held by the device as the bytes `mem`),
when no call fails (a call is made only at a 4-byte-aligned address, the device
acknowledges every stage and delivers the bytes, the output file takes them) the read
loop ends with `ret = 0` after exactly `ceil((end - start) / 256)` Read Memory calls:
call `k` is at `start + 256 * k` with the least of 256 and the bytes left as its length,
so the chunks follow one another from `start`, each length is between 1 and 256, the
lengths add up to `end - start`, and every address is a multiple of 4 when `start` is. -/
theorem read_loop_chunks {σ : Type} (host_le : Bool) (stm : stm32_t)
    (write : σ → List Nat → Bool × σ) (start end_addr : Nat) (mem : List Nat) (st : σ)
    (s i : List Nat) (c fuel : Nat) (hw : ∀ st bytes, (write st bytes).1 = true)
    (hm : start + mem.length = end_addr) (he : end_addr < 2 ^ 32)
    (ha : start < end_addr → start % 4 = 0)
    (hf : chunk_count mem.length < fuel) (hc : 9 * chunk_count mem.length ≤ c) :
    (∃ st1 q,
      read_loop host_le stm write end_addr fuel start st []
          ⟨s, read_replies (chunk_count mem.length) mem ++ i, c⟩ =
        some (Res.ret (ReadEnd.ok, spans start (end_addr - start), st1) q) ∧
      q.inp = i) ∧
    (spans start (end_addr - start)).length = (end_addr - start + 255) / 256 ∧
    (∀ k, k < (end_addr - start + 255) / 256 →
      (spans start (end_addr - start))[k]? =
        some ⟨start + 256 * k, min 256 (end_addr - start - 256 * k)⟩) ∧
    (∀ k, k + 1 < (end_addr - start + 255) / 256 →
      min 256 (end_addr - start - 256 * k) = 256) ∧
    (∀ e ∈ spans start (end_addr - start),
      1 ≤ e.len ∧ e.len ≤ 256 ∧ (start % 4 = 0 → e.addr % 4 = 0) ∧ start ≤ e.addr ∧
        e.addr + e.len ≤ end_addr) ∧
    ((spans start (end_addr - start)).map (fun e => e.len)).sum = end_addr - start := by
  have hL : end_addr - start = mem.length := by omega
  refine ⟨?_, spans_length _ _, ?_, ?_, ?_, spans_sum _ _ _ rfl⟩
  · obtain ⟨st1, q, hrun, hq⟩ := read_loop_run host_le stm write hw end_addr he i
      (chunk_count mem.length) mem start fuel st [] s c rfl hm (fun h => ha (by omega)) hf hc
    rw [List.nil_append] at hrun
    rw [hL]
    exact ⟨st1, q, hrun, hq⟩
  · intro k hk
    exact spans_get start (end_addr - start) k hk
  · intro k hk
    omega
  · intro e hmem
    obtain ⟨k, hk, rfl⟩ := spans_mem _ _ e hmem
    unfold chunk_count at hk
    simp only []
    refine ⟨?_, ?_, ?_, ?_, ?_⟩ <;> omega

theorem replicate_300 : (List.replicate 300 0xAB).length = 300 := List.length_replicate _ _

theorem count_300 : chunk_count (List.replicate 300 0xAB).length = 2 := by
  rw [replicate_300]
  decide

/-- C23 at 300 bytes of RAM from 0x20000200: two calls, of 256 and of 44 bytes. -/
theorem read_loop_chunks_witness :
    ((∀ (st bytes : List Nat), ((fun (a b : List Nat) => (true, a ++ b)) st bytes).1 = true) ∧
      0x20000200 + (List.replicate 300 0xAB).length = 0x2000032C ∧
      0x2000032C < 2 ^ 32 ∧ (0x20000200 < 0x2000032C → 0x20000200 % 4 = 0) ∧
      chunk_count (List.replicate 300 0xAB).length < 3 ∧
      9 * chunk_count (List.replicate 300 0xAB).length ≤ 18) ∧
    (∃ st1 q,
      read_loop true sample_stm (fun (a b : List Nat) => (true, a ++ b)) 0x2000032C 3
          0x20000200 [] []
          ⟨[], read_replies (chunk_count (List.replicate 300 0xAB).length)
            (List.replicate 300 0xAB) ++ [], 18⟩ =
        some (Res.ret (ReadEnd.ok, spans 0x20000200 (0x2000032C - 0x20000200), st1) q) ∧
      q.inp = []) ∧
    spans 0x20000200 (0x2000032C - 0x20000200) = [⟨0x20000200, 256⟩, ⟨0x20000300, 44⟩] :=
  ⟨⟨fun _ _ => rfl, by simp only [replicate_300], by decide, fun _ => by decide,
      by simp only [count_300]; decide, by simp only [count_300]; decide⟩,
    (read_loop_chunks true sample_stm (fun (a b : List Nat) => (true, a ++ b)) 0x20000200
      0x2000032C (List.replicate 300 0xAB) [] [] [] 18 3 (fun _ _ => rfl)
      (by simp only [replicate_300]) (by decide) (fun _ => by decide)
      (by simp only [count_300]; decide) (by simp only [count_300]; decide)).1,
    by decide⟩

/-! ## The write loop: chunk sizes -/

theorem first_mismatch_self (buffer : List Nat) (len : Nat) :
    first_mismatch buffer buffer len = none := by
  unfold first_mismatch
  rw [List.find?_eq_none]
  intro x _
  simp

/-- The loop of one chunk with a device that acknowledges every stage and, under
verification, returns the chunk unchanged: one Write Memory (and one Read Memory), then
the chunk is done. -/
theorem write_chunk_ok (host_le : Bool) (stm : stm32_t) (verify : Bool) (retry : Int)
    (addr : Nat) (buffer : List Nat) (len fuel : Nat) (failed : Int) (s rest : List Nat)
    (c : Nat) (h1 : 1 ≤ len) (h2 : len ≤ 256) (hd : buffer.length = len)
    (hb : ∀ b ∈ buffer, b < 256) (ha : addr % 4 = 0) (hc : 280 ≤ c) :
    write_chunk host_le stm verify retry addr buffer len (fuel + 1) failed
        ⟨s, chunk_replies verify buffer ++ rest, c⟩ =
      some (Res.ret
        (ChunkEnd.done (if verify then 0 else failed) (if verify then some buffer else none))
        ⟨s ++ (wm_frame host_le stm addr buffer len ++
            (if verify then rm_frame host_le stm addr len else [])), rest,
          c - (9 + len + (4 - len % 4) % 4 + (if verify then 9 else 0))⟩) := by
  cases verify with
  | false =>
    have hin : chunk_replies false buffer ++ rest =
        STM32_ACK :: STM32_ACK :: STM32_ACK :: rest := by
      simp [chunk_replies]
    rw [write_chunk, hin, write_memory_run host_le stm addr buffer len s _ c h1 h2 (by omega) hb
      ha (by omega), await_ack_cons]
    simp only [decide_True, Bool.false_eq_true, if_false, List.append_nil, Nat.add_zero,
      wm_frame, List.append_assoc]
    have e : c - (8 + len + (4 - len % 4) % 4 + 1) = c - (9 + len + (4 - len % 4) % 4) := by
      omega
    rw [e]
  | true =>
    have hin : chunk_replies true buffer ++ rest = round_replies buffer ++ rest := by
      simp [chunk_replies, round_replies]
    have h := write_chunk_round host_le stm retry addr buffer len fuel failed s buffer rest c
      h1 h2 (by omega) hb ha hd (by omega)
    rw [first_mismatch_self] at h
    simp only [] at h
    rw [hin, h]
    simp only [if_true, List.append_assoc]
    have e : c - (18 + len + (4 - len % 4) % 4) = c - (9 + len + (4 - len % 4) % 4 + 9) := by
      omega
    rw [e]

theorem chunk_len_full (end_addr addr size offset L : Nat) (hs : size - offset = L)
    (hr : addr + L ≤ end_addr) : chunk_len end_addr addr size offset = min 256 L := by
  unfold chunk_len
  simp only [hs]
  split <;> split <;> omega

theorem take_min_256 (data : List Nat) :
    data.take (min 256 data.length) = data.take 256 := by
  by_cases h : 256 ≤ data.length
  · rw [Nat.min_eq_left h]
  · rw [Nat.min_eq_right (by omega), List.take_of_length_le (Nat.le_refl _),
      List.take_of_length_le (by omega)]

theorem drop_min_256 (data : List Nat) :
    data.drop (min 256 data.length) = data.drop 256 := by
  by_cases h : 256 ≤ data.length
  · rw [Nat.min_eq_left h]
  · rw [Nat.min_eq_right (by omega), List.drop_of_length_le (Nat.le_refl _),
      List.drop_of_length_le (by omega)]

theorem write_loop_run (host_le : Bool) (stm : stm32_t) (verify : Bool) (retry : Int)
    (from_stdin : Bool) (end_addr size : Nat) (he : end_addr < 2 ^ 32) (i : List Nat) (n : Nat) :
    ∀ (data : List Nat) (addr offset fuel : Nat) (failed : Int) (log : List ChunkLog)
      (s : List Nat) (c : Nat),
      chunk_count data.length = n → offset + data.length = size →
      addr + data.length ≤ end_addr → (0 < data.length → addr % 4 = 0) →
      (∀ b ∈ data, b < 256) → n < fuel → 280 * n ≤ c →
      ∃ c1,
        write_loop host_le stm list_source verify retry from_stdin end_addr size fuel addr
            offset failed data log ⟨s, write_replies verify n data ++ i, c⟩ =
          some (Res.ret (WriteEnd.ok, log ++ write_log verify n addr data)
            ⟨s ++ write_sent host_le stm verify n addr data, i, c1⟩) := by
  induction n with
  | zero =>
    intro data addr offset fuel failed log s c hn hsz _ _ _ hf _
    have h0 : data.length = 0 := by
      unfold chunk_count at hn
      omega
    obtain ⟨f, rfl⟩ : ∃ f, fuel = f + 1 := ⟨fuel - 1, by omega⟩
    refine ⟨c, ?_⟩
    rw [write_loop_end host_le stm list_source verify retry from_stdin end_addr size f addr
      offset failed data log _ (by omega)]
    simp [write_log, write_sent, write_replies]
  | succ n ih =>
    intro data addr offset fuel failed log s c hn hsz hr ha hb hf hc
    have hp : 0 < data.length := by
      unfold chunk_count at hn
      omega
    obtain ⟨f, rfl⟩ : ∃ f, fuel = f + 1 := ⟨fuel - 1, by omega⟩
    have hcc := chunk_count_pos data.length hp
    have hlen : chunk_len end_addr addr size offset = min 256 data.length :=
      chunk_len_full end_addr addr size offset data.length (by omega) hr
    have htl : (data.take 256).length = min 256 data.length := List.length_take _ _
    have hdl : (data.drop 256).length = data.length - 256 := List.length_drop _ _
    have hbt : ∀ b ∈ data.take 256, b < 256 := fun b h => hb b (List.mem_of_mem_take h)
    have hbd : ∀ b ∈ data.drop 256, b < 256 := fun b h => hb b (List.mem_of_mem_drop h)
    have hrd : list_source.read data (min 256 data.length) =
        (true, data.take 256, data.drop 256) := by
      simp only [list_source, take_min_256, drop_min_256]
    have hbuf : (data.take 256).take (min 256 data.length) = data.take 256 :=
      List.take_of_length_le (by omega)
    have hch := write_chunk_ok host_le stm verify retry addr (data.take 256)
      (min 256 data.length) f failed s (write_replies verify n (data.drop 256) ++ i) c
      (by omega) (by omega) htl hbt (ha hp) (by omega)
    rw [write_replies, List.append_assoc,
      write_loop_step host_le stm list_source verify retry from_stdin end_addr size f addr offset
        failed data log _ (min 256 data.length) (data.take 256) (data.drop 256) (data.take 256)
        (min 256 data.length) _ _ _ ⟨by omega, by omega⟩ hlen hrd hbuf htl (by omega) hch]
    have hadd : (addr + min 256 data.length) % 2 ^ 32 = addr + min 256 data.length :=
      Nat.mod_eq_of_lt (by omega)
    rw [hadd]
    obtain ⟨c1, hrun⟩ := ih (data.drop 256) (addr + min 256 data.length)
      (offset + min 256 data.length) f (if verify then 0 else failed)
      (log ++ [⟨addr, data.take 256, if verify then some (data.take 256) else none⟩])
      (s ++ (wm_frame host_le stm addr (data.take 256) (min 256 data.length) ++
        (if verify then rm_frame host_le stm addr (min 256 data.length) else [])))
      (c - (9 + min 256 data.length + (4 - min 256 data.length % 4) % 4 +
        (if verify then 9 else 0)))
      (by rw [hdl]; omega) (by rw [hdl]; omega) (by rw [hdl]; omega)
      (by rw [hdl]; intro h2; have := ha hp; omega) hbd (by omega)
      (by split <;> omega)
    refine ⟨c1, ?_⟩
    rw [hrun, write_log, write_sent, htl]
    simp only [List.append_assoc, List.singleton_append]

theorem write_log_length (verify : Bool) (n : Nat) :
    ∀ (addr : Nat) (data : List Nat), (write_log verify n addr data).length = n := by
  induction n with
  | zero => intro addr data; rfl
  | succ n ih =>
    intro addr data
    rw [write_log, List.length_cons, ih]

theorem write_log_spans (verify : Bool) (n : Nat) :
    ∀ (addr : Nat) (data : List Nat), chunk_count data.length = n →
      (write_log verify n addr data).map (fun c => (⟨c.addr, c.data.length⟩ : Span)) =
        spans addr data.length := by
  induction n with
  | zero =>
    intro addr data hn
    have h0 : data.length = 0 := by
      unfold chunk_count at hn
      omega
    rw [h0]
    rfl
  | succ n ih =>
    intro addr data hn
    have hp : 0 < data.length := by
      unfold chunk_count at hn
      omega
    have hcc := chunk_count_pos data.length hp
    have hdl : (data.drop 256).length = data.length - 256 := List.length_drop _ _
    rw [write_log, List.map_cons, ih _ _ (by rw [hdl]; omega), hdl,
      spans_unroll addr data.length hp, List.length_take]
    by_cases h256 : 256 ≤ data.length
    · rw [Nat.min_eq_left h256]
    · have hz : data.length - 256 = 0 := by omega
      rw [hz, spans_zero, spans_zero]

theorem write_log_data (verify : Bool) (n : Nat) :
    ∀ (addr : Nat) (data : List Nat), chunk_count data.length = n →
      ((write_log verify n addr data).map (fun c => c.data)).flatten = data := by
  induction n with
  | zero =>
    intro addr data hn
    have h0 : data.length = 0 := by
      unfold chunk_count at hn
      omega
    rw [List.length_eq_zero.1 h0]
    rfl
  | succ n ih =>
    intro addr data hn
    have hp : 0 < data.length := by
      unfold chunk_count at hn
      omega
    have hcc := chunk_count_pos data.length hp
    have hdl : (data.drop 256).length = data.length - 256 := List.length_drop _ _
    rw [write_log, List.map_cons, List.flatten_cons, ih _ _ (by rw [hdl]; omega),
      List.take_append_drop]

/-- C22, as the code has it: for a write of the `N` bytes `data` from a 4-byte-aligned
start into a range of at least `N` bytes, with the input source that returns every chunk
in full and a device that acknowledges every exchange (and, under verification, returns
each chunk unchanged), the write loop ends with `ret = 0` after exactly `ceil(N / 256)`
chunks, each written by one Write Memory: chunk `k` is at `start + 256 * k`, its size is
the least of 256, the bytes left in the range and the bytes left in the input, the chunks
are the input in order and their sizes add up to `N`. -/
theorem write_loop_chunks (host_le : Bool) (stm : stm32_t) (verify : Bool) (retry : Int)
    (from_stdin : Bool) (start end_addr : Nat) (data : List Nat) (failed : Int)
    (s i : List Nat) (c fuel : Nat) (hb : ∀ b ∈ data, b < 256) (ha : start % 4 = 0)
    (hr : start + data.length ≤ end_addr) (he : end_addr < 2 ^ 32)
    (hf : chunk_count data.length < fuel) (hc : 280 * chunk_count data.length ≤ c) :
    (∃ c1,
      write_loop host_le stm list_source verify retry from_stdin end_addr data.length fuel
          start 0 failed data []
          ⟨s, write_replies verify (chunk_count data.length) data ++ i, c⟩ =
        some (Res.ret (WriteEnd.ok, write_log verify (chunk_count data.length) start data)
          ⟨s ++ write_sent host_le stm verify (chunk_count data.length) start data, i, c1⟩)) ∧
    (write_log verify (chunk_count data.length) start data).length =
      (data.length + 255) / 256 ∧
    (write_log verify (chunk_count data.length) start data).map
        (fun c => (⟨c.addr, c.data.length⟩ : Span)) = spans start data.length ∧
    ((write_log verify (chunk_count data.length) start data).map (fun c => c.data)).flatten =
      data ∧
    (∀ k, k < (data.length + 255) / 256 →
      (spans start data.length)[k]? =
        some ⟨start + 256 * k,
          min 256 (min (end_addr - (start + 256 * k)) (data.length - 256 * k))⟩) ∧
    ((spans start data.length).map (fun e => e.len)).sum = data.length := by
  refine ⟨?_, write_log_length _ _ _ _, write_log_spans _ _ _ _ rfl, write_log_data _ _ _ _ rfl,
    ?_, spans_sum _ _ _ rfl⟩
  · obtain ⟨c1, hrun⟩ := write_loop_run host_le stm verify retry from_stdin end_addr data.length
      he i (chunk_count data.length) data start 0 fuel failed [] s c rfl (by omega) hr
      (fun _ => ha) hb hf hc
    rw [List.nil_append] at hrun
    exact ⟨c1, hrun⟩
  · intro k hk
    rw [spans_get start data.length k hk]
    have e : min 256 (min (end_addr - (start + 256 * k)) (data.length - 256 * k)) =
        min 256 (data.length - 256 * k) := by omega
    rw [e]

theorem replicate_300_lt : ∀ b ∈ List.replicate 300 0xAB, b < 256 := by
  intro b h
  rw [List.eq_of_mem_replicate h]
  decide

/-- C22 at the scenarios of the claim on the device of product ID 0x410: 300 bytes go
out in two chunks of 256 and 44 bytes, neither with filler; 257 bytes in chunks of 256
and 1 byte, the second with three filler bytes 0xFF that enter its checksum. -/
theorem write_loop_chunks_witness :
    ((∀ b ∈ List.replicate 300 0xAB, b < 256) ∧ 0x20000200 % 4 = 0 ∧
      0x20000200 + (List.replicate 300 0xAB).length ≤ 0x2000032C ∧ 0x2000032C < 2 ^ 32 ∧
      chunk_count (List.replicate 300 0xAB).length < 3 ∧
      280 * chunk_count (List.replicate 300 0xAB).length ≤ 560) ∧
    (∃ c1,
      write_loop true sample_stm list_source false 10 false 0x2000032C
          (List.replicate 300 0xAB).length 3 0x20000200 0 0 (List.replicate 300 0xAB) []
          ⟨[], write_replies false (chunk_count (List.replicate 300 0xAB).length)
            (List.replicate 300 0xAB) ++ [], 560⟩ =
        some (Res.ret (WriteEnd.ok,
            write_log false (chunk_count (List.replicate 300 0xAB).length) 0x20000200
              (List.replicate 300 0xAB))
          ⟨[] ++ write_sent true sample_stm false (chunk_count (List.replicate 300 0xAB).length)
            0x20000200 (List.replicate 300 0xAB), [], c1⟩)) ∧
    spans 0x20000200 300 = [⟨0x20000200, 256⟩, ⟨0x20000300, 44⟩] ∧
    (4 - 256 % 4) % 4 = 0 ∧ (4 - 44 % 4) % 4 = 0 ∧
    spans 0x20000200 257 = [⟨0x20000200, 256⟩, ⟨0x20000300, 1⟩] ∧
    (4 - 1 % 4) % 4 = 3 ∧
    wm_frame true sample_stm 0x20000300 [0xAB] 1 =
      [0x31, 0xCE, 0x20, 0x00, 0x03, 0x00, 0x23, 3, 0xAB, 0xFF, 0xFF, 0xFF, 0x57] ∧
    xorAll [3, 0xAB, 0xFF, 0xFF, 0xFF] = 0x57 :=
  ⟨⟨replicate_300_lt, by decide, by simp only [replicate_300]; decide, by decide,
      by simp only [count_300]; decide, by simp only [count_300]; decide⟩,
    (write_loop_chunks true sample_stm false 10 false 0x20000200 0x2000032C
      (List.replicate 300 0xAB) 0 [] [] 560 3 replicate_300_lt (by decide)
      (by simp only [replicate_300]; decide) (by decide)
      (by simp only [count_300]; decide) (by simp only [count_300]; decide)).1,
    by decide, by decide, by decide, by decide, by decide, by decide, by decide⟩

/-- C22 as stated fails: for the four bytes DE AD BE EF written to RAM from the
unaligned address 0x20000201 (`-Mr -S 0x20000201:4`, a range `calc_workspace` accepts),
the first Write Memory call stops the program at its alignment assertion: nothing is
sent and no chunk is written, where the claim has one Write Memory of four bytes. -/
theorem write_loop_unaligned_start :
    (calc_workspace sample_stm
      ⟨MEM_TYPE_RAM, false, 0, -1, 4, 0x20000201, EXEC_FLAG_NONE, 0⟩).1 =
        some (0x20000201, 0x20000205) ∧
    write_loop true sample_stm list_source false 10 false 0x20000205 4 2 0x20000201 0 0
        [0xDE, 0xAD, 0xBE, 0xEF] [] ⟨[], [STM32_ACK, STM32_ACK, STM32_ACK], 64⟩ =
      some (Res.halt ⟨[], [STM32_ACK, STM32_ACK, STM32_ACK], 64⟩) ∧
    chunk_count 4 = 1 := by
  decide

end Stmflasher
